import Mathlib

/-!
# Resumable batch loader of the Islamic Knowledge assistant

A shallow embedding of `backend/scripts/loadProcessedData.js`, of the parts of
`backend/utils/qdrant.js` and `backend/models/KnowledgeSource.js` the loader
calls, of `safeFetch` in `backend/scripts/fetchIslamicData.js` and of the
normalizer in `backend/scripts/processIslamicData.js`, and the properties of
the ingestion pipeline settled against it.

Modelling conventions
* A JavaScript string is the list of its UTF-16 code units, so `.length` is
  `List.length`.
* A field of a parsed corpus record is `none` when it is missing or `null`,
  and `some s` when it holds the string `s`.
* The external collaborators (document store, vector index, embedding model)
  are explicit state in `World`; which of their calls throw is read from an
  `Env`, indexed by the position of the document inside the run.
* The batch loop is driven by fuel; `loadData` supplies enough of it for every
  positive batch size. The retry loop of `safeFetch` is driven by fuel as well.
* The method `String.prototype.toLowerCase` is a parameter of the normalizer.
-/

namespace IslamicKnowledge

/-! ## JavaScript strings -/

/-- A JavaScript string: its UTF-16 code units. -/
abbrev JsString := List Nat

/-- UTF-16 code units of one character. -/
def utf16 (c : Char) : List Nat :=
  if c.toNat < 65536 then [c.toNat]
  else [55296 + (c.toNat - 65536) / 1024, 56320 + (c.toNat - 65536) % 1024]

/-- The JavaScript string written by a literal. -/
def js (s : String) : JsString := s.toList.flatMap utf16

/-- Code units removed by `String.prototype.trim`: ECMAScript WhiteSpace and
LineTerminator. -/
def isJsWhitespace (u : Nat) : Bool :=
  u == 9 || u == 10 || u == 11 || u == 12 || u == 13 || u == 32 || u == 160 ||
  u == 5760 || (8192 ≤ u && u ≤ 8202) || u == 8232 || u == 8233 || u == 8239 ||
  u == 8287 || u == 12288 || u == 65279

/-- The method `String.prototype.trim`. -/
def jsTrim (s : JsString) : JsString :=
  ((s.dropWhile isJsWhitespace).reverse.dropWhile isJsWhitespace).reverse

/-- Truthiness of a value that is a string, `undefined` or `null`. -/
def truthy : Option JsString → Bool
  | some (_ :: _) => true
  | _ => false

/-- The operator `a || b` on values that are strings, `undefined` or `null`. -/
def jsOr (a b : Option JsString) : Option JsString :=
  if truthy a then a else b

/-- The expression `a || lit` whose right operand is a string literal. -/
def jsOrLit (a : Option JsString) (lit : JsString) : JsString :=
  match a with
  | some (c :: cs) => c :: cs
  | _ => lit

/-- The operator `a || b` on two strings. -/
def strOr (a b : JsString) : JsString :=
  match a with
  | [] => b
  | _ :: _ => a

/-- The method `Array.prototype.slice(start)` with an integer start. -/
def jsSlice {α : Type} (xs : List α) (start : Int) : List α :=
  if start < 0 then xs.drop (xs.length - start.natAbs) else xs.drop start.toNat

/-! ## Data model -/

/-- A record of the processed corpus file, as parsed from JSON. `tags` is
`none` when the field is not an array. -/
structure Doc where
  source_type : Option JsString
  reference : Option JsString
  arabic_text : Option JsString
  english_text : Option JsString
  context : Option JsString
  tags : Option (List JsString)
  deriving DecidableEq, Repr

/-- The object built by `sanitizeDoc`, which is what the document store is
asked to create. -/
structure SanDoc where
  source_type : JsString
  reference : JsString
  arabic_text : JsString
  english_text : JsString
  context : JsString
  tags : List JsString
  deriving DecidableEq, Repr

/-- An embedding vector; its components are opaque to the loader. -/
abbrev Embedding := List Int

/-- An element of `withEmbeddings`. -/
structure Entry where
  text : JsString
  source_type : JsString
  reference : JsString
  embedding : Embedding
  deriving DecidableEq, Repr

/-- The payload of a point of the vector index. -/
structure Payload where
  text : JsString
  source_type : JsString
  reference : JsString
  deriving DecidableEq, Repr

/-- A point sent to the vector index by `insertDocuments`. -/
structure Point where
  id : Int
  vector : Embedding
  payload : Payload
  deriving DecidableEq, Repr

/-- What the checkpoint file holds when it exists: text on which
`JSON.parse(...).lastIndex` throws, or an object with an optional integer
`lastIndex`. -/
inductive ProgressContent where
  | unparsable
  | object (lastIndex : Option Int)
  deriving DecidableEq, Repr

/-- The state outside the process: document store, vector index (`none` when
the collection does not exist) and checkpoint file (`none` when absent). -/
structure World where
  mongo : List SanDoc
  qdrant : Option (List Point)
  progressFile : Option ProgressContent
  deriving DecidableEq, Repr

/-- The behaviour of the collaborators during one run. Documents are numbered
from 0 in the order the run attempts them, batches from 1. -/
structure Env where
  /-- The vector the embedding model returns for a text, when it returns. -/
  embed : JsString → Embedding
  /-- On document `k` the call `generateEmbedding` throws. -/
  embedThrows : Nat → Bool
  /-- On document `k` the document store fails for a reason other than
  validation. -/
  createThrows : Nat → Bool
  /-- The points request of batch `n` fails. -/
  upsertThrows : Nat → Bool
  /-- The request deleting the collection fails (status other than success). -/
  deleteFault : Bool
  /-- The request reading the collection fails. -/
  existsFault : Bool
  /-- The request creating the collection fails. -/
  createFault : Bool
  /-- The call `KnowledgeSource.deleteMany` throws. -/
  deleteManyThrows : Bool
  /-- The call `KnowledgeSource.countDocuments` throws. -/
  countThrows : Bool
  /-- The call `unlinkSync` of `clearProgress` throws. -/
  unlinkThrows : Bool

/-! ## Helpers of `loadProcessedData.js` -/

/-- The constant `BATCH_SIZE`. -/
def BATCH_SIZE : Nat := 25

/-- The function `sanitizeDoc`. -/
def sanitizeDoc (doc : Doc) : SanDoc :=
  { source_type := jsOrLit doc.source_type (js "Hadith")
    reference := jsOrLit doc.reference (js "Unknown Reference")
    arabic_text := jsOrLit doc.arabic_text []
    english_text := jsOrLit (jsOr (jsOr doc.english_text doc.arabic_text) doc.reference) []
    context := jsOrLit doc.context []
    tags := match doc.tags with
      | some ts => ts
      | none => [] }

/-- The function `hasValidText`. -/
def hasValidText (doc : Doc) : Bool :=
  let text := jsOrLit (jsOr doc.english_text doc.arabic_text) []
  decide ((jsTrim text).length > 5)

/-- The function `saveProgress`. -/
def saveProgress (index : Int) (w : World) : World :=
  { w with progressFile := some (ProgressContent.object (some index)) }

/-- The function `loadProgress`. -/
def loadProgress (w : World) : Int :=
  match w.progressFile with
  | some (ProgressContent.object (some lastIndex)) => if lastIndex = 0 then 0 else lastIndex
  | some (ProgressContent.object none) => 0
  | some ProgressContent.unparsable => 0
  | none => 0

/-- The function `clearProgress`: the checkpoint file is removed when it
exists; an error of `unlinkSync` is caught and ignored, and the file then
stays. -/
def clearProgress (env : Env) (w : World) : World :=
  match w.progressFile with
  | none => w
  | some _ => if env.unlinkThrows then w else { w with progressFile := none }

/-! ## Document store (`models/KnowledgeSource.js`) -/

/-- The `enum` of the schema field `source_type`. -/
def sourceTypeEnum : List JsString :=
  [js "Quran", js "Hadith", js "Tafsir", js "Fiqh", js "Seerah", js "Dua"]

/-- Validation by `knowledgeSourceSchema`: `source_type` is required and in
the enum, `reference` is required. -/
def knowledgeSourceSchema (doc : SanDoc) : Bool :=
  doc.source_type != [] && sourceTypeEnum.contains doc.source_type && doc.reference != []

/-- The call `KnowledgeSource.create(doc)` for document `k` of the run: `none`
when it throws (a `ValidationError` or a store error), else the store with the
document added. -/
def KnowledgeSource.create (env : Env) (k : Nat) (doc : SanDoc) (mongo : List SanDoc) :
    Option (List SanDoc) :=
  if knowledgeSourceSchema doc && !env.createThrows k then some (mongo ++ [doc]) else none

/-- The call `KnowledgeSource.deleteMany({})`: `none` when it throws. -/
def KnowledgeSource.deleteMany (env : Env) (w : World) : Option World :=
  if env.deleteManyThrows then none else some { w with mongo := [] }

/-- The call `KnowledgeSource.countDocuments()`: `none` when it throws. -/
def KnowledgeSource.countDocuments (env : Env) (w : World) : Option Nat :=
  if env.countThrows then none else some w.mongo.length

/-! ## Embedding model (`utils/embeddings.js`) -/

/-- The function `generateEmbedding` for document `k` of the run: `none` when
it throws. -/
def generateEmbedding (env : Env) (k : Nat) (text : JsString) : Option Embedding :=
  if env.embedThrows k then none else some (env.embed text)

/-! ## Vector index (`utils/qdrant.js`) -/

/-- Upsert of one point: a point with the same id is overwritten. -/
def upsertPoint (store : List Point) (p : Point) : List Point :=
  if store.any (fun q => q.id == p.id) then store.map (fun q => if q.id == p.id then p else q)
  else store ++ [p]

/-- Upsert of a list of points, in order. -/
def upsertPoints (store : List Point) (ps : List Point) : List Point :=
  ps.foldl upsertPoint store

/-- The function `deleteCollection`: a failed request is logged and swallowed,
so the function never throws. -/
def deleteCollection (env : Env) (w : World) : World :=
  if env.deleteFault then w else { w with qdrant := none }

/-- The function `collectionExists`: a failed request (no collection, or a
fault) gives `false`. -/
def collectionExists (env : Env) (w : World) : Bool :=
  if env.existsFault then false else w.qdrant.isSome

/-- The function `createCollection`: `none` when it throws. Creation is
skipped when the collection is found to exist; the create request fails on a
fault and on a collection that exists. -/
def createCollection (env : Env) (w : World) : Option World :=
  if collectionExists env w then some w
  else if env.createFault then none
  else
    match w.qdrant with
    | some _ => none
    | none => some { w with qdrant := some [] }

/-- The `points` array built by `insertDocuments`. -/
def toPoints (documents : List Entry) (startId : Int) : List Point :=
  documents.mapIdx (fun idx doc =>
    { id := startId + (idx : Int)
      vector := doc.embedding
      payload := { text := doc.text, source_type := doc.source_type, reference := doc.reference } })

/-- The function `insertDocuments` called for batch `batchNum`: `none` when it
throws. An empty list sends nothing. -/
def insertDocuments (env : Env) (batchNum : Nat) (documents : List Entry) (startId : Int)
    (w : World) : Option World :=
  if documents.length = 0 then some w
  else if env.upsertThrows batchNum then none
  else
    match w.qdrant with
    | none => none
    | some store => some { w with qdrant := some (upsertPoints store (toPoints documents startId)) }

/-! ## The loader (`loadData`) -/

/-- Record of the calls made for one document. -/
structure DocLog where
  /-- The record of the batch. -/
  rawDoc : Doc
  /-- The argument of `KnowledgeSource.create`. -/
  created : SanDoc
  /-- The create call returned. -/
  createOk : Bool
  /-- The argument of `generateEmbedding`, when the call was made. -/
  embedded : Option JsString
  /-- The embedding call was made and returned. -/
  embedOk : Bool
  deriving DecidableEq, Repr

/-- The variables of the inner loop over one batch. -/
structure BatchAcc where
  withEmbeddings : List Entry
  batchErrors : Nat
  errorCount : Nat
  mongo : List SanDoc
  calls : List DocLog
  deriving DecidableEq, Repr

/-- The constant `textToEmbed` of the loop body: the text given to the
embedding model for a sanitized document. -/
def textToEmbed (doc : SanDoc) : JsString :=
  strOr (strOr doc.english_text doc.arabic_text) doc.reference

/-- The body of `for (const rawDoc of batch)` for document `k` of the run. -/
def processDoc (env : Env) (k : Nat) (rawDoc : Doc) (acc : BatchAcc) : BatchAcc :=
  let doc := sanitizeDoc rawDoc
  let textToEmbed := textToEmbed doc
  match KnowledgeSource.create env k doc acc.mongo with
  | none =>
    { acc with
      batchErrors := acc.batchErrors + 1
      errorCount := acc.errorCount + 1
      calls := acc.calls ++ [{ rawDoc := rawDoc, created := doc, createOk := false,
                               embedded := none, embedOk := false }] }
  | some mongo =>
    match generateEmbedding env k textToEmbed with
    | none =>
      { acc with
        mongo := mongo
        batchErrors := acc.batchErrors + 1
        errorCount := acc.errorCount + 1
        calls := acc.calls ++ [{ rawDoc := rawDoc, created := doc, createOk := true,
                                 embedded := some textToEmbed, embedOk := false }] }
    | some embedding =>
      { acc with
        mongo := mongo
        withEmbeddings := acc.withEmbeddings ++
          [{ text := doc.english_text, source_type := doc.source_type,
             reference := doc.reference, embedding := embedding }]
        calls := acc.calls ++ [{ rawDoc := rawDoc, created := doc, createOk := true,
                                 embedded := some textToEmbed, embedOk := true }] }

/-- The loop `for (const rawDoc of batch)`, the first document of `batch`
being document `k` of the run. -/
def processBatch (env : Env) : Nat → List Doc → BatchAcc → BatchAcc
  | _, [], acc => acc
  | k, rawDoc :: rest, acc => processBatch env (k + 1) rest (processDoc env k rawDoc acc)

/-- How a run, or its batch loop, ended. `running` is a loop that has not
ended when the fuel is spent. -/
inductive Status where
  | completed
  | fatal
  | running
  deriving DecidableEq, Repr

/-- Record of one iteration of the batch loop. -/
structure BatchLog where
  batchNum : Nat
  /-- The slice `docs.slice(i, i + BATCH_SIZE)`. -/
  batch : List Doc
  calls : List DocLog
  batchErrors : Nat
  /-- The value of `qdrantId` passed to `insertDocuments`. -/
  startId : Int
  /-- The points request sent, if one was sent. -/
  points : Option (List Point)
  /-- The call `insertDocuments` returned, or was not made. -/
  upsertOk : Bool
  /-- The checkpoint value written by `saveProgress`, if the batch got there. -/
  saved : Option Int
  deriving DecidableEq, Repr

/-- The variables that live across iterations of the batch loop. -/
structure LoopState where
  world : World
  loaded : Int
  qdrantId : Int
  errorCount : Nat
  deriving DecidableEq, Repr

/-- Result of the batch loop. -/
structure LoopOut where
  logs : List BatchLog
  state : LoopState
  status : Status
  deriving DecidableEq, Repr

/-- The loop `for (let i = 0; i < docs.length; i += BATCH_SIZE)`, entered with
loop variable `i`. -/
def batchLoop (env : Env) (batchSize : Nat) (resumeFrom : Int) (docs : List Doc) :
    Nat → Nat → LoopState → LoopOut
  | 0, _, s => { logs := [], state := s, status := Status.running }
  | fuel + 1, i, s =>
    if i < docs.length then
      let batchNum := i / batchSize + 1
      let batch := (docs.drop i).take batchSize
      let acc := processBatch env i batch
        { withEmbeddings := [], batchErrors := 0, errorCount := s.errorCount,
          mongo := s.world.mongo, calls := [] }
      let w1 : World := { s.world with mongo := acc.mongo }
      let points := if acc.withEmbeddings.length > 0
        then some (toPoints acc.withEmbeddings s.qdrantId) else none
      match (if acc.withEmbeddings.length > 0
              then insertDocuments env batchNum acc.withEmbeddings s.qdrantId w1
              else some w1) with
      | none =>
        { logs := [{ batchNum := batchNum, batch := batch, calls := acc.calls,
                     batchErrors := acc.batchErrors, startId := s.qdrantId,
                     points := points, upsertOk := false, saved := none }]
          state := { s with world := w1, errorCount := acc.errorCount }
          status := Status.fatal }
      | some w2 =>
        let qdrantId := s.qdrantId + (acc.withEmbeddings.length : Int)
        let loaded := s.loaded + (batch.length : Int)
        let saved := resumeFrom + (i : Int) + (batch.length : Int)
        let w3 := saveProgress saved w2
        let rest := batchLoop env batchSize resumeFrom docs fuel (i + batchSize)
          { world := w3, loaded := loaded, qdrantId := qdrantId, errorCount := acc.errorCount }
        { rest with
          logs := { batchNum := batchNum, batch := batch, calls := acc.calls,
                    batchErrors := acc.batchErrors, startId := s.qdrantId,
                    points := points, upsertOk := true, saved := some saved } :: rest.logs }
    else { logs := [], state := s, status := Status.completed }

/-- Step 4 of `loadData`: on a fresh start (`resumeFrom > 0` is false) reset
the vector index and the document store; `none` when a call throws. -/
def setupStores (env : Env) (resumeFrom : Int) (w : World) : Option World :=
  if resumeFrom > 0 then some w
  else
    match createCollection env (deleteCollection env w) with
    | none => none
    | some w1 => KnowledgeSource.deleteMany env w1

/-- The stores step 4 leaves behind when one of its calls throws: what
`deleteCollection` left when `createCollection` throws, and what
`createCollection` left when `KnowledgeSource.deleteMany` throws. -/
def setupFailure (env : Env) (w : World) : World :=
  match createCollection env (deleteCollection env w) with
  | none => deleteCollection env w
  | some w1 => w1

/-- Result of one run of `loadData`. -/
structure RunResult where
  validDocs : List Doc
  skipped : Nat
  resumeFrom : Int
  /-- The stores as the batch loop found them; `none` when the run ended before. -/
  atLoop : Option World
  /-- The slice `validDocs.slice(resumeFrom)`. -/
  docs : List Doc
  totalBatches : Nat
  logs : List BatchLog
  loaded : Int
  qdrantId : Int
  errorCount : Nat
  /-- The count read back from the document store in the verification step. -/
  mongoCount : Option Nat
  world : World
  status : Status
  deriving DecidableEq, Repr

/-- The function `loadData` from step 3 on, for the parsed corpus
`allDocuments`, with the batch size as a parameter (`BATCH_SIZE` in the
source). A fatal error leaves the checkpoint file as it is; the last step of a
run that completes is `clearProgress`. -/
def loadData (env : Env) (batchSize : Nat) (allDocuments : List Doc) (w : World) : RunResult :=
  let validDocs := allDocuments.filter hasValidText
  let skipped := allDocuments.length - validDocs.length
  let resumeFrom := loadProgress w
  let docs := jsSlice validDocs resumeFrom
  let totalBatches := (docs.length + batchSize - 1) / batchSize
  match setupStores env resumeFrom w with
  | none =>
    { validDocs := validDocs, skipped := skipped, resumeFrom := resumeFrom, atLoop := none,
      docs := docs, totalBatches := totalBatches, logs := [], loaded := resumeFrom,
      qdrantId := resumeFrom + 1, errorCount := 0, mongoCount := none,
      world := setupFailure env w, status := Status.fatal }
  | some w0 =>
    let out := batchLoop env batchSize resumeFrom docs (docs.length + 1) 0
      { world := w0, loaded := resumeFrom, qdrantId := resumeFrom + 1, errorCount := 0 }
    let base : RunResult :=
      { validDocs := validDocs, skipped := skipped, resumeFrom := resumeFrom, atLoop := some w0,
        docs := docs, totalBatches := totalBatches, logs := out.logs,
        loaded := out.state.loaded, qdrantId := out.state.qdrantId,
        errorCount := out.state.errorCount, mongoCount := none, world := out.state.world,
        status := out.status }
    match out.status with
    | Status.completed =>
      match KnowledgeSource.countDocuments env out.state.world with
      | none => { base with status := Status.fatal }
      | some mongoCount =>
        { base with mongoCount := some mongoCount, world := clearProgress env out.state.world }
    | _ => base

/-! ## Views of a run -/

/-- The documents the run attempted, in order. -/
def attemptedDocs (logs : List BatchLog) : List Doc :=
  logs.flatMap (fun l => l.calls.map (fun c => c.rawDoc))

/-- The arguments of the calls to `KnowledgeSource.create`, in order. -/
def createCalls (logs : List BatchLog) : List SanDoc :=
  logs.flatMap (fun l => l.calls.map (fun c => c.created))

/-- The arguments of the calls to `generateEmbedding`, in order. -/
def embedCalls (logs : List BatchLog) : List JsString :=
  logs.flatMap (fun l => l.calls.filterMap (fun c => c.embedded))

/-- The points upserted into the vector index, in order. -/
def upsertedPoints (logs : List BatchLog) : List Point :=
  logs.flatMap (fun l => if l.upsertOk then l.points.getD [] else [])

/-- The checkpoint values written, in order. -/
def checkpointsWritten (logs : List BatchLog) : List Int :=
  logs.filterMap (fun l => l.saved)

/-! ## Reference description of the per-document outcomes -/

/-- The create call of document `k` returns. -/
def createSucceeds (env : Env) (k : Nat) (d : Doc) : Bool :=
  knowledgeSourceSchema (sanitizeDoc d) && !env.createThrows k

/-- Neither the create call nor the embedding call of document `k` throws. -/
def docSucceeds (env : Env) (k : Nat) (d : Doc) : Bool :=
  createSucceeds env k d && !env.embedThrows k

/-- The entry pushed for a document that does not fail. -/
def entryOf (env : Env) (d : Doc) : Entry :=
  { text := (sanitizeDoc d).english_text
    source_type := (sanitizeDoc d).source_type
    reference := (sanitizeDoc d).reference
    embedding := env.embed (textToEmbed (sanitizeDoc d)) }

/-- The documents of `ds` that do not fail, each with its number in the run,
`k` being the number of the first document of `ds`. -/
def succeeding (env : Env) : Nat → List Doc → List (Nat × Doc)
  | _, [] => []
  | k, d :: ds =>
    if docSucceeds env k d then (k, d) :: succeeding env (k + 1) ds
    else succeeding env (k + 1) ds

/-- The entries pushed for the documents of `ds`. -/
def pushedFrom (env : Env) (k : Nat) (ds : List Doc) : List Entry :=
  (succeeding env k ds).map (fun kd => entryOf env kd.2)

/-- The documents of `ds` the document store accepts. -/
def persistedFrom (env : Env) : Nat → List Doc → List SanDoc
  | _, [] => []
  | k, d :: ds =>
    if createSucceeds env k d then sanitizeDoc d :: persistedFrom env (k + 1) ds
    else persistedFrom env (k + 1) ds

/-- The number of documents of `ds` that fail. -/
def failuresFrom (env : Env) : Nat → List Doc → Nat
  | _, [] => 0
  | k, d :: ds =>
    if docSucceeds env k d then failuresFrom env (k + 1) ds
    else failuresFrom env (k + 1) ds + 1

/-- The call record of document `k`. -/
def callOf (env : Env) (k : Nat) (d : Doc) : DocLog :=
  { rawDoc := d
    created := sanitizeDoc d
    createOk := createSucceeds env k d
    embedded := if createSucceeds env k d then some (textToEmbed (sanitizeDoc d)) else none
    embedOk := docSucceeds env k d }

/-- The call records of the documents of `ds`. -/
def callsFrom (env : Env) : Nat → List Doc → List DocLog
  | _, [] => []
  | k, d :: ds => callOf env k d :: callsFrom env (k + 1) ds

/-- The record of the iteration entered with loop variable `i` and id
`qdrantId`, in terms of the outcomes of its documents; `ok` tells whether the
iteration got past `insertDocuments`. -/
def batchLogAt (env : Env) (batchSize : Nat) (resumeFrom : Int) (docs : List Doc) (i : Nat)
    (qdrantId : Int) (ok : Bool) : BatchLog :=
  { batchNum := i / batchSize + 1
    batch := (docs.drop i).take batchSize
    calls := callsFrom env i ((docs.drop i).take batchSize)
    batchErrors := failuresFrom env i ((docs.drop i).take batchSize)
    startId := qdrantId
    points :=
      if (pushedFrom env i ((docs.drop i).take batchSize)).length > 0
      then some (toPoints (pushedFrom env i ((docs.drop i).take batchSize)) qdrantId) else none
    upsertOk := ok
    saved :=
      if ok then some (resumeFrom + (i : Int) + (((docs.drop i).take batchSize).length : Int))
      else none }

/-- The stores after the documents of the iteration entered with loop variable
`i` have been attempted, before `insertDocuments`. -/
def worldAfterDocs (env : Env) (batchSize : Nat) (docs : List Doc) (i : Nat) (w : World) : World :=
  { w with mongo := w.mongo ++ persistedFrom env i ((docs.drop i).take batchSize) }

/-- The loop variables after the iteration entered with loop variable `i`,
`w2` being the stores `insertDocuments` left. -/
def stateAfterBatch (env : Env) (batchSize : Nat) (resumeFrom : Int) (docs : List Doc) (i : Nat)
    (s : LoopState) (w2 : World) : LoopState :=
  { world := saveProgress
      (resumeFrom + (i : Int) + (((docs.drop i).take batchSize).length : Int)) w2
    loaded := s.loaded + (((docs.drop i).take batchSize).length : Int)
    qdrantId := s.qdrantId + ((pushedFrom env i ((docs.drop i).take batchSize)).length : Int)
    errorCount := s.errorCount + failuresFrom env i ((docs.drop i).take batchSize) }

/-! ## Concrete inputs -/

/-- A valid record, told apart by the code unit `48 + k` at the end of its
reference and of its English text. -/
def verseDoc (k : Nat) : Doc :=
  { source_type := some (js "Quran")
    reference := some (js "Quran 1:" ++ [48 + k])
    arabic_text := none
    english_text := some (js "In the name of Allah, verse " ++ [48 + k])
    context := none
    tags := some [js "general"] }

/-- Collaborators none of whose calls fails. -/
def quietEnv : Env :=
  { embed := fun t => [(t.length : Int)]
    embedThrows := fun _ => false
    createThrows := fun _ => false
    upsertThrows := fun _ => false
    deleteFault := false
    existsFault := false
    createFault := false
    deleteManyThrows := false
    countThrows := false
    unlinkThrows := false }

/-- Stores before a first load: no document, no collection, no checkpoint. -/
def blankWorld : World :=
  { mongo := [], qdrant := none, progressFile := none }

/-- A point left in the vector index by an earlier load. -/
def stalePoint : Point :=
  { id := 7, vector := [1], payload := { text := js "stale", source_type := js "Quran",
                                          reference := js "Quran 9:9" } }

/-- The batch loop as `loadData` runs it, `w0` being the stores after step 4. -/
def loopOf (env : Env) (batchSize : Nat) (allDocuments : List Doc) (w w0 : World) : LoopOut :=
  batchLoop env batchSize (loadProgress w)
    (jsSlice (allDocuments.filter hasValidText) (loadProgress w))
    ((jsSlice (allDocuments.filter hasValidText) (loadProgress w)).length + 1) 0
    { world := w0, loaded := loadProgress w, qdrantId := loadProgress w + 1, errorCount := 0 }

/-- The loop variables of a run after the first `j` iterations of its batch
loop, or at the end of the loop when it ends before; `none` when step 4 throws
and the loop is not reached. -/
def stateAfterBatches (env : Env) (batchSize : Nat) (allDocuments : List Doc) (w : World)
    (j : Nat) : Option LoopState :=
  match setupStores env (loadProgress w) w with
  | none => none
  | some w0 =>
    some (batchLoop env batchSize (loadProgress w)
      (jsSlice (allDocuments.filter hasValidText) (loadProgress w)) j 0
      { world := w0, loaded := loadProgress w, qdrantId := loadProgress w + 1,
        errorCount := 0 }).state

/-- Collaborators whose embedding call throws on the first document of the
run and on no other. -/
def firstEmbedThrowsEnv : Env :=
  { quietEnv with embedThrows := fun k => k == 0 }

/-- A corpus of two valid records. -/
def twoVerses : List Doc := [verseDoc 1, verseDoc 2]

/-- The point built from `verseDoc 2` with id 1. -/
def secondVersePoint : Point :=
  { id := 1
    vector := [29]
    payload := { text := js "In the name of Allah, verse " ++ [50]
                 source_type := js "Quran"
                 reference := js "Quran 1:" ++ [50] } }

/-- Collaborators whose request deleting the collection fails. -/
def deleteFaultEnv : Env :=
  { quietEnv with deleteFault := true }

/-- Stores left by an earlier load: one document, one point, no checkpoint. -/
def staleWorld : World :=
  { mongo := [sanitizeDoc (verseDoc 9)], qdrant := some [stalePoint], progressFile := none }

/-- A corpus of thirty valid records. -/
def thirtyVerses : List Doc := (List.range 30).map verseDoc

/-- Stores of an interrupted load that wrote checkpoint 1. -/
def resumedWorld : World :=
  { mongo := [sanitizeDoc (verseDoc 1)]
    qdrant := some [stalePoint]
    progressFile := some (ProgressContent.object (some 1)) }

/-! ## Texts named by the specification -/

/-- Spec wording of the chosen embedding text: `english_text` if non-empty,
else `arabic_text`, else `reference` (the empty string if none is there). -/
def chosenEmbeddingText (d : Doc) : JsString :=
  match d.english_text with
  | some (c :: cs) => c :: cs
  | _ =>
    match d.arabic_text with
    | some (c :: cs) => c :: cs
    | _ =>
      match d.reference with
      | some (c :: cs) => c :: cs
      | _ => []

/-- Spec wording of the text the filter measures: `english_text` if non-empty,
else `arabic_text`, else the empty string. -/
def filterText (d : Doc) : JsString :=
  match d.english_text with
  | some (c :: cs) => c :: cs
  | _ =>
    match d.arabic_text with
    | some (c :: cs) => c :: cs
    | _ => []

/-- A record with a reference and no text. -/
def referenceOnlyDoc : Doc :=
  { source_type := some (js "Hadith")
    reference := some (js "Sahih Bukhari 1")
    arabic_text := none
    english_text := none
    context := none
    tags := none }

/-- A record whose text is too short for the filter. -/
def shortDoc : Doc :=
  { source_type := some (js "Quran")
    reference := some (js "Quran 2:1")
    arabic_text := none
    english_text := some (js "  Alif ")
    context := none
    tags := none }

/-- Collaborators whose document store rejects every document. -/
def storeDownEnv : Env :=
  { quietEnv with createThrows := fun _ => true }

/-- Collaborators whose embedding call throws on the second document of the
run and on no other. -/
def secondEmbedThrowsEnv : Env :=
  { quietEnv with embedThrows := fun k => k == 1 }

/-- A corpus of three valid records. -/
def threeVerses : List Doc := [verseDoc 1, verseDoc 2, verseDoc 3]

/-- Collaborators whose points request fails for the second batch. -/
def secondUpsertThrowsEnv : Env :=
  { quietEnv with upsertThrows := fun n => n == 2 }

/-- Collaborators whose embedding call throws on the first document of the
run and whose points request fails for the second batch. -/
def embedAndUpsertThrowEnv : Env :=
  { quietEnv with embedThrows := fun k => k == 0, upsertThrows := fun n => n == 2 }

/-- Collaborators whose removal of the checkpoint file fails. -/
def unlinkFaultEnv : Env :=
  { quietEnv with unlinkThrows := true }

/-! ## Retrying fetcher (`fetchIslamicData.js`) -/

/-- The error a failed attempt of `safeFetch` catches: the rejection of
`fetch`, the error `HTTP <status>` thrown for a response that is not ok, or
the rejection of `response.json()`. -/
inductive FetchError where
  | network (message : JsString)
  | http (status : Nat)
  | badJson
  deriving DecidableEq, Repr

/-- What the network answers to one request: `fetch` rejects, or a response
arrives with a status and a body; the body is `none` when it does not parse as
JSON. -/
inductive FetchOutcome (β : Type) where
  | rejected (message : JsString)
  | responded (status : Nat) (body : Option β)
  deriving DecidableEq, Repr

/-- The property `response.ok`: the status is in the range 200 to 299. -/
def responseOk (status : Nat) : Bool :=
  decide (200 ≤ status) && decide (status ≤ 299)

/-- The body of the `try` block of `safeFetch` for one request. -/
def attemptFetch {β : Type} : FetchOutcome β → Except FetchError β
  | FetchOutcome.rejected message => Except.error (FetchError.network message)
  | FetchOutcome.responded status body =>
    if !responseOk status then Except.error (FetchError.http status)
    else
      match body with
      | none => Except.error FetchError.badJson
      | some json => Except.ok json

/-- How a call of `safeFetch` ends: it returns a parsed body, it throws, it
falls out of the loop and returns `undefined`, or (fuel spent) it is still
looping. -/
inductive FetchResult (β : Type) where
  | returned (json : β)
  | threw (error : FetchError)
  | undefined
  | looping
  deriving DecidableEq, Repr

/-- Record of a call of `safeFetch`: the number of requests made, the delays
waited in milliseconds, in order, and the result. -/
structure FetchRun (β : Type) where
  requests : Nat
  delays : List Nat
  result : FetchResult β
  deriving DecidableEq, Repr

/-- The loop `for (let attempt = 1; attempt <= retries; attempt++)` of
`safeFetch`, entered with loop variable `attempt`; `fetch n` is the answer to
the request of attempt `n`. -/
def safeFetchLoop {β : Type} (fetch : Nat → FetchOutcome β) (retries : Nat) :
    Nat → Nat → FetchRun β
  | 0, _ => { requests := 0, delays := [], result := FetchResult.looping }
  | fuel + 1, attempt =>
    if attempt ≤ retries then
      match attemptFetch (fetch attempt) with
      | Except.ok json => { requests := 1, delays := [], result := FetchResult.returned json }
      | Except.error error =>
        if attempt = retries then
          { requests := 1, delays := [], result := FetchResult.threw error }
        else
          let rest := safeFetchLoop fetch retries fuel (attempt + 1)
          { requests := rest.requests + 1
            delays := 1000 * attempt :: rest.delays
            result := rest.result }
    else { requests := 0, delays := [], result := FetchResult.undefined }

/-- The default value of the parameter `retries`. -/
def DEFAULT_RETRIES : Nat := 3

/-- The function `safeFetch` for one url; `retries` is `none` when the
argument is left out. -/
def safeFetch {β : Type} (fetch : Nat → FetchOutcome β) (retries : Option Nat) : FetchRun β :=
  safeFetchLoop fetch (retries.getD DEFAULT_RETRIES) (retries.getD DEFAULT_RETRIES + 1) 1

/-- An attempt fails. -/
def attemptFails {β : Type} (o : FetchOutcome β) : Bool :=
  match attemptFetch o with
  | Except.ok _ => false
  | Except.error _ => true

/-- The error a failing attempt throws (`badJson` stands in for an attempt
that does not fail). -/
def attemptError {β : Type} (o : FetchOutcome β) : FetchError :=
  match attemptFetch o with
  | Except.ok _ => FetchError.badJson
  | Except.error error => error

/-- A network that answers every request with the same status and no body. -/
def alwaysStatus (status : Nat) : Nat → FetchOutcome JsString :=
  fun _ => FetchOutcome.responded status none

/-- A network that answers the first two requests with status 503 and the
later ones with status 200 and a body. -/
def thirdTimeLucky : Nat → FetchOutcome JsString :=
  fun n => if n < 3 then FetchOutcome.responded 503 none
    else FetchOutcome.responded 200 (some (js "payload"))

/-- Two calls of `safeFetch` end in the same way: both return the same body,
or both throw, or both fall out of the loop. -/
def endsAlike {β : Type} : FetchResult β → FetchResult β → Prop
  | FetchResult.returned x, FetchResult.returned y => x = y
  | FetchResult.threw _, FetchResult.threw _ => True
  | FetchResult.undefined, FetchResult.undefined => True
  | FetchResult.looping, FetchResult.looping => True
  | _, _ => False

/-! ## Normalizer and tagger (`processIslamicData.js`) -/

/-- The method `String.prototype.includes`: `keyword` occurs in `s` as a run
of consecutive code units. -/
def jsIncludes (s keyword : JsString) : Bool :=
  match s with
  | [] => keyword.isEmpty
  | c :: cs => keyword.isPrefixOf (c :: cs) || jsIncludes cs keyword

/-- The object `keywordMap` of `extractKeywords`, as the list of its entries
in the order `Object.entries` yields them. -/
def keywordMap : List (JsString × List JsString) :=
  [ (js "prayer", [js "pray", js "prayer", js "salah", js "salat", js "namaz",
      js "prostration", js "rakat"]),
    (js "fasting", [js "fast", js "fasting", js "ramadan", js "sawm", js "siyam", js "iftar",
      js "suhoor"]),
    (js "zakat", [js "zakat", js "charity", js "alms", js "sadaqah", js "zakah"]),
    (js "hajj", [js "hajj", js "pilgrimage", js "kaaba", js "mecca", js "umrah", js "tawaf",
      js "safa", js "marwah"]),
    (js "faith", [js "faith", js "believe", js "belief", js "iman", js "conviction"]),
    (js "prophet", [js "prophet", js "messenger", js "muhammad", js "rasul", js "nabiy"]),
    (js "allah", [js "allah", js "god", js "lord", js "creator", js "rabb"]),
    (js "quran", [js "quran", js "koran", js "revelation", js "book", js "scripture"]),
    (js "death", [js "death", js "grave", js "afterlife", js "judgment", js "paradise",
      js "hell"]),
    (js "family", [js "marriage", js "divorce", js "wife", js "husband", js "children",
      js "family"]),
    (js "halal", [js "halal", js "haram", js "permissible", js "forbidden", js "lawful"]),
    (js "ethics", [js "honesty", js "truthful", js "kindness", js "mercy", js "justice",
      js "character"]),
    (js "knowledge", [js "knowledge", js "learn", js "study", js "education", js "wisdom"]),
    (js "purification", [js "wudu", js "ghusl", js "ablution", js "purification", js "clean"]) ]

/-- The function `extractKeywords`; `toLowerCase` is the method
`String.prototype.toLowerCase`, and the result is `none` when `text` is not a
string, in which case the call `text.toLowerCase()` throws. -/
def extractKeywords (toLowerCase : JsString → JsString) (text : Option JsString) :
    Option (List JsString) :=
  match text with
  | none => none
  | some t =>
    let lowerText := toLowerCase t
    let tags := keywordMap.foldl
      (fun tags entry =>
        if entry.2.any (fun keyword => jsIncludes lowerText keyword) then tags ++ [entry.1]
        else tags) []
    some (if tags.length > 0 then tags else [js "general"])

/-- A value of a field of a raw record that is put into a template literal. -/
inductive JsVal where
  | undefined
  | null
  | number (n : Int)
  | string (s : JsString)
  deriving DecidableEq, Repr

/-- Decimal digits of a natural number, most significant first, put in front
of `acc`. -/
def natDigits : Nat → Nat → List Nat → List Nat
  | 0, _, acc => acc
  | fuel + 1, n, acc =>
    if n < 10 then (48 + n) :: acc else natDigits fuel (n / 10) ((48 + n % 10) :: acc)

/-- The string a template literal makes of a value. -/
def JsVal.toTemplate : JsVal → JsString
  | JsVal.undefined => js "undefined"
  | JsVal.null => js "null"
  | JsVal.number (Int.ofNat n) => natDigits (n + 1) n []
  | JsVal.number (Int.negSucc n) => 45 :: natDigits (n + 2) (n + 1) []
  | JsVal.string s => s

/-- A record of the raw file `quran_verses_complete.json`. -/
structure Verse where
  chapter_id : JsVal
  chapter_name : JsString
  verse_number : JsVal
  juz : JsVal
  page : JsVal
  arabic_text : Option JsString
  english_text : Option JsString
  deriving DecidableEq, Repr

/-- A record of a raw hadith file. -/
structure Hadith where
  hadithnumber : JsVal
  text : Option JsString
  arabictext : Option JsString
  deriving DecidableEq, Repr

/-- A document built by the normalizer. -/
structure CanonicalDoc where
  source_type : JsString
  reference : JsString
  arabic_text : Option JsString
  english_text : Option JsString
  context : JsString
  tags : List JsString
  metadata : List (JsString × JsVal)
  deriving DecidableEq, Repr

/-- The record the loader parses back from the processed file for a document
of the normalizer. -/
def CanonicalDoc.toDoc (p : CanonicalDoc) : Doc :=
  { source_type := some p.source_type
    reference := some p.reference
    arabic_text := p.arabic_text
    english_text := p.english_text
    context := some p.context
    tags := some p.tags }

/-- The method `Array.prototype.map` with a callback that may throw: `none`
when the callback throws on an element. -/
def mapThrowing {α β : Type} (f : α → Option β) : List α → Option (List β)
  | [] => some []
  | a :: as =>
    match f a with
    | none => none
    | some b =>
      match mapThrowing f as with
      | none => none
      | some bs => some (b :: bs)

/-- The callback of `verses.map` in `processQuranData`; `none` when it throws. -/
def quranDoc (toLowerCase : JsString → JsString) (verse : Verse) : Option CanonicalDoc :=
  match extractKeywords toLowerCase verse.english_text with
  | none => none
  | some keywords =>
    some
      { source_type := js "Quran"
        reference := js "Surah " ++ verse.chapter_name ++ js " " ++ verse.chapter_id.toTemplate ++
          js ":" ++ verse.verse_number.toTemplate
        arabic_text := verse.arabic_text
        english_text := verse.english_text
        context := js "Verse " ++ verse.verse_number.toTemplate ++ js " from Surah " ++
          verse.chapter_name ++ js " (Chapter " ++ verse.chapter_id.toTemplate ++ js ")"
        tags := [js "Quran", verse.chapter_name, js "Chapter" ++ verse.chapter_id.toTemplate,
          js "Juz" ++ verse.juz.toTemplate] ++ keywords
        metadata := [(js "chapter_id", verse.chapter_id), (js "verse_number", verse.verse_number),
          (js "juz", verse.juz), (js "page", verse.page)] }

/-- The function `processQuranData`; `file` is the parsed raw file, `none`
when it cannot be read or parsed. Any error gives the empty list. -/
def processQuranData (toLowerCase : JsString → JsString) (file : Option (List Verse)) :
    List CanonicalDoc :=
  match file with
  | none => []
  | some verses =>
    match mapThrowing (quranDoc toLowerCase) verses with
    | none => []
    | some processed => processed

/-- The array `collections` of `processHadithData`: file and name. -/
def hadithCollections : List (JsString × JsString) :=
  [ (js "hadith_bukhari.json", js "Sahih Bukhari"),
    (js "hadith_muslim.json", js "Sahih Muslim"),
    (js "hadith_abudawud.json", js "Abu Dawud"),
    (js "hadith_tirmidhi.json", js "Tirmidhi"),
    (js "hadith_nasai.json", js "Nasa" ++ [39] ++ js "i"),
    (js "hadith_ibnmajah.json", js "Ibn Majah") ]

/-- The callback of `hadiths.map` in `processHadithData` for the collection
named `name`; `none` when it throws. -/
def hadithDoc (toLowerCase : JsString → JsString) (name : JsString) (hadith : Hadith) :
    Option CanonicalDoc :=
  match extractKeywords toLowerCase hadith.text with
  | none => none
  | some keywords =>
    some
      { source_type := js "Hadith"
        reference := name ++ js " " ++ hadith.hadithnumber.toTemplate
        english_text := hadith.text
        arabic_text := some (jsOrLit hadith.arabictext [])
        context := js "Hadith from " ++ name
        tags := [js "Hadith", name] ++ keywords
        metadata := [(js "hadith_number", hadith.hadithnumber),
          (js "collection", JsVal.string name)] }

/-- The documents one iteration of the loop of `processHadithData` pushes for
a collection: none when its file cannot be read or parsed, or when the callback
throws on one of its records. -/
def collectionDocs (toLowerCase : JsString → JsString)
    (readFile : JsString → Option (List Hadith)) (collection : JsString × JsString) :
    List CanonicalDoc :=
  match readFile collection.1 with
  | none => []
  | some hadiths =>
    match mapThrowing (hadithDoc toLowerCase collection.2) hadiths with
    | none => []
    | some processed => processed

/-- The function `processHadithData`; `readFile` gives the parsed raw file of
a collection, `none` when it cannot be read or parsed. -/
def processHadithData (toLowerCase : JsString → JsString)
    (readFile : JsString → Option (List Hadith)) : List CanonicalDoc :=
  hadithCollections.foldl
    (fun allHadiths collection => allHadiths ++ collectionDocs toLowerCase readFile collection) []

/-- The corpus `allData` that `processAllData` writes to the processed file. -/
def processAllData (toLowerCase : JsString → JsString) (quranFile : Option (List Verse))
    (readFile : JsString → Option (List Hadith)) : List CanonicalDoc :=
  processQuranData toLowerCase quranFile ++ processHadithData toLowerCase readFile

/-- Lower-casing of the letters A to Z, which is what `toLowerCase` does on a
text of ASCII characters. -/
def asciiLower (s : JsString) : JsString :=
  s.map (fun u => if 65 ≤ u ∧ u ≤ 90 then u + 32 else u)

/-- Two raw verses. -/
def sampleVerses : List Verse :=
  [ { chapter_id := JsVal.number 1, chapter_name := js "Al-Fatihah",
      verse_number := JsVal.number 1, juz := JsVal.undefined, page := JsVal.undefined,
      arabic_text := some (js "bismillah"),
      english_text := some (js "In the name of Allah, the Lord of Mercy") },
    { chapter_id := JsVal.number 1, chapter_name := js "Al-Fatihah",
      verse_number := JsVal.number 2, juz := JsVal.undefined, page := JsVal.undefined,
      arabic_text := some (js "alhamdu"),
      english_text := some (js "Thanks be to the Sustainer of the worlds") } ]

/-- Raw hadith files: one record for Sahih Muslim, no other file. -/
def sampleHadithFiles (file : JsString) : Option (List Hadith) :=
  if file = js "hadith_muslim.json" then
    some [{ hadithnumber := JsVal.number 12, text := some (js "Prayer is a pillar"),
            arabictext := none }]
  else none

/-- A valid record without tags. -/
def untaggedDoc : Doc :=
  { verseDoc 1 with tags := none }

/-- The `points` of the request a call `insertDocuments(documents, startId)`
sends, `none` when the call returns without sending one; `documents` is `none`
for a missing list, `startId` is `none` when the argument is left out, in which
case it is 1. -/
def pointsRequest (documents : Option (List Entry)) (startId : Option Int) :
    Option (List Point) :=
  match documents with
  | none => none
  | some [] => none
  | some (d :: ds) => some (toPoints (d :: ds) (startId.getD 1))

/-- Two entries of `withEmbeddings`. -/
def sampleEntries : List Entry :=
  [ { text := js "first text", source_type := js "Quran", reference := js "Quran 1:1",
      embedding := [1, 2] },
    { text := js "second text", source_type := js "Hadith", reference := js "Muslim 7",
      embedding := [3, 4] } ]

/-- The object `sanitizeDoc` returns, read as a record: every field is there. -/
def SanDoc.toDoc (doc : SanDoc) : Doc :=
  { source_type := some doc.source_type
    reference := some doc.reference
    arabic_text := some doc.arabic_text
    english_text := some doc.english_text
    context := some doc.context
    tags := some doc.tags }

/-- Stores with documents and points and a checkpoint file that holds
`{"lastIndex": 0}`. -/
def zeroCheckpointWorld : World :=
  { staleWorld with progressFile := some (ProgressContent.object (some 0)) }

/-- Stores with documents and points and a checkpoint file that cannot be
parsed. -/
def brokenCheckpointWorld : World :=
  { staleWorld with progressFile := some ProgressContent.unparsable }

/-- Empty stores and a checkpoint file that holds `{"lastIndex": -2}`. -/
def negativeCheckpointWorld : World :=
  { mongo := [], qdrant := none, progressFile := some (ProgressContent.object (some (-2))) }

/-- A record whose text has exactly 5 characters. -/
def fiveCharDoc : Doc :=
  { source_type := some (js "Quran")
    reference := some (js "Quran 1:1")
    arabic_text := none
    english_text := some (js "Allah")
    context := none
    tags := none }

/-- Raw hadith files: for Sahih Muslim a record with a text and one without,
no other file. -/
def brokenHadithFiles (file : JsString) : Option (List Hadith) :=
  if file = js "hadith_muslim.json" then
    some [{ hadithnumber := JsVal.number 12, text := some (js "Prayer is a pillar"),
            arabictext := none },
          { hadithnumber := JsVal.number 13, text := none, arabictext := none }]
  else none

/-! ## Fetching the Quran (`fetchIslamicData.js`) -/

/-- The urls that `fetchQuranData` and `fetchQuranFromQuranCom` request: the
two editions of the CDN, the chapter list of quran.com and a page of the verses
of a chapter, whose id is put into the url by a template literal. -/
inductive QuranUrl where
  | cdnEnglish
  | cdnArabic
  | chapters
  | versesByChapter (chapterId : JsString) (page : Nat)
  deriving DecidableEq, Repr

/-- An element of the array `chapters` of the quran.com chapter list. -/
structure Chapter where
  id : JsVal
  name_simple : JsString
  deriving DecidableEq, Repr

/-- An element of the array `verses` of a quran.com page; `translations` holds
the field `text` of each translation, `none` when it is not a string. -/
structure ApiVerse where
  verse_number : JsVal
  text_uthmani : Option JsString
  translations : Option (List (Option JsString))
  deriving DecidableEq, Repr

/-- The object `meta` of a quran.com page. -/
structure PageMeta where
  current_page : Nat
  total_pages : Nat
  deriving DecidableEq, Repr

/-- A parsed response body. The field `chapter` of an edition is the list of
its entries as `Object.entries` yields them, with the keys read by `parseInt`;
a field that is missing is `none`. -/
inductive QuranBody where
  | null
  | edition (chapter : Option (List (Nat × List (Nat × JsString))))
  | chapterList (chapters : List Chapter)
  | versePage (verses : Option (List ApiVerse)) (pageMeta : Option PageMeta)
  deriving DecidableEq, Repr

/-- How a call ends: it returns a value, it throws, or (fuel spent) it is
still running. -/
inductive CallEnd (α : Type) where
  | returned (value : α)
  | threw
  | running
  deriving DecidableEq, Repr

/-- The function `saveToFile` for `quran_verses_complete.json`: the new
content of the file, or `none` when `fs.writeFile` rejects. -/
def saveToFile (writeThrows : Bool) (data : List Verse) : Option (Option (List Verse)) :=
  if writeThrows then none else some (some data)

/-- The array `chapterNames` of `fetchQuranData`; the apostrophe is the code
unit 39. -/
def chapterNames : List JsString :=
  [ js "Al-Fatihah", js "Al-Baqarah", js "Ali " ++ [39] ++ js "Imran", js "An-Nisa",
    js "Al-Ma" ++ [39] ++ js "idah", js "Al-An" ++ [39] ++ js "am",
    js "Al-A" ++ [39] ++ js "raf", js "Al-Anfal", js "At-Tawbah", js "Yunus", js "Hud",
    js "Yusuf", js "Ar-Ra" ++ [39] ++ js "d", js "Ibrahim", js "Al-Hijr", js "An-Nahl",
    js "Al-Isra", js "Al-Kahf", js "Maryam", js "Ta-Ha", js "Al-Anbya", js "Al-Hajj",
    js "Al-Mu" ++ [39] ++ js "minun", js "An-Nur", js "Al-Furqan",
    js "Ash-Shu" ++ [39] ++ js "ara", js "An-Naml", js "Al-Qasas",
    js "Al-" ++ [39] ++ js "Ankabut", js "Ar-Rum", js "Luqman", js "As-Sajdah", js "Al-Ahzab",
    js "Saba", js "Fatir", js "Ya-Sin", js "As-Saffat", js "Sad", js "Az-Zumar", js "Ghafir",
    js "Fussilat", js "Ash-Shura", js "Az-Zukhruf", js "Ad-Dukhan", js "Al-Jathiyah",
    js "Al-Ahqaf", js "Muhammad", js "Al-Fath", js "Al-Hujurat", js "Qaf", js "Adh-Dhariyat",
    js "At-Tur", js "An-Najm", js "Al-Qamar", js "Ar-Rahman", js "Al-Waqi" ++ [39] ++ js "ah",
    js "Al-Hadid", js "Al-Mujadila", js "Al-Hashr", js "Al-Mumtahanah", js "As-Saf",
    js "Al-Jumu" ++ [39] ++ js "ah", js "Al-Munafiqun", js "At-Taghabun", js "At-Talaq",
    js "At-Tahrim", js "Al-Mulk", js "Al-Qalam", js "Al-Haqqah",
    js "Al-Ma" ++ [39] ++ js "arij", js "Nuh", js "Al-Jinn", js "Al-Muzzammil",
    js "Al-Muddaththir", js "Al-Qiyamah", js "Al-Insan", js "Al-Mursalat", js "An-Naba",
    js "An-Nazi" ++ [39] ++ js "at", js "Abasa", js "At-Takwir", js "Al-Infitar",
    js "Al-Mutaffifin", js "Al-Inshiqaq", js "Al-Buruj", js "At-Tariq",
    js "Al-A" ++ [39] ++ js "la", js "Al-Ghashiyah", js "Al-Fajr", js "Al-Balad",
    js "Ash-Shams", js "Al-Layl", js "Ad-Duha", js "Ash-Sharh", js "At-Tin",
    js "Al-" ++ [39] ++ js "Alaq", js "Al-Qadr", js "Al-Bayyinah", js "Az-Zalzalah",
    js "Al-" ++ [39] ++ js "Adiyat", js "Al-Qari" ++ [39] ++ js "ah", js "At-Takathur",
    js "Al-" ++ [39] ++ js "Asr", js "Al-Humazah", js "Al-Fil", js "Quraysh",
    js "Al-Ma" ++ [39] ++ js "un", js "Al-Kawthar", js "Al-Kafirun", js "An-Nasr",
    js "Al-Masad", js "Al-Ikhlas", js "Al-Falaq", js "An-Nas" ]

/-- The expression `chapterNames[chapterId - 1] || "Chapter <chapterId>"`. -/
def chapterNameOf (chapterId : Nat) : JsString :=
  jsOrLit (if chapterId = 0 then none else chapterNames[chapterId - 1]?)
    (js "Chapter " ++ (JsVal.number chapterId).toTemplate)

/-- The expression `araData.chapter[chapterIdStr]` with its default, the
empty object; `none` when it throws because `araData` has no object
`chapter`. -/
def arabicChapterOf (araData : QuranBody) (chapterId : Nat) : Option (List (Nat × JsString)) :=
  match araData with
  | QuranBody.edition (some chapter) => some ((chapter.lookup chapterId).getD [])
  | _ => none

/-- The verses the inner loop of `fetchQuranData` pushes for one chapter. -/
def cdnChapterVerses (chapterId : Nat) (arabicChapter : List (Nat × JsString))
    (verses : List (Nat × JsString)) : List Verse :=
  verses.map fun entry =>
    { chapter_id := JsVal.number chapterId
      chapter_name := chapterNameOf chapterId
      verse_number := JsVal.number entry.1
      juz := JsVal.undefined
      page := JsVal.undefined
      arabic_text := some (jsOrLit (arabicChapter.lookup entry.1) [])
      english_text := some entry.2 }

/-- The loop over `Object.entries(engData.chapter)` of `fetchQuranData`;
`none` when an iteration throws. -/
def cdnVerses (araData : QuranBody) :
    List (Nat × List (Nat × JsString)) → List Verse → Option (List Verse)
  | [], allVerses => some allVerses
  | (chapterId, verses) :: rest, allVerses =>
    match arabicChapterOf araData chapterId with
    | none => none
    | some arabicChapter =>
      cdnVerses araData rest (allVerses ++ cdnChapterVerses chapterId arabicChapter verses)

/-- The `try` block of `fetchQuranData` up to the call of `saveToFile`: the
list `allVerses`, or `none` when a fetch, the validity check or the loop
throws. -/
def fetchFromCdn (fetch : QuranUrl → Nat → FetchOutcome QuranBody) : Option (List Verse) :=
  match (safeFetch (fetch QuranUrl.cdnEnglish) none).result with
  | FetchResult.returned engData =>
    match (safeFetch (fetch QuranUrl.cdnArabic) none).result with
    | FetchResult.returned araData =>
      match engData with
      | QuranBody.edition (some chapter) => cdnVerses araData chapter []
      | _ => none
    | _ => none
  | _ => none

/-- The rest of `s` behind its first code unit 62 (the sign `>`), if there is
one: where a match of `<[^>]*>` ends that starts just before `s`. -/
def afterTagEnd : JsString → Option JsString
  | [] => none
  | c :: cs => if c = 62 then some cs else afterTagEnd cs

/-- The call `replace(/<[^>]*>/g, "")`, by fuel. -/
def stripTagsLoop : Nat → JsString → JsString
  | 0, s => s
  | _ + 1, [] => []
  | fuel + 1, c :: cs =>
    if c = 60 then
      match afterTagEnd cs with
      | some rest => stripTagsLoop fuel rest
      | none => c :: stripTagsLoop fuel cs
    else c :: stripTagsLoop fuel cs

/-- The call `replace(/<[^>]*>/g, "")`. -/
def stripTags (s : JsString) : JsString :=
  stripTagsLoop s.length s

/-- The constant `translation` of the callback of `data.verses.forEach`;
`none` when the callback throws because the first translation has no text. -/
def translationOf (verse : ApiVerse) : Option JsString :=
  match verse.translations with
  | none => some []
  | some [] => some []
  | some (none :: _) => none
  | some (some text :: _) => some (jsTrim (stripTags text))

/-- The call `data.verses.forEach(...)`: the array `chapterVerses` afterwards,
and whether the callback threw. -/
def pushVerses (chapter : Chapter) : List ApiVerse → List Verse → List Verse × Bool
  | [], chapterVerses => (chapterVerses, false)
  | verse :: rest, chapterVerses =>
    match translationOf verse with
    | none => (chapterVerses, true)
    | some translation =>
      pushVerses chapter rest (chapterVerses ++
        [{ chapter_id := chapter.id
           chapter_name := chapter.name_simple
           verse_number := verse.verse_number
           juz := JsVal.undefined
           page := JsVal.undefined
           arabic_text := some (jsOrLit verse.text_uthmani [])
           english_text := some translation }])

/-- The value of `data.meta && data.meta.current_page < data.meta.total_pages`
as a condition. -/
def morePages (pageMeta : Option PageMeta) : Bool :=
  match pageMeta with
  | none => false
  | some m => decide (m.current_page < m.total_pages)

/-- The loop `while (hasMore)` of `fetchQuranFromQuranCom` for one chapter,
entered with `page` and `chapterVerses`; `none` when the fuel is spent. -/
def chapterPages (fetch : QuranUrl → Nat → FetchOutcome QuranBody) (chapter : Chapter) :
    Nat → Nat → List Verse → Option (List Verse)
  | 0, _, _ => none
  | fuel + 1, page, chapterVerses =>
    match (safeFetch (fetch (QuranUrl.versesByChapter chapter.id.toTemplate page)) none).result with
    | FetchResult.returned (QuranBody.versePage (some (verse :: rest)) pageMeta) =>
      match pushVerses chapter (verse :: rest) chapterVerses with
      | (pushed, true) => some pushed
      | (pushed, false) =>
        if morePages pageMeta then chapterPages fetch chapter fuel (page + 1) pushed
        else some pushed
    | _ => some chapterVerses

/-- The loop `for (const chapter of chapters)` of `fetchQuranFromQuranCom`. -/
def chaptersLoop (fetch : QuranUrl → Nat → FetchOutcome QuranBody) (fuel : Nat) :
    List Chapter → List Verse → CallEnd (List Verse)
  | [], allVerses => CallEnd.returned allVerses
  | chapter :: rest, allVerses =>
    match chapterPages fetch chapter fuel 1 [] with
    | none => CallEnd.running
    | some chapterVerses => chaptersLoop fetch fuel rest (allVerses ++ chapterVerses)

/-- The function `fetchQuranFromQuranCom`; `fuel` bounds the pages requested
for a chapter. It has no access to the raw files. -/
def fetchQuranFromQuranCom (fetch : QuranUrl → Nat → FetchOutcome QuranBody) (fuel : Nat) :
    CallEnd (List Verse) :=
  match (safeFetch (fetch QuranUrl.chapters) none).result with
  | FetchResult.returned (QuranBody.chapterList chapters) => chaptersLoop fetch fuel chapters []
  | _ => CallEnd.threw

/-- The source a call of `fetchQuranData` took its result from. -/
inductive QuranSource where
  | cdn
  | quranCom
  deriving DecidableEq, Repr

/-- Outcome of `fetchQuranData`: how the call ends, the content of
`quran_verses_complete.json` afterwards (`none` when there is no such file),
and the source used. -/
structure QuranFetch where
  result : CallEnd (List Verse)
  file : Option (List Verse)
  source : QuranSource
  deriving DecidableEq, Repr

/-- The function `fetchQuranData`, started with the raw file holding `file`. -/
def fetchQuranData (fetch : QuranUrl → Nat → FetchOutcome QuranBody) (writeThrows : Bool)
    (fuel : Nat) (file : Option (List Verse)) : QuranFetch :=
  let backup : QuranFetch :=
    { result := fetchQuranFromQuranCom fetch fuel, file := file, source := QuranSource.quranCom }
  match fetchFromCdn fetch with
  | none => backup
  | some allVerses =>
    match saveToFile writeThrows allVerses with
    | none => backup
    | some written =>
      { result := CallEnd.returned allVerses, file := written, source := QuranSource.cdn }

/-- A network on which the CDN answers every request with status 503, and
quran.com serves one chapter with one page of one verse. -/
def cdnDownNet : QuranUrl → Nat → FetchOutcome QuranBody
  | QuranUrl.chapters, _ =>
    FetchOutcome.responded 200
      (some (QuranBody.chapterList [{ id := JsVal.number 1, name_simple := js "Al-Fatihah" }]))
  | QuranUrl.versesByChapter _ 1, _ =>
    FetchOutcome.responded 200
      (some (QuranBody.versePage
        (some [{ verse_number := JsVal.number 1
                 text_uthmani := some (js "بسم الله")
                 translations := some [some (js "<p>In the name of Allah </p>")] }])
        (some { current_page := 1, total_pages := 1 })))
  | _, _ => FetchOutcome.responded 503 none

/-- A network on which the CDN serves both editions with one verse. -/
def cdnUpNet : QuranUrl → Nat → FetchOutcome QuranBody
  | QuranUrl.cdnEnglish, _ =>
    FetchOutcome.responded 200
      (some (QuranBody.edition (some [(1, [(1, js "In the name of Allah")])])))
  | QuranUrl.cdnArabic, _ =>
    FetchOutcome.responded 200 (some (QuranBody.edition (some [(1, [(1, js "بسم الله")])])))
  | _, _ => FetchOutcome.responded 503 none

/-- The verse both sample networks serve. -/
def openingVerse : Verse :=
  { chapter_id := JsVal.number 1
    chapter_name := js "Al-Fatihah"
    verse_number := JsVal.number 1
    juz := JsVal.undefined
    page := JsVal.undefined
    arabic_text := some (js "بسم الله")
    english_text := some (js "In the name of Allah") }

/-! ## Lemmas on the outcomes of a batch -/

theorem succeeding_append (env : Env) (a b : List Doc) (k : Nat) :
    succeeding env k (a ++ b) = succeeding env k a ++ succeeding env (k + a.length) b := by
  induction a generalizing k with
  | nil => simp [succeeding]
  | cons d ds ih =>
    simp only [List.cons_append, succeeding, List.length_cons, List.append_eq]
    rw [ih (k + 1)]
    have : k + 1 + ds.length = k + (ds.length + 1) := by omega
    rw [this]
    split <;> simp

theorem pushedFrom_append (env : Env) (a b : List Doc) (k : Nat) :
    pushedFrom env k (a ++ b) = pushedFrom env k a ++ pushedFrom env (k + a.length) b := by
  simp [pushedFrom, succeeding_append]

theorem persistedFrom_append (env : Env) (a b : List Doc) (k : Nat) :
    persistedFrom env k (a ++ b) = persistedFrom env k a ++ persistedFrom env (k + a.length) b := by
  induction a generalizing k with
  | nil => simp [persistedFrom]
  | cons d ds ih =>
    simp only [List.cons_append, persistedFrom, List.length_cons, List.append_eq]
    rw [ih (k + 1)]
    have : k + 1 + ds.length = k + (ds.length + 1) := by omega
    rw [this]
    split <;> simp

theorem failuresFrom_append (env : Env) (a b : List Doc) (k : Nat) :
    failuresFrom env k (a ++ b) = failuresFrom env k a + failuresFrom env (k + a.length) b := by
  induction a generalizing k with
  | nil => simp [failuresFrom]
  | cons d ds ih =>
    simp only [List.cons_append, failuresFrom, List.length_cons, List.append_eq]
    rw [ih (k + 1)]
    have : k + 1 + ds.length = k + (ds.length + 1) := by omega
    rw [this]
    split <;> omega

theorem callsFrom_append (env : Env) (a b : List Doc) (k : Nat) :
    callsFrom env k (a ++ b) = callsFrom env k a ++ callsFrom env (k + a.length) b := by
  induction a generalizing k with
  | nil => simp [callsFrom]
  | cons d ds ih =>
    simp only [List.cons_append, callsFrom, List.length_cons, List.append_eq]
    rw [ih (k + 1)]
    have : k + 1 + ds.length = k + (ds.length + 1) := by omega
    rw [this]

theorem processDoc_eq (env : Env) (k : Nat) (d : Doc) (acc : BatchAcc) :
    processDoc env k d acc =
      { withEmbeddings := acc.withEmbeddings ++ pushedFrom env k [d]
        batchErrors := acc.batchErrors + failuresFrom env k [d]
        errorCount := acc.errorCount + failuresFrom env k [d]
        mongo := acc.mongo ++ persistedFrom env k [d]
        calls := acc.calls ++ callsFrom env k [d] } := by
  unfold processDoc KnowledgeSource.create generateEmbedding
  cases h1 : knowledgeSourceSchema (sanitizeDoc d) <;> cases h2 : env.createThrows k <;>
    cases h3 : env.embedThrows k <;>
    simp [pushedFrom, succeeding, failuresFrom, persistedFrom, callsFrom, callOf, docSucceeds,
      createSucceeds, entryOf, h1, h2, h3]

theorem processBatch_eq (env : Env) (ds : List Doc) (k : Nat) (acc : BatchAcc) :
    processBatch env k ds acc =
      { withEmbeddings := acc.withEmbeddings ++ pushedFrom env k ds
        batchErrors := acc.batchErrors + failuresFrom env k ds
        errorCount := acc.errorCount + failuresFrom env k ds
        mongo := acc.mongo ++ persistedFrom env k ds
        calls := acc.calls ++ callsFrom env k ds } := by
  induction ds generalizing k acc with
  | nil => simp [processBatch, pushedFrom, succeeding, failuresFrom, persistedFrom, callsFrom]
  | cons d ds ih =>
    rw [processBatch, ih, processDoc_eq]
    have h1 := pushedFrom_append env [d] ds k
    have h2 := failuresFrom_append env [d] ds k
    have h3 := persistedFrom_append env [d] ds k
    have h4 := callsFrom_append env [d] ds k
    simp only [List.singleton_append, List.length_singleton] at h1 h2 h3 h4
    simp only [h1, h2, h3, h4, List.append_assoc, Nat.add_assoc]

theorem callsFrom_rawDoc (env : Env) (ds : List Doc) (k : Nat) :
    (callsFrom env k ds).map (fun c => c.rawDoc) = ds := by
  induction ds generalizing k with
  | nil => rfl
  | cons d ds ih => simp [callsFrom, callOf, ih]

theorem callsFrom_length (env : Env) (ds : List Doc) (k : Nat) :
    (callsFrom env k ds).length = ds.length := by
  induction ds generalizing k with
  | nil => rfl
  | cons d ds ih => simp [callsFrom, ih]

theorem toPoints_append (a b : List Entry) (q : Int) :
    toPoints (a ++ b) q = toPoints a q ++ toPoints b (q + (a.length : Int)) := by
  simp only [toPoints, List.mapIdx_append]
  congr 1
  congr 1
  funext i doc
  simp only [Nat.cast_add, Point.mk.injEq, and_true]
  omega

theorem toPoints_length (a : List Entry) (q : Int) : (toPoints a q).length = a.length := by
  simp [toPoints]




theorem drop_eq_batch_append (docs : List Doc) (i b : Nat) :
    docs.drop i = (docs.drop i).take b ++ docs.drop (i + b) := by
  rw [← List.drop_drop, List.take_append_drop]

theorem batch_length_or (docs : List Doc) (i b : Nat) :
    ((docs.drop i).take b).length = b ∨ docs.drop (i + b) = [] := by
  by_cases h : i + b ≤ docs.length
  · left; simp; omega
  · right; simp; omega

theorem succeeding_split (env : Env) (docs : List Doc) (i b : Nat) :
    succeeding env i (docs.drop i) =
      succeeding env i ((docs.drop i).take b) ++ succeeding env (i + b) (docs.drop (i + b)) := by
  conv_lhs => rw [drop_eq_batch_append docs i b, succeeding_append]
  rcases batch_length_or docs i b with h | h
  · rw [h]
  · rw [h]; simp [succeeding]

theorem pushedFrom_split (env : Env) (docs : List Doc) (i b : Nat) :
    pushedFrom env i (docs.drop i) =
      pushedFrom env i ((docs.drop i).take b) ++ pushedFrom env (i + b) (docs.drop (i + b)) := by
  simp only [pushedFrom, ← List.map_append, ← succeeding_split]

theorem persistedFrom_split (env : Env) (docs : List Doc) (i b : Nat) :
    persistedFrom env i (docs.drop i) =
      persistedFrom env i ((docs.drop i).take b) ++
        persistedFrom env (i + b) (docs.drop (i + b)) := by
  conv_lhs => rw [drop_eq_batch_append docs i b, persistedFrom_append]
  rcases batch_length_or docs i b with h | h
  · rw [h]
  · rw [h]; simp [persistedFrom]

theorem failuresFrom_split (env : Env) (docs : List Doc) (i b : Nat) :
    failuresFrom env i (docs.drop i) =
      failuresFrom env i ((docs.drop i).take b) +
        failuresFrom env (i + b) (docs.drop (i + b)) := by
  conv_lhs => rw [drop_eq_batch_append docs i b, failuresFrom_append]
  rcases batch_length_or docs i b with h | h
  · rw [h]
  · rw [h]; simp [failuresFrom]

theorem callsFrom_split (env : Env) (docs : List Doc) (i b : Nat) :
    callsFrom env i (docs.drop i) =
      callsFrom env i ((docs.drop i).take b) ++ callsFrom env (i + b) (docs.drop (i + b)) := by
  conv_lhs => rw [drop_eq_batch_append docs i b, callsFrom_append]
  rcases batch_length_or docs i b with h | h
  · rw [h]
  · rw [h]; simp [callsFrom]


theorem batchLoop_zero (env : Env) (b : Nat) (r : Int) (docs : List Doc) (i : Nat)
    (s : LoopState) :
    batchLoop env b r docs 0 i s = { logs := [], state := s, status := Status.running } := rfl

theorem batchLoop_done (env : Env) (b : Nat) (r : Int) (docs : List Doc) (fuel i : Nat)
    (s : LoopState) (h : ¬ i < docs.length) :
    batchLoop env b r docs (fuel + 1) i s =
      { logs := [], state := s, status := Status.completed } := by
  rw [batchLoop, if_neg h]

theorem insert_guard (env : Env) (n : Nat) (es : List Entry) (q : Int) (w : World) :
    (if es.length > 0 then insertDocuments env n es q w else some w) =
      insertDocuments env n es q w := by
  by_cases h : es.length > 0
  · rw [if_pos h]
  · have h0 : es.length = 0 := by omega
    rw [if_neg h, insertDocuments, if_pos h0]

theorem batchLoop_fatal (env : Env) (b : Nat) (r : Int) (docs : List Doc) (fuel i : Nat)
    (s : LoopState) (h : i < docs.length)
    (hins : insertDocuments env (i / b + 1) (pushedFrom env i ((docs.drop i).take b))
      s.qdrantId (worldAfterDocs env b docs i s.world) = none) :
    batchLoop env b r docs (fuel + 1) i s =
      { logs := [batchLogAt env b r docs i s.qdrantId false]
        state := { s with
          world := worldAfterDocs env b docs i s.world
          errorCount := s.errorCount + failuresFrom env i ((docs.drop i).take b) }
        status := Status.fatal } := by
  rw [batchLoop, if_pos h]
  simp only [processBatch_eq, List.nil_append, Nat.zero_add, insert_guard]
  simp only [worldAfterDocs] at hins
  rw [hins]
  simp [batchLogAt, worldAfterDocs]

theorem batchLoop_cons (env : Env) (b : Nat) (r : Int) (docs : List Doc) (fuel i : Nat)
    (s : LoopState) (w2 : World) (h : i < docs.length)
    (hins : insertDocuments env (i / b + 1) (pushedFrom env i ((docs.drop i).take b))
      s.qdrantId (worldAfterDocs env b docs i s.world) = some w2) :
    batchLoop env b r docs (fuel + 1) i s =
      { logs := batchLogAt env b r docs i s.qdrantId true ::
          (batchLoop env b r docs fuel (i + b) (stateAfterBatch env b r docs i s w2)).logs
        state := (batchLoop env b r docs fuel (i + b) (stateAfterBatch env b r docs i s w2)).state
        status :=
          (batchLoop env b r docs fuel (i + b) (stateAfterBatch env b r docs i s w2)).status } := by
  rw [batchLoop, if_pos h]
  simp only [processBatch_eq, List.nil_append, Nat.zero_add, insert_guard]
  simp only [worldAfterDocs] at hins
  rw [hins]
  simp [batchLogAt, stateAfterBatch]

theorem batchLogAt_points (env : Env) (b : Nat) (r : Int) (docs : List Doc) (i : Nat) (q : Int)
    (ok : Bool) :
    (batchLogAt env b r docs i q ok).points.getD [] =
      toPoints (pushedFrom env i ((docs.drop i).take b)) q := by
  unfold batchLogAt
  simp only
  split
  · rfl
  · rename_i h
    have h0 : pushedFrom env i ((docs.drop i).take b) = [] := by
      apply List.eq_nil_of_length_eq_zero; omega
    simp [h0, toPoints]

/-- The points the run has upserted are an initial part of the points built
from all entries the remaining documents push. -/
theorem upsertedPoints_prefix (env : Env) (b : Nat) (r : Int) (docs : List Doc) :
    ∀ (fuel i : Nat) (s : LoopState),
      upsertedPoints (batchLoop env b r docs fuel i s).logs <+:
        toPoints (pushedFrom env i (docs.drop i)) s.qdrantId := by
  intro fuel
  induction fuel with
  | zero => intro i s; simp [batchLoop, upsertedPoints]
  | succ fuel ih =>
    intro i s
    by_cases h : i < docs.length
    · cases hins : insertDocuments env (i / b + 1) (pushedFrom env i ((docs.drop i).take b))
        s.qdrantId (worldAfterDocs env b docs i s.world) with
      | none =>
        rw [batchLoop_fatal env b r docs fuel i s h hins]
        simp [upsertedPoints, batchLogAt]
      | some w2 =>
        rw [batchLoop_cons env b r docs fuel i s w2 h hins]
        rw [pushedFrom_split env docs i b, toPoints_append]
        have hlog : (batchLogAt env b r docs i s.qdrantId true).upsertOk = true := rfl
        simp only [upsertedPoints, List.flatMap_cons, hlog, if_true, batchLogAt_points]
        exact (List.prefix_append_right_inj _).2 (ih (i + b) (stateAfterBatch env b r docs i s w2))
    · rw [batchLoop_done env b r docs fuel i s h]
      simp [upsertedPoints]

/-- All calls of a run, in order. -/
theorem allCalls_prefix (env : Env) (b : Nat) (r : Int) (docs : List Doc) :
    ∀ (fuel i : Nat) (s : LoopState),
      (batchLoop env b r docs fuel i s).logs.flatMap (fun l => l.calls) <+:
        callsFrom env i (docs.drop i) := by
  intro fuel
  induction fuel with
  | zero => intro i s; simp [batchLoop]
  | succ fuel ih =>
    intro i s
    by_cases h : i < docs.length
    · cases hins : insertDocuments env (i / b + 1) (pushedFrom env i ((docs.drop i).take b))
        s.qdrantId (worldAfterDocs env b docs i s.world) with
      | none =>
        rw [batchLoop_fatal env b r docs fuel i s h hins, callsFrom_split env docs i b]
        simp [batchLogAt]
      | some w2 =>
        rw [batchLoop_cons env b r docs fuel i s w2 h hins, callsFrom_split env docs i b]
        simp only [List.flatMap_cons]
        exact (List.prefix_append_right_inj _).2 (ih (i + b) (stateAfterBatch env b r docs i s w2))
    · rw [batchLoop_done env b r docs fuel i s h]
      simp

/-- Every record of the loop is the record of some iteration. -/
theorem log_shape (env : Env) (b : Nat) (r : Int) (docs : List Doc) :
    ∀ (fuel i : Nat) (s : LoopState) (l : BatchLog),
      l ∈ (batchLoop env b r docs fuel i s).logs →
        ∃ (i' : Nat) (q : Int) (ok : Bool), i ≤ i' ∧ i' < docs.length ∧
          l = batchLogAt env b r docs i' q ok := by
  intro fuel
  induction fuel with
  | zero => intro i s l hl; simp [batchLoop] at hl
  | succ fuel ih =>
    intro i s l hl
    by_cases h : i < docs.length
    · cases hins : insertDocuments env (i / b + 1) (pushedFrom env i ((docs.drop i).take b))
        s.qdrantId (worldAfterDocs env b docs i s.world) with
      | none =>
        rw [batchLoop_fatal env b r docs fuel i s h hins] at hl
        simp only [List.mem_singleton] at hl
        exact ⟨i, s.qdrantId, false, Nat.le_refl i, h, hl⟩
      | some w2 =>
        rw [batchLoop_cons env b r docs fuel i s w2 h hins] at hl
        simp only [List.mem_cons] at hl
        rcases hl with hl | hl
        · exact ⟨i, s.qdrantId, true, Nat.le_refl i, h, hl⟩
        · obtain ⟨i', q, ok, h1, h2, h3⟩ := ih (i + b) _ l hl
          exact ⟨i', q, ok, by omega, h2, h3⟩
    · rw [batchLoop_done env b r docs fuel i s h] at hl
      simp at hl

/-- The error counter after the loop. -/
theorem errorCount_loop (env : Env) (b : Nat) (r : Int) (docs : List Doc) :
    ∀ (fuel i : Nat) (s : LoopState),
      (batchLoop env b r docs fuel i s).state.errorCount =
        s.errorCount + ((batchLoop env b r docs fuel i s).logs.map (fun l => l.batchErrors)).sum := by
  intro fuel
  induction fuel with
  | zero => intro i s; simp [batchLoop]
  | succ fuel ih =>
    intro i s
    by_cases h : i < docs.length
    · cases hins : insertDocuments env (i / b + 1) (pushedFrom env i ((docs.drop i).take b))
        s.qdrantId (worldAfterDocs env b docs i s.world) with
      | none =>
        rw [batchLoop_fatal env b r docs fuel i s h hins]
        simp [batchLogAt]
      | some w2 =>
        rw [batchLoop_cons env b r docs fuel i s w2 h hins]
        simp only [List.map_cons, List.sum_cons]
        rw [ih (i + b) (stateAfterBatch env b r docs i s w2)]
        simp only [stateAfterBatch, batchLogAt]
        omega
    · rw [batchLoop_done env b r docs fuel i s h]
      simp

/-- The counter `loaded` after the loop. -/
theorem loaded_loop (env : Env) (b : Nat) (r : Int) (docs : List Doc) :
    ∀ (fuel i : Nat) (s : LoopState),
      (batchLoop env b r docs fuel i s).state.loaded =
        s.loaded + ((((batchLoop env b r docs fuel i s).logs.filter
          (fun l => l.saved.isSome)).flatMap (fun l => l.batch)).length : Int) := by
  intro fuel
  induction fuel with
  | zero => intro i s; simp [batchLoop]
  | succ fuel ih =>
    intro i s
    by_cases h : i < docs.length
    · cases hins : insertDocuments env (i / b + 1) (pushedFrom env i ((docs.drop i).take b))
        s.qdrantId (worldAfterDocs env b docs i s.world) with
      | none =>
        rw [batchLoop_fatal env b r docs fuel i s h hins]
        simp [batchLogAt]
      | some w2 =>
        rw [batchLoop_cons env b r docs fuel i s w2 h hins]
        have hs : (batchLogAt env b r docs i s.qdrantId true).saved.isSome = true := rfl
        simp only [List.filter_cons, hs, if_true, List.flatMap_cons, List.length_append,
          Nat.cast_add]
        rw [ih (i + b) (stateAfterBatch env b r docs i s w2)]
        simp only [stateAfterBatch, batchLogAt]
        omega
    · rw [batchLoop_done env b r docs fuel i s h]
      simp

theorem upsertPoints_append (store a b : List Point) :
    upsertPoints store (a ++ b) = upsertPoints (upsertPoints store a) b := by
  simp [upsertPoints, List.foldl_append]

theorem toPoints_cons (e : Entry) (es : List Entry) (q : Int) :
    toPoints (e :: es) q =
      { id := q, vector := e.embedding,
        payload := { text := e.text, source_type := e.source_type, reference := e.reference } } ::
        toPoints es (q + 1) := by
  have h := toPoints_append [e] es q
  simp only [List.singleton_append, List.length_singleton, Nat.cast_one] at h
  rw [h]
  simp [toPoints]

theorem toPoints_id_bounds (es : List Entry) (q : Int) (p : Point) (hp : p ∈ toPoints es q) :
    q ≤ p.id ∧ p.id < q + (es.length : Int) := by
  induction es generalizing q with
  | nil => simp [toPoints] at hp
  | cons e es ih =>
    rw [toPoints_cons] at hp
    simp only [List.mem_cons] at hp
    rcases hp with hp | hp
    · subst hp
      simp only [List.length_cons, Nat.cast_add, Nat.cast_one]
      omega
    · have := ih (q + 1) hp
      simp only [List.length_cons, Nat.cast_add, Nat.cast_one]
      omega

theorem upsertPoint_new (store : List Point) (p : Point) (h : ∀ x ∈ store, x.id ≠ p.id) :
    upsertPoint store p = store ++ [p] := by
  unfold upsertPoint
  have : store.any (fun x => x.id == p.id) = false := by
    rw [List.any_eq_false]
    intro x hx
    simpa using h x hx
  simp [this]

theorem upsertPoints_new (es : List Entry) (store : List Point) (q : Int)
    (h : ∀ x ∈ store, x.id < q) :
    upsertPoints store (toPoints es q) = store ++ toPoints es q := by
  induction es generalizing store q with
  | nil => simp [upsertPoints, toPoints]
  | cons e es ih =>
    rw [toPoints_cons]
    simp only [upsertPoints, List.foldl_cons]
    rw [upsertPoint_new store _ (fun x hx => by have := h x hx; simp only [ne_eq]; omega)]
    have := ih (store ++ [{ id := q, vector := e.embedding, payload :=
      { text := e.text, source_type := e.source_type, reference := e.reference } }]) (q + 1)
      (by
        intro x hx
        simp only [List.mem_append, List.mem_singleton] at hx
        rcases hx with hx | hx
        · have := h x hx; omega
        · subst hx; simp)
    simp only [upsertPoints] at this
    rw [this]
    simp

theorem insertDocuments_some (env : Env) (n : Nat) (es : List Entry) (q : Int) (w : World)
    (store : List Point) (hthrow : env.upsertThrows n = false) (hq : w.qdrant = some store) :
    insertDocuments env n es q w =
      some { w with qdrant := some (upsertPoints store (toPoints es q)) } := by
  unfold insertDocuments
  by_cases h0 : es.length = 0
  · have : es = [] := List.eq_nil_of_length_eq_zero h0
    subst this
    cases w
    simp_all [upsertPoints, toPoints]
  · simp [h0, hthrow, hq]

/-- When no points request fails and the collection exists, the loop ends and
its final state is determined by the outcomes of the remaining documents. -/
theorem batchLoop_complete (env : Env) (b : Nat) (r : Int) (docs : List Doc) (hb : 0 < b)
    (hup : ∀ n, env.upsertThrows n = false) :
    ∀ (fuel i : Nat) (s : LoopState) (store : List Point),
      docs.length - i < fuel → s.world.qdrant = some store →
        (batchLoop env b r docs fuel i s).status = Status.completed ∧
        (batchLoop env b r docs fuel i s).state.world.mongo =
          s.world.mongo ++ persistedFrom env i (docs.drop i) ∧
        (batchLoop env b r docs fuel i s).state.world.qdrant =
          some (upsertPoints store (toPoints (pushedFrom env i (docs.drop i)) s.qdrantId)) ∧
        upsertedPoints (batchLoop env b r docs fuel i s).logs =
          toPoints (pushedFrom env i (docs.drop i)) s.qdrantId ∧
        (batchLoop env b r docs fuel i s).logs.flatMap (fun l => l.calls) =
          callsFrom env i (docs.drop i) ∧
        (batchLoop env b r docs fuel i s).state.errorCount =
          s.errorCount + failuresFrom env i (docs.drop i) := by
  intro fuel
  induction fuel with
  | zero => intro i s store hf; omega
  | succ fuel ih =>
    intro i s store hf hq
    by_cases h : i < docs.length
    · obtain ⟨w2, hins, hw2q, hw2m⟩ : ∃ w2 : World,
          insertDocuments env (i / b + 1) (pushedFrom env i ((docs.drop i).take b)) s.qdrantId
            (worldAfterDocs env b docs i s.world) = some w2 ∧
          w2.qdrant = some (upsertPoints store
            (toPoints (pushedFrom env i ((docs.drop i).take b)) s.qdrantId)) ∧
          w2.mongo = s.world.mongo ++ persistedFrom env i ((docs.drop i).take b) :=
        ⟨_, insertDocuments_some env (i / b + 1) (pushedFrom env i ((docs.drop i).take b))
          s.qdrantId (worldAfterDocs env b docs i s.world) store (hup _)
          (by simpa [worldAfterDocs] using hq), rfl, rfl⟩
      rw [batchLoop_cons env b r docs fuel i s w2 h hins]
      obtain ⟨h1, h2, h3, h4, h5, h6⟩ := ih (i + b) (stateAfterBatch env b r docs i s w2)
        (upsertPoints store (toPoints (pushedFrom env i ((docs.drop i).take b)) s.qdrantId))
        (by omega) (by simpa [stateAfterBatch, saveProgress] using hw2q)
      refine ⟨h1, ?_, ?_, ?_, ?_, ?_⟩
      · rw [h2, persistedFrom_split env docs i b]
        simp [stateAfterBatch, saveProgress, hw2m]
      · rw [h3, pushedFrom_split env docs i b, toPoints_append, upsertPoints_append]
        simp [stateAfterBatch]
      · have hlog : (batchLogAt env b r docs i s.qdrantId true).upsertOk = true := rfl
        simp only [upsertedPoints, List.flatMap_cons, hlog, if_true, batchLogAt_points]
        simp only [upsertedPoints] at h4
        rw [h4, pushedFrom_split env docs i b, toPoints_append]
        simp [stateAfterBatch]
      · simp only [List.flatMap_cons]
        rw [h5, callsFrom_split env docs i b]
        simp [batchLogAt]
      · rw [h6, failuresFrom_split env docs i b]
        simp only [stateAfterBatch]
        omega
    · rw [batchLoop_done env b r docs fuel i s h]
      have hd : docs.drop i = [] := by simp; omega
      simp [hd, pushedFrom, succeeding, persistedFrom, failuresFrom, callsFrom, toPoints,
        upsertedPoints, upsertPoints, hq]

theorem batch_length_full (docs : List Doc) (i b : Nat) (h : i + b < docs.length) :
    ((docs.drop i).take b).length = b := by
  simp; omega

/-- Each checkpoint value written is the previous one (the value `c` the loop
was entered with, for the first) plus the number of calls of the batch. -/
theorem checkpoint_chain (env : Env) (b : Nat) (r : Int) (docs : List Doc) :
    ∀ (fuel i : Nat) (s : LoopState) (c : Int), (i < docs.length → c = r + (i : Int)) →
      ∀ (j : Nat) (l : BatchLog) (v : Int),
        (batchLoop env b r docs fuel i s).logs[j]? = some l → l.saved = some v →
          ∃ prev : Int,
            ((j = 0 ∧ prev = c) ∨
              (∃ l', 0 < j ∧ (batchLoop env b r docs fuel i s).logs[j - 1]? = some l' ∧
                l'.saved = some prev)) ∧
            v = prev + (l.calls.length : Int) := by
  intro fuel
  induction fuel with
  | zero => intro i s c _ j l v hl; simp [batchLoop] at hl
  | succ fuel ih =>
    intro i s c hc j l v hl hv
    by_cases h : i < docs.length
    · cases hins : insertDocuments env (i / b + 1) (pushedFrom env i ((docs.drop i).take b))
        s.qdrantId (worldAfterDocs env b docs i s.world) with
      | none =>
        rw [batchLoop_fatal env b r docs fuel i s h hins] at hl
        cases j with
        | zero =>
          simp only [List.getElem?_cons_zero, Option.some.injEq] at hl
          subst hl
          simp [batchLogAt] at hv
        | succ j => simp at hl
      | some w2 =>
        rw [batchLoop_cons env b r docs fuel i s w2 h hins] at hl ⊢
        cases j with
        | zero =>
          simp only [List.getElem?_cons_zero, Option.some.injEq] at hl
          subst hl
          refine ⟨c, Or.inl ⟨rfl, rfl⟩, ?_⟩
          simp only [batchLogAt, if_true, Option.some.injEq] at hv
          simp only [batchLogAt, callsFrom_length]
          rw [hc h]
          omega
        | succ j =>
          simp only [List.getElem?_cons_succ] at hl
          obtain ⟨prev, hprev, hvp⟩ := ih (i + b) (stateAfterBatch env b r docs i s w2)
            (r + (i : Int) + (((docs.drop i).take b).length : Int))
            (by
              intro hlt
              rw [batch_length_full docs i b hlt]
              push_cast
              omega)
            j l v hl hv
          refine ⟨prev, Or.inr ?_, hvp⟩
          rcases hprev with ⟨hj, hp⟩ | ⟨l', hj, hl', hs'⟩
          · subst hj
            refine ⟨batchLogAt env b r docs i s.qdrantId true, Nat.succ_pos _, by simp, ?_⟩
            simp [batchLogAt, hp]
          · refine ⟨l', Nat.succ_pos _, ?_, hs'⟩
            have : j + 1 - 1 = (j - 1) + 1 := by omega
            rw [this, List.getElem?_cons_succ]
            exact hl'
    · rw [batchLoop_done env b r docs fuel i s h] at hl
      simp at hl

theorem pushedFrom_length_le (env : Env) (ds : List Doc) (k : Nat) :
    (pushedFrom env k ds).length ≤ ds.length := by
  unfold pushedFrom
  rw [List.length_map]
  induction ds generalizing k with
  | nil => simp [succeeding]
  | cons d ds ih =>
    simp only [succeeding]
    split
    · simp only [List.length_cons]; have := ih (k + 1); omega
    · simp only [List.length_cons]; have := ih (k + 1); omega

/-- Up to the batch that writes checkpoint `v`, every id upserted is at most
`v`, provided the loop is entered with an id not above the position. -/
theorem ids_le_checkpoint (env : Env) (b : Nat) (r : Int) (docs : List Doc) :
    ∀ (fuel i : Nat) (s : LoopState) (pre post : List BatchLog) (l : BatchLog) (v : Int),
      s.qdrantId ≤ r + (i : Int) + 1 →
      (batchLoop env b r docs fuel i s).logs = pre ++ l :: post → l.saved = some v →
        r + (i : Int) ≤ v ∧ ∀ p ∈ upsertedPoints (pre ++ [l]), s.qdrantId ≤ p.id ∧ p.id ≤ v := by
  intro fuel
  induction fuel with
  | zero => intro i s pre post l v _ hl; simp [batchLoop] at hl
  | succ fuel ih =>
    intro i s pre post l v hq hl hv
    by_cases h : i < docs.length
    · have hlen := pushedFrom_length_le env ((docs.drop i).take b) i
      have hbl : ((docs.drop i).take b).length ≤ b := by simp
      cases hins : insertDocuments env (i / b + 1) (pushedFrom env i ((docs.drop i).take b))
        s.qdrantId (worldAfterDocs env b docs i s.world) with
      | none =>
        rw [batchLoop_fatal env b r docs fuel i s h hins] at hl
        cases pre with
        | nil =>
          simp only [List.nil_append, List.cons.injEq] at hl
          rw [← hl.1] at hv
          simp [batchLogAt] at hv
        | cons x pre =>
          simp only [List.cons_append, List.cons.injEq] at hl
          have := hl.2
          simp at this
      | some w2 =>
        rw [batchLoop_cons env b r docs fuel i s w2 h hins] at hl
        cases pre with
        | nil =>
          simp only [List.nil_append, List.cons.injEq] at hl
          rw [← hl.1] at hv ⊢
          simp only [batchLogAt, if_true, Option.some.injEq] at hv
          refine ⟨by omega, ?_⟩
          intro p hp
          have hok : (batchLogAt env b r docs i s.qdrantId true).upsertOk = true := rfl
          simp only [upsertedPoints, List.nil_append, List.flatMap_cons, hok, if_true,
            batchLogAt_points, List.flatMap_nil, List.append_nil] at hp
          have := toPoints_id_bounds _ _ p hp
          omega
        | cons x pre =>
          simp only [List.cons_append, List.cons.injEq] at hl
          obtain ⟨hx, hrest⟩ := hl
          obtain ⟨h1, h2⟩ := ih (i + b) (stateAfterBatch env b r docs i s w2) pre post l v
            (by simp only [stateAfterBatch]; push_cast; omega) hrest hv
          refine ⟨by push_cast at h1; omega, ?_⟩
          intro p hp
          rw [← hx] at hp
          have hok : (batchLogAt env b r docs i s.qdrantId true).upsertOk = true := rfl
          simp only [upsertedPoints, List.cons_append, List.flatMap_cons, hok, if_true,
            batchLogAt_points, List.mem_append] at hp
          rcases hp with hp | hp
          · have := toPoints_id_bounds _ _ p hp
            push_cast at h1
            omega
          · have := h2 p (by simpa [upsertedPoints] using hp)
            simp only [stateAfterBatch] at this
            omega
    · rw [batchLoop_done env b r docs fuel i s h] at hl
      simp at hl

theorem ceil_step (n i b : Nat) (hb : 0 < b) (h : i < n) :
    (n - i + b - 1) / b = (n - (i + b) + b - 1) / b + 1 := by
  have e1 : n - i + b - 1 = (n - i - 1) + b := by omega
  rw [e1, Nat.add_div_right _ hb]
  congr 1
  by_cases hge : b ≤ n - i
  · congr 1; omega
  · rw [Nat.div_eq_of_lt (by omega), Nat.div_eq_of_lt (by omega)]

theorem ceil_done (n i b : Nat) (hb : 0 < b) (h : ¬ i < n) : (n - i + b - 1) / b = 0 := by
  apply Nat.div_eq_of_lt; omega

/-- The batches and checkpoint values of a loop that completes. -/
theorem completed_shape (env : Env) (b : Nat) (r : Int) (docs : List Doc) (hb : 0 < b) :
    ∀ (fuel i : Nat) (s : LoopState),
      (batchLoop env b r docs fuel i s).status = Status.completed →
        (batchLoop env b r docs fuel i s).logs.length = (docs.length - i + b - 1) / b ∧
        checkpointsWritten (batchLoop env b r docs fuel i s).logs =
          (List.range ((docs.length - i + b - 1) / b)).map
            (fun j => r + ((min (i + (j + 1) * b) docs.length : Nat) : Int)) ∧
        (batchLoop env b r docs fuel i s).logs.map (fun l => l.batch.length) =
          (List.range ((docs.length - i + b - 1) / b)).map
            (fun j => min b (docs.length - (i + j * b))) := by
  intro fuel
  induction fuel with
  | zero => intro i s hst; simp [batchLoop] at hst
  | succ fuel ih =>
    intro i s hst
    by_cases h : i < docs.length
    · cases hins : insertDocuments env (i / b + 1) (pushedFrom env i ((docs.drop i).take b))
        s.qdrantId (worldAfterDocs env b docs i s.world) with
      | none =>
        rw [batchLoop_fatal env b r docs fuel i s h hins] at hst
        simp at hst
      | some w2 =>
        rw [batchLoop_cons env b r docs fuel i s w2 h hins] at hst ⊢
        obtain ⟨h1, h2, h3⟩ := ih (i + b) (stateAfterBatch env b r docs i s w2) hst
        rw [ceil_step docs.length i b hb h, List.range_succ_eq_map]
        refine ⟨by simp [h1], ?_, ?_⟩
        · simp only [checkpointsWritten, List.filterMap_cons, batchLogAt, if_true] at h2 ⊢
          rw [h2]
          simp only [List.map_cons, List.map_map, List.cons.injEq]
          refine ⟨?_, ?_⟩
          · simp only [List.length_take, List.length_drop]
            have : min b (docs.length - i) = min (i + (0 + 1) * b) docs.length - i := by
              simp only [Nat.zero_add, Nat.one_mul]; omega
            have h2 : i ≤ min (i + (0 + 1) * b) docs.length := by
              simp only [Nat.zero_add, Nat.one_mul]; omega
            rw [this]
            omega
          · apply List.map_congr_left
            intro j _
            simp only [Function.comp]
            have : i + b + (j + 1) * b = i + (j + 1 + 1) * b := by ring
            rw [this]
        · simp only [List.map_cons, batchLogAt, List.map_map]
          rw [h3]
          refine List.cons_eq_cons.2 ⟨?_, ?_⟩
          · simp
          · apply List.map_congr_left
            intro j _
            simp only [Function.comp]
            have : i + b + j * b = i + (j + 1) * b := by ring
            rw [this]
    · rw [batchLoop_done env b r docs fuel i s h]
      simp [ceil_done docs.length i b hb h, checkpointsWritten]

theorem jsSlice_eq_drop {α : Type} (xs : List α) (start : Int) :
    ∃ m, jsSlice xs start = xs.drop m ∧ (0 ≤ start → m = start.toNat) := by
  unfold jsSlice
  split
  · exact ⟨_, rfl, fun h => by omega⟩
  · exact ⟨_, rfl, fun _ => rfl⟩

/-- The fields of a run that do not depend on the batch loop. -/
theorem loadData_fields (env : Env) (b : Nat) (allDocuments : List Doc) (w : World) :
    (loadData env b allDocuments w).validDocs = allDocuments.filter hasValidText ∧
    (loadData env b allDocuments w).skipped =
      allDocuments.length - (allDocuments.filter hasValidText).length ∧
    (loadData env b allDocuments w).resumeFrom = loadProgress w ∧
    (loadData env b allDocuments w).docs =
      jsSlice (allDocuments.filter hasValidText) (loadProgress w) ∧
    (loadData env b allDocuments w).atLoop = setupStores env (loadProgress w) w := by
  unfold loadData
  simp only
  split
  · rename_i h; simp [h]
  · rename_i w0 h
    split
    · split <;> simp [h]
    · simp [h]

/-- The function `clearProgress` touches the checkpoint file only, and the
file is gone afterwards unless its removal fails. -/
theorem clearProgress_fields (env : Env) (w : World) :
    (clearProgress env w).mongo = w.mongo ∧ (clearProgress env w).qdrant = w.qdrant ∧
    (clearProgress env w).progressFile = if env.unlinkThrows then w.progressFile else none := by
  unfold clearProgress
  cases hp : w.progressFile <;> cases hu : env.unlinkThrows <;> simp [hp]

/-- A step 4 that throws leaves the checkpoint file as it is. -/
theorem setupFailure_progressFile (env : Env) (w : World) :
    (setupFailure env w).progressFile = w.progressFile := by
  have hp : (deleteCollection env w).progressFile = w.progressFile := by
    unfold deleteCollection
    split <;> rfl
  unfold setupFailure
  cases hc : createCollection env (deleteCollection env w) with
  | none => exact hp
  | some w1 =>
    simp only
    unfold createCollection at hc
    split at hc
    · simp only [Option.some.injEq] at hc; rw [← hc, hp]
    · split at hc
      · cases hc
      · split at hc
        · cases hc
        · simp only [Option.some.injEq] at hc; rw [← hc]; exact hp

/-- A run whose step 4 throws does nothing more. -/
theorem loadData_of_setup_none (env : Env) (b : Nat) (allDocuments : List Doc) (w : World)
    (h : setupStores env (loadProgress w) w = none) :
    (loadData env b allDocuments w).logs = [] ∧
    (loadData env b allDocuments w).status = Status.fatal ∧
    (loadData env b allDocuments w).world = setupFailure env w ∧
    (loadData env b allDocuments w).errorCount = 0 ∧
    (loadData env b allDocuments w).loaded = loadProgress w := by
  unfold loadData
  simp only [h]
  simp

/-- A run whose step 4 returns is its batch loop followed by the verification
step. -/
theorem loadData_of_setup_some (env : Env) (b : Nat) (allDocuments : List Doc) (w w0 : World)
    (h : setupStores env (loadProgress w) w = some w0) :
    (loadData env b allDocuments w).logs = (loopOf env b allDocuments w w0).logs ∧
    (loadData env b allDocuments w).loaded = (loopOf env b allDocuments w w0).state.loaded ∧
    (loadData env b allDocuments w).errorCount =
      (loopOf env b allDocuments w w0).state.errorCount ∧
    (loadData env b allDocuments w).world.mongo =
      (loopOf env b allDocuments w w0).state.world.mongo ∧
    (loadData env b allDocuments w).world.qdrant =
      (loopOf env b allDocuments w w0).state.world.qdrant ∧
    ((loopOf env b allDocuments w w0).status = Status.completed → env.countThrows = false →
      (loadData env b allDocuments w).status = Status.completed ∧
      (loadData env b allDocuments w).mongoCount =
        some (loopOf env b allDocuments w w0).state.world.mongo.length ∧
      (loadData env b allDocuments w).world.progressFile =
        if env.unlinkThrows then (loopOf env b allDocuments w w0).state.world.progressFile
        else none) ∧
    ((loopOf env b allDocuments w w0).status ≠ Status.completed →
      (loadData env b allDocuments w).status = (loopOf env b allDocuments w w0).status ∧
      (loadData env b allDocuments w).world = (loopOf env b allDocuments w w0).state.world) := by
  unfold loadData
  simp only [h]
  rw [show batchLoop env b (loadProgress w)
      (jsSlice (allDocuments.filter hasValidText) (loadProgress w))
      ((jsSlice (allDocuments.filter hasValidText) (loadProgress w)).length + 1) 0
      { world := w0, loaded := loadProgress w, qdrantId := loadProgress w + 1, errorCount := 0 } =
    loopOf env b allDocuments w w0 from rfl]
  cases hst : (loopOf env b allDocuments w w0).status <;>
    simp [KnowledgeSource.countDocuments, clearProgress_fields]
  cases env.countThrows <;> simp [clearProgress_fields]

theorem succeeding_getElem (env : Env) (ds : List Doc) :
    ∀ (k n j : Nat) (d : Doc), (succeeding env k ds)[n]? = some (j, d) →
      ds[j - k]? = some d ∧ k ≤ j ∧ docSucceeds env j d = true ∧
        j = k + n + failuresFrom env k (ds.take (j - k)) := by
  induction ds with
  | nil => intro k n j d h; simp [succeeding] at h
  | cons d0 ds ih =>
    intro k n j d h
    simp only [succeeding] at h
    by_cases hs : docSucceeds env k d0 = true
    · rw [if_pos hs] at h
      cases n with
      | zero =>
        simp only [List.getElem?_cons_zero, Option.some.injEq, Prod.mk.injEq] at h
        obtain ⟨hk, hd⟩ := h
        subst hk; subst hd
        simp [failuresFrom, hs]
      | succ n =>
        simp only [List.getElem?_cons_succ] at h
        obtain ⟨h1, h2, h3, h4⟩ := ih (k + 1) n j d h
        have e : j - k = (j - (k + 1)) + 1 := by omega
        refine ⟨by rw [e, List.getElem?_cons_succ]; exact h1, by omega, h3, ?_⟩
        rw [e, List.take_succ_cons]
        simp only [failuresFrom, if_pos hs]
        omega
    · rw [if_neg hs] at h
      obtain ⟨h1, h2, h3, h4⟩ := ih (k + 1) n j d h
      have e : j - k = (j - (k + 1)) + 1 := by omega
      refine ⟨by rw [e, List.getElem?_cons_succ]; exact h1, by omega, h3, ?_⟩
      rw [e, List.take_succ_cons]
      simp only [failuresFrom, if_neg hs]
      omega

theorem prefix_getElem? {α : Type} {l1 l2 : List α} (h : l1 <+: l2) (n : Nat) (a : α)
    (ha : l1[n]? = some a) : l2[n]? = some a := by
  obtain ⟨t, rfl⟩ := h
  have hn : n < l1.length := by
    by_contra hc
    rw [List.getElem?_eq_none (by omega)] at ha
    cases ha
  rw [List.getElem?_append_left hn]
  exact ha

theorem toPoints_getElem? (es : List Entry) (q : Int) (n : Nat) (p : Point)
    (h : (toPoints es q)[n]? = some p) :
    ∃ e, es[n]? = some e ∧
      p = Point.mk (q + (n : Int)) e.embedding (Payload.mk e.text e.source_type e.reference) := by
  simp only [toPoints, List.getElem?_mapIdx] at h
  cases he : es[n]? with
  | none => simp [he] at h
  | some e =>
    simp only [he, Option.map_some', Option.some.injEq] at h
    exact ⟨e, rfl, h.symm⟩

/-- With a positive batch size the fuel `loadData` supplies is never spent:
the loop ends, completed or on a fatal error. -/
theorem batchLoop_ends (env : Env) (b : Nat) (r : Int) (docs : List Doc) (hb : 0 < b) :
    ∀ (fuel i : Nat) (s : LoopState), docs.length - i < fuel →
      (batchLoop env b r docs fuel i s).status ≠ Status.running := by
  intro fuel
  induction fuel with
  | zero => intro i s hf; omega
  | succ fuel ih =>
    intro i s hf
    by_cases h : i < docs.length
    · cases hins : insertDocuments env (i / b + 1) (pushedFrom env i ((docs.drop i).take b))
        s.qdrantId (worldAfterDocs env b docs i s.world) with
      | none =>
        rw [batchLoop_fatal env b r docs fuel i s h hins]
        simp
      | some w2 =>
        rw [batchLoop_cons env b r docs fuel i s w2 h hins]
        exact ih (i + b) _ (by omega)
    · rw [batchLoop_done env b r docs fuel i s h]
      simp

/-- A run with a positive batch size ends. -/
theorem loadData_ends (env : Env) (b : Nat) (allDocuments : List Doc) (w : World) (hb : 0 < b) :
    (loadData env b allDocuments w).status ≠ Status.running := by
  cases hs : setupStores env (loadProgress w) w with
  | none =>
    rw [(loadData_of_setup_none env b allDocuments w hs).2.1]
    simp
  | some w0 =>
    obtain ⟨_, _, _, _, _, h6, h7⟩ := loadData_of_setup_some env b allDocuments w w0 hs
    have hloop : (loopOf env b allDocuments w w0).status ≠ Status.running :=
      batchLoop_ends env b (loadProgress w) _ hb _ 0 _ (by omega)
    by_cases hc : (loopOf env b allDocuments w w0).status = Status.completed
    · unfold loadData
      simp only [hs]
      rw [show batchLoop env b (loadProgress w)
          (jsSlice (allDocuments.filter hasValidText) (loadProgress w))
          ((jsSlice (allDocuments.filter hasValidText) (loadProgress w)).length + 1) 0
          { world := w0, loaded := loadProgress w, qdrantId := loadProgress w + 1,
            errorCount := 0 } = loopOf env b allDocuments w w0 from rfl]
      simp only [hc]
      cases KnowledgeSource.countDocuments env (loopOf env b allDocuments w w0).state.world <;>
        simp [hc]
    · rw [(h7 hc).1]
      exact hloop

/-- The points a run upserts are an initial part of the points built from the
documents of the run that do not fail, with ids from the checkpoint plus one. -/
theorem loadData_upserted_prefix (env : Env) (b : Nat) (allDocuments : List Doc) (w : World) :
    upsertedPoints (loadData env b allDocuments w).logs <+:
      toPoints (pushedFrom env 0 (loadData env b allDocuments w).docs)
        ((loadData env b allDocuments w).resumeFrom + 1) := by
  obtain ⟨_, _, hr, hd, _⟩ := loadData_fields env b allDocuments w
  cases hs : setupStores env (loadProgress w) w with
  | none =>
    rw [(loadData_of_setup_none env b allDocuments w hs).1]
    simp [upsertedPoints]
  | some w0 =>
    rw [(loadData_of_setup_some env b allDocuments w w0 hs).1, hr, hd]
    have := upsertedPoints_prefix env b (loadProgress w)
      (jsSlice (allDocuments.filter hasValidText) (loadProgress w))
      ((jsSlice (allDocuments.filter hasValidText) (loadProgress w)).length + 1) 0
      { world := w0, loaded := loadProgress w, qdrantId := loadProgress w + 1, errorCount := 0 }
    simpa [loopOf] using this

/-! ## Properties of the loader -/

/-- C1 (amended): the n-th point a run upserts (counting from 0) has id
checkpoint + n + 1, where n is the number of documents of the run upserted
before it. The point is built from the n-th document of the run that does not
fail; if that is document k of the run (position checkpoint + k of the valid
sequence), then k is n plus the number of failed documents before it, so the id
is the 1-based position checkpoint + k + 1 exactly when no earlier document of
the run failed. -/
theorem upserted_id_counts_successes (env : Env) (batchSize : Nat) (allDocuments : List Doc)
    (w : World) (r : RunResult) (hr : r = loadData env batchSize allDocuments w)
    (n : Nat) (p : Point) (hp : (upsertedPoints r.logs)[n]? = some p) :
    p.id = r.resumeFrom + (n : Int) + 1 ∧
    ∃ (k : Nat) (d : Doc),
      (succeeding env 0 r.docs)[n]? = some (k, d) ∧
      r.docs[k]? = some d ∧
      (0 ≤ r.resumeFrom → r.validDocs[r.resumeFrom.toNat + k]? = some d) ∧
      p.vector = env.embed (textToEmbed (sanitizeDoc d)) ∧
      p.payload = { text := (sanitizeDoc d).english_text
                    source_type := (sanitizeDoc d).source_type
                    reference := (sanitizeDoc d).reference } ∧
      k = n + failuresFrom env 0 (r.docs.take k) ∧
      (p.id = r.resumeFrom + (k : Int) + 1 ↔ failuresFrom env 0 (r.docs.take k) = 0) := by
  subst hr
  have hpre := loadData_upserted_prefix env batchSize allDocuments w
  obtain ⟨e, he, hpe⟩ := toPoints_getElem? _ _ n p (prefix_getElem? hpre n p hp)
  simp only [pushedFrom, List.getElem?_map] at he
  cases hkd : (succeeding env 0 (loadData env batchSize allDocuments w).docs)[n]? with
  | none => simp [hkd] at he
  | some kd =>
    obtain ⟨k, d⟩ := kd
    simp only [hkd, Option.map_some', Option.some.injEq] at he
    obtain ⟨h1, _, _, h4⟩ := succeeding_getElem env _ 0 n k d hkd
    simp only [Nat.sub_zero, Nat.zero_add] at h1 h4
    have hid : p.id = (loadData env batchSize allDocuments w).resumeFrom + (n : Int) + 1 := by
      rw [hpe]; simp only; omega
    refine ⟨hid, k, d, rfl, h1, ?_, ?_, ?_, h4, ?_⟩
    · intro h0
      obtain ⟨hv, _, hrf, hd, _⟩ := loadData_fields env batchSize allDocuments w
      rw [hd] at h1
      rw [hv, hrf]
      have hslice : jsSlice (allDocuments.filter hasValidText) (loadProgress w) =
          (allDocuments.filter hasValidText).drop (loadProgress w).toNat := by
        unfold jsSlice
        rw [hrf] at h0
        rw [if_neg (by omega)]
      rw [hslice, List.getElem?_drop] at h1
      exact h1
    · rw [hpe, ← he]; rfl
    · rw [hpe, ← he]; rfl
    · rw [hid]
      constructor
      · intro h; omega
      · intro h; omega

/-- C1 as stated fails: with a first document whose embedding call throws, the
second valid document (0-based position 1) is upserted with id 1, not 2. -/
theorem id_is_position_counterexample :
    ¬ (∀ (n : Nat) (p : Point) (k : Nat) (d : Doc),
        (upsertedPoints (loadData firstEmbedThrowsEnv 25 twoVerses blankWorld).logs)[n]? = some p →
        (succeeding firstEmbedThrowsEnv 0
          (loadData firstEmbedThrowsEnv 25 twoVerses blankWorld).docs)[n]? = some (k, d) →
        p.id = (loadData firstEmbedThrowsEnv 25 twoVerses blankWorld).resumeFrom + (k : Int) + 1) := by
  intro h
  have h1 := h 0 secondVersePoint 1 (verseDoc 2) (by decide) (by decide)
  revert h1
  decide

/-- C1 (amended), at a concrete run. -/
theorem upserted_id_counts_successes_witness :
    (upsertedPoints (loadData firstEmbedThrowsEnv 25 twoVerses blankWorld).logs)[0]? =
        some secondVersePoint ∧
      secondVersePoint.id =
        (loadData firstEmbedThrowsEnv 25 twoVerses blankWorld).resumeFrom + ((0 : Nat) : Int) + 1 :=
  ⟨by decide,
    (upserted_id_counts_successes firstEmbedThrowsEnv 25 twoVerses blankWorld _ rfl 0
      secondVersePoint (by decide)).1⟩

theorem failuresFrom_zero (env : Env) (ds : List Doc) (k : Nat)
    (h : ∀ j d, ds[j]? = some d → docSucceeds env (k + j) d = true) :
    failuresFrom env k ds = 0 := by
  induction ds generalizing k with
  | nil => rfl
  | cons d0 ds ih =>
    have h0 : docSucceeds env k d0 = true := by simpa using h 0 d0 (by simp)
    simp only [failuresFrom, if_pos h0]
    apply ih
    intro j d hj
    have := h (j + 1) d (by simpa using hj)
    rw [show k + 1 + j = k + (j + 1) by omega]
    exact this

theorem pushedFrom_all (env : Env) (ds : List Doc) (k : Nat)
    (h : ∀ j d, ds[j]? = some d → docSucceeds env (k + j) d = true) :
    pushedFrom env k ds = ds.map (entryOf env) := by
  unfold pushedFrom
  induction ds generalizing k with
  | nil => rfl
  | cons d0 ds ih =>
    have h0 : docSucceeds env k d0 = true := by simpa using h 0 d0 (by simp)
    simp only [succeeding, if_pos h0, List.map_cons]
    congr 1
    apply ih
    intro j d hj
    have := h (j + 1) d (by simpa using hj)
    rw [show k + 1 + j = k + (j + 1) by omega]
    exact this

theorem persistedFrom_all (env : Env) (ds : List Doc) (k : Nat)
    (h : ∀ j d, ds[j]? = some d → createSucceeds env (k + j) d = true) :
    persistedFrom env k ds = ds.map sanitizeDoc := by
  induction ds generalizing k with
  | nil => rfl
  | cons d0 ds ih =>
    have h0 : createSucceeds env k d0 = true := by simpa using h 0 d0 (by simp)
    simp only [persistedFrom, if_pos h0, List.map_cons]
    congr 1
    apply ih
    intro j d hj
    have := h (j + 1) d (by simpa using hj)
    rw [show k + 1 + j = k + (j + 1) by omega]
    exact this

theorem failures_add_pushed (env : Env) (ds : List Doc) (k : Nat) :
    failuresFrom env k ds + (pushedFrom env k ds).length = ds.length := by
  unfold pushedFrom
  rw [List.length_map]
  induction ds generalizing k with
  | nil => rfl
  | cons d0 ds ih =>
    simp only [failuresFrom, succeeding]
    split
    · simp only [List.length_cons]; have := ih (k + 1); omega
    · simp only [List.length_cons]; have := ih (k + 1); omega

theorem failuresFrom_one (env : Env) (ds : List Doc) (k0 : Nat) (hk0 : k0 < ds.length)
    (hthrow : env.embedThrows k0 = true)
    (hothers : ∀ k, k < ds.length → k ≠ k0 → env.embedThrows k = false)
    (hcreate : ∀ k d, ds[k]? = some d → createSucceeds env k d = true) :
    failuresFrom env 0 ds = 1 := by
  have hsplit : ds = ds.take k0 ++ ds[k0] :: ds.drop (k0 + 1) := by
    rw [← List.drop_eq_getElem_cons hk0, List.take_append_drop]
  have hlen : (ds.take k0).length = k0 := by simp; omega
  rw [hsplit, failuresFrom_append, hlen, Nat.zero_add]
  have h1 : failuresFrom env 0 (ds.take k0) = 0 := by
    apply failuresFrom_zero
    intro j d hj
    rw [List.getElem?_take] at hj
    split at hj
    · rename_i hlt
      have hjlen : j < ds.length := by omega
      simp only [Nat.zero_add, docSucceeds, hcreate j d hj, hothers j hjlen (by omega)]
      rfl
    · cases hj
  have h2 : failuresFrom env (k0 + 1) (ds.drop (k0 + 1)) = 0 := by
    apply failuresFrom_zero
    intro j d hj
    rw [List.getElem?_drop] at hj
    have hjlen : k0 + 1 + j < ds.length := by
      by_contra hc
      rw [List.getElem?_eq_none (by omega)] at hj
      cases hj
    simp only [docSucceeds, hcreate _ d hj, hothers _ hjlen (by omega)]
    rfl
  have h3 : docSucceeds env k0 ds[k0] = false := by
    simp [docSucceeds, hthrow]
  simp only [failuresFrom, h3, h1, h2]
  rfl

/-- Step 4 on a fresh start whose delete request succeeds. -/
theorem setupStores_fresh (env : Env) (w : World) (r : Int) (hr : ¬ r > 0)
    (hdel : env.deleteFault = false ∨ w.qdrant = none)
    (w0 : World) (h : setupStores env r w = some w0) :
    w0 = { mongo := [], qdrant := some [], progressFile := w.progressFile } := by
  unfold setupStores at h
  rw [if_neg hr] at h
  have hq : (deleteCollection env w).qdrant = none := by
    unfold deleteCollection
    rcases hdel with hd | hd
    · simp [hd]
    · split <;> simp [hd]
  have hp : (deleteCollection env w).progressFile = w.progressFile := by
    unfold deleteCollection
    split <;> rfl
  unfold createCollection collectionExists KnowledgeSource.deleteMany at h
  rw [hq] at h
  cases h1 : env.existsFault <;> cases h2 : env.createFault <;> cases h3 : env.deleteManyThrows <;>
    simp [h1, h2, h3] at h <;> rw [← h] <;> simp [hp]

theorem setupStores_fresh_some (env : Env) (w : World) (r : Int) (hr : ¬ r > 0)
    (hdel : env.deleteFault = false) (hcr : env.createFault = false)
    (hdm : env.deleteManyThrows = false) :
    setupStores env r w =
      some { mongo := [], qdrant := some [], progressFile := w.progressFile } := by
  unfold setupStores
  rw [if_neg hr]
  unfold deleteCollection createCollection collectionExists KnowledgeSource.deleteMany
  cases h1 : env.existsFault <;> simp [h1, hdel, hcr, hdm]

theorem jsSlice_zero {α : Type} (xs : List α) : jsSlice xs 0 = xs := by
  simp [jsSlice]

/-- A fresh run none of whose store-level calls fails: the result in terms of
the outcomes of the valid documents. -/
theorem fresh_run (env : Env) (b : Nat) (allDocuments : List Doc) (w : World) (hb : 0 < b)
    (hfresh : loadProgress w = 0) (hup : ∀ n, env.upsertThrows n = false)
    (hdel : env.deleteFault = false) (hcr : env.createFault = false)
    (hdm : env.deleteManyThrows = false) (hcount : env.countThrows = false) :
    (loadData env b allDocuments w).status = Status.completed ∧
    (loadData env b allDocuments w).world.mongo =
      persistedFrom env 0 (allDocuments.filter hasValidText) ∧
    (loadData env b allDocuments w).world.qdrant =
      some (toPoints (pushedFrom env 0 (allDocuments.filter hasValidText)) 1) ∧
    upsertedPoints (loadData env b allDocuments w).logs =
      toPoints (pushedFrom env 0 (allDocuments.filter hasValidText)) 1 ∧
    (loadData env b allDocuments w).errorCount =
      failuresFrom env 0 (allDocuments.filter hasValidText) ∧
    (loadData env b allDocuments w).mongoCount =
      some (persistedFrom env 0 (allDocuments.filter hasValidText)).length ∧
    (loadData env b allDocuments w).logs.length =
      ((allDocuments.filter hasValidText).length + b - 1) / b ∧
    checkpointsWritten (loadData env b allDocuments w).logs =
      (List.range (((allDocuments.filter hasValidText).length + b - 1) / b)).map
        (fun j => ((min ((j + 1) * b) (allDocuments.filter hasValidText).length : Nat) : Int)) ∧
    (loadData env b allDocuments w).logs.map (fun l => l.batch.length) =
      (List.range (((allDocuments.filter hasValidText).length + b - 1) / b)).map
        (fun j => min b ((allDocuments.filter hasValidText).length - j * b)) := by
  have hs := setupStores_fresh_some env w (loadProgress w) (by omega) hdel hcr hdm
  obtain ⟨g1, g2, g3, g4, g5, g6, _⟩ := loadData_of_setup_some env b allDocuments w _ hs
  have hloop : loopOf env b allDocuments w
      { mongo := [], qdrant := some [], progressFile := w.progressFile } =
      batchLoop env b 0 (allDocuments.filter hasValidText)
        ((allDocuments.filter hasValidText).length + 1) 0
        { world := { mongo := [], qdrant := some [], progressFile := w.progressFile },
          loaded := 0, qdrantId := 1, errorCount := 0 } := by
    simp only [loopOf, hfresh, jsSlice_zero]
    rfl
  rw [hloop] at g1 g2 g3 g4 g5 g6
  obtain ⟨c1, c2, c3, c4, c5, c6⟩ := batchLoop_complete env b 0 (allDocuments.filter hasValidText)
    hb hup ((allDocuments.filter hasValidText).length + 1) 0
    { world := { mongo := [], qdrant := some [], progressFile := w.progressFile },
      loaded := 0, qdrantId := 1, errorCount := 0 } [] (by omega) rfl
  obtain ⟨e1, e2, e3⟩ := completed_shape env b 0 (allDocuments.filter hasValidText) hb
    ((allDocuments.filter hasValidText).length + 1) 0 _ c1
  obtain ⟨f1, f2, _⟩ := g6 c1 hcount
  simp only [List.drop_zero, List.nil_append, Nat.zero_add, Nat.sub_zero] at c2 c3 c4 c5 c6 e1 e2 e3
  rw [upsertPoints_new _ [] 1 (by simp)] at c3
  refine ⟨f1, by rw [g4, c2], by rw [g5, c3]; rfl, by rw [g1, c4], by rw [g3, c6],
    by rw [f2, c2], by rw [g1, e1], ?_, ?_⟩
  · rw [g1, e2]
    apply List.map_congr_left
    intro j _
    simp
  · rw [g1, e3]

theorem enum_of_getElem? {α : Type} (l : List α) (k : Nat) (d : α) (h : l[k]? = some d) :
    (k, d) ∈ l.enum := by
  have := (List.mk_add_mem_enumFrom_iff_getElem? (n := 0) (i := k) (x := d) (l := l)).2 h
  simpa [List.enum] using this

theorem toPoints_ids (es : List Entry) (q : Int) :
    (toPoints es q).map (fun p => p.id) = (List.range es.length).map (fun (i : Nat) => q + (i : Int)) := by
  induction es generalizing q with
  | nil => simp [toPoints]
  | cons e es ih =>
    rw [toPoints_cons, List.length_cons, List.range_succ_eq_map]
    simp only [List.map_cons, List.map_map, Nat.cast_zero, Int.add_zero, List.cons.injEq,
      true_and]
    rw [ih (q + 1)]
    apply List.map_congr_left
    intro i _
    simp only [Function.comp, Nat.cast_succ]
    omega

/-- C2 (amended): on a fresh start over N valid documents in which exactly one
embedding call throws and nothing else fails, the run completes with N
documents in the document store (the failing document was persisted before its
embedding was asked for), N - 1 points in the vector index and an error counter
of 1. -/
theorem one_embedding_failure_counts (env : Env) (batchSize : Nat) (allDocuments : List Doc)
    (w : World) (k0 : Nat) (hb : 0 < batchSize) (hfresh : loadProgress w = 0)
    (hk0 : k0 < (allDocuments.filter hasValidText).length)
    (hthrow : env.embedThrows k0 = true)
    (hothers : ∀ k, k < (allDocuments.filter hasValidText).length → k ≠ k0 →
      env.embedThrows k = false)
    (hcreate : ∀ kd ∈ (allDocuments.filter hasValidText).enum,
      createSucceeds env kd.1 kd.2 = true)
    (hup : ∀ n, env.upsertThrows n = false) (hdel : env.deleteFault = false)
    (hcr : env.createFault = false) (hdm : env.deleteManyThrows = false)
    (hcount : env.countThrows = false) :
    (loadData env batchSize allDocuments w).status = Status.completed ∧
    (loadData env batchSize allDocuments w).mongoCount =
      some (allDocuments.filter hasValidText).length ∧
    (loadData env batchSize allDocuments w).world.mongo.length =
      (allDocuments.filter hasValidText).length ∧
    (loadData env batchSize allDocuments w).world.qdrant.map List.length =
      some ((allDocuments.filter hasValidText).length - 1) ∧
    (loadData env batchSize allDocuments w).errorCount = 1 := by
  obtain ⟨h1, h2, h3, _, h5, h6, _⟩ :=
    fresh_run env batchSize allDocuments w hb hfresh hup hdel hcr hdm hcount
  have hc : ∀ k d, (allDocuments.filter hasValidText)[k]? = some d →
      createSucceeds env k d = true :=
    fun k d h => hcreate (k, d) (enum_of_getElem? _ k d h)
  have hp := persistedFrom_all env (allDocuments.filter hasValidText) 0
    (fun j d h => by simpa using hc j d h)
  have hf := failuresFrom_one env (allDocuments.filter hasValidText) k0 hk0 hthrow hothers hc
  have hsum := failures_add_pushed env (allDocuments.filter hasValidText) 0
  refine ⟨h1, ?_, ?_, ?_, ?_⟩
  · rw [h6, hp, List.length_map]
  · rw [h2, hp, List.length_map]
  · rw [h3]
    simp only [Option.map_some', toPoints_length, Option.some.injEq]
    omega
  · rw [h5, hf]

/-- C2 as stated fails: with two valid documents and an embedding call that
throws on the first, the document store ends with 2 documents, not 1. -/
theorem store_count_counterexample :
    (twoVerses.filter hasValidText).length = 2 ∧
    (loadData firstEmbedThrowsEnv 25 twoVerses blankWorld).status = Status.completed ∧
    (loadData firstEmbedThrowsEnv 25 twoVerses blankWorld).errorCount = 1 ∧
    (loadData firstEmbedThrowsEnv 25 twoVerses blankWorld).mongoCount = some 2 ∧
    (loadData firstEmbedThrowsEnv 25 twoVerses blankWorld).world.mongo.length ≠ 2 - 1 := by
  decide

/-- C2 (amended), at a concrete run. -/
theorem one_embedding_failure_counts_witness :
    (loadData firstEmbedThrowsEnv 25 twoVerses blankWorld).status = Status.completed ∧
    (loadData firstEmbedThrowsEnv 25 twoVerses blankWorld).mongoCount =
      some (twoVerses.filter hasValidText).length ∧
    (loadData firstEmbedThrowsEnv 25 twoVerses blankWorld).world.mongo.length =
      (twoVerses.filter hasValidText).length ∧
    (loadData firstEmbedThrowsEnv 25 twoVerses blankWorld).world.qdrant.map List.length =
      some ((twoVerses.filter hasValidText).length - 1) ∧
    (loadData firstEmbedThrowsEnv 25 twoVerses blankWorld).errorCount = 1 :=
  one_embedding_failure_counts firstEmbedThrowsEnv 25 twoVerses blankWorld 0 (by decide) rfl
    (by decide) rfl
    (by
      intro k _ hk
      cases k with
      | zero => exact absurd rfl hk
      | succ k => rfl)
    (by decide) (fun _ => rfl) rfl rfl rfl rfl

/-- C3 (amended): on a fresh start that reaches the batch loop, the loop finds
the document store empty, and it finds the vector index empty when the request
deleting the collection succeeded or the collection did not exist; whatever
both stores held before. -/
theorem fresh_start_empties_stores (env : Env) (batchSize : Nat) (allDocuments : List Doc)
    (w w0 : World) (hfresh : loadProgress w = 0)
    (hloop : (loadData env batchSize allDocuments w).atLoop = some w0) :
    w0.mongo = [] ∧ ((env.deleteFault = false ∨ w.qdrant = none) → w0.qdrant = some []) := by
  rw [(loadData_fields env batchSize allDocuments w).2.2.2.2] at hloop
  refine ⟨?_, ?_⟩
  · unfold setupStores at hloop
    rw [if_neg (by omega)] at hloop
    cases hc : createCollection env (deleteCollection env w) with
    | none => simp [hc] at hloop
    | some w1 =>
      simp only [hc, KnowledgeSource.deleteMany] at hloop
      split at hloop
      · cases hloop
      · simp only [Option.some.injEq] at hloop
        rw [← hloop]
  · intro hdel
    have := setupStores_fresh env w (loadProgress w) (by omega) hdel w0 hloop
    rw [this]

/-- C3 as stated fails: when the request deleting the collection fails, the
error is swallowed, the collection is found to exist, creation is skipped, and
the batch loop of the fresh start is entered with the old point still in the
vector index. -/
theorem fresh_start_counterexample :
    loadProgress staleWorld = 0 ∧
    (loadData deleteFaultEnv 25 twoVerses staleWorld).atLoop =
      some { mongo := [], qdrant := some [stalePoint], progressFile := none } ∧
    ¬ (∀ w0, (loadData deleteFaultEnv 25 twoVerses staleWorld).atLoop = some w0 →
        w0.mongo = [] ∧ w0.qdrant = some []) := by
  refine ⟨by decide, by decide, ?_⟩
  intro h
  have h1 := h { mongo := [], qdrant := some [stalePoint], progressFile := none } (by decide)
  revert h1
  decide

/-- C3 (amended), at a concrete run over stores that were not empty. -/
theorem fresh_start_empties_stores_witness :
    loadProgress staleWorld = 0 ∧
    (loadData quietEnv 25 twoVerses staleWorld).atLoop =
      some { mongo := [], qdrant := some [], progressFile := none } ∧
    ({ mongo := [], qdrant := some [], progressFile := none } : World).mongo = [] ∧
    ({ mongo := [], qdrant := some [], progressFile := none } : World).qdrant = some [] :=
  ⟨by decide, by decide,
    (fresh_start_empties_stores quietEnv 25 twoVerses staleWorld
      { mongo := [], qdrant := some [], progressFile := none } (by decide) (by decide)).1,
    (fresh_start_empties_stores quietEnv 25 twoVerses staleWorld
      { mongo := [], qdrant := some [], progressFile := none } (by decide) (by decide)).2
      (Or.inl rfl)⟩

theorem callsFrom_created (env : Env) (ds : List Doc) (k : Nat) :
    (callsFrom env k ds).map (fun c => c.created) = ds.map sanitizeDoc := by
  induction ds generalizing k with
  | nil => rfl
  | cons d ds ih => simp [callsFrom, callOf, ih]

theorem callsFrom_embedded (env : Env) (ds : List Doc) (k : Nat) :
    ((callsFrom env k ds).filterMap (fun c => c.embedded)).Sublist
      (ds.map (fun d => textToEmbed (sanitizeDoc d))) := by
  induction ds generalizing k with
  | nil => simp [callsFrom]
  | cons d ds ih =>
    simp only [callsFrom, List.map_cons]
    by_cases hc : createSucceeds env k d = true
    · rw [List.filterMap_cons_some (by simp [callOf, hc]; rfl)]
      exact (ih (k + 1)).cons₂ _
    · rw [List.filterMap_cons_none (by simp [callOf, hc])]
      exact (ih (k + 1)).cons _

/-- The calls of a run are an initial part of the calls for its documents. -/
theorem loadData_calls_prefix (env : Env) (b : Nat) (allDocuments : List Doc) (w : World) :
    (loadData env b allDocuments w).logs.flatMap (fun l => l.calls) <+:
      callsFrom env 0 (jsSlice (allDocuments.filter hasValidText) (loadProgress w)) := by
  cases hs : setupStores env (loadProgress w) w with
  | none =>
    rw [(loadData_of_setup_none env b allDocuments w hs).1]
    simp
  | some w0 =>
    rw [(loadData_of_setup_some env b allDocuments w w0 hs).1]
    have := allCalls_prefix env b (loadProgress w)
      (jsSlice (allDocuments.filter hasValidText) (loadProgress w))
      ((jsSlice (allDocuments.filter hasValidText) (loadProgress w)).length + 1) 0
      { world := w0, loaded := loadProgress w, qdrantId := loadProgress w + 1, errorCount := 0 }
    simpa [loopOf] using this

theorem jsSlice_pos {α : Type} (xs : List α) (k : Int) (hk : 0 ≤ k) :
    jsSlice xs k = xs.drop k.toNat := by
  unfold jsSlice
  rw [if_neg (by omega)]

/-- C5: a run resumed from checkpoint k > 0 enters the batch loop with both
stores as it found them (no reset), and its calls to the document store's
create and to the embedding generator are made, in order, for valid documents
at positions k, k + 1, ... only: the j-th document it attempts is the valid
document at position k + j. -/
theorem resume_skips_committed (env : Env) (batchSize : Nat) (allDocuments : List Doc)
    (w : World) (hk : 0 < loadProgress w) :
    (loadData env batchSize allDocuments w).atLoop = some w ∧
    (∀ j d, (attemptedDocs (loadData env batchSize allDocuments w).logs)[j]? = some d →
      (allDocuments.filter hasValidText)[(loadProgress w).toNat + j]? = some d) ∧
    createCalls (loadData env batchSize allDocuments w).logs <+:
      ((allDocuments.filter hasValidText).drop (loadProgress w).toNat).map sanitizeDoc ∧
    (embedCalls (loadData env batchSize allDocuments w).logs).Sublist
      (((allDocuments.filter hasValidText).drop (loadProgress w).toNat).map
        (fun d => textToEmbed (sanitizeDoc d))) := by
  have hpre := loadData_calls_prefix env batchSize allDocuments w
  rw [jsSlice_pos _ _ (by omega)] at hpre
  refine ⟨?_, ?_, ?_, ?_⟩
  · rw [(loadData_fields env batchSize allDocuments w).2.2.2.2]
    unfold setupStores
    rw [if_pos hk]
  · intro j d hj
    have h1 : attemptedDocs (loadData env batchSize allDocuments w).logs <+:
        (allDocuments.filter hasValidText).drop (loadProgress w).toNat := by
      have := hpre.map (fun c => c.rawDoc)
      rwa [callsFrom_rawDoc, List.map_flatMap] at this
    have := prefix_getElem? h1 j d hj
    rwa [List.getElem?_drop] at this
  · have := hpre.map (fun c => c.created)
    rwa [callsFrom_created, List.map_flatMap] at this
  · have := (hpre.filterMap (fun c => c.embedded)).sublist
    rw [List.filterMap_flatMap] at this
    exact this.trans (callsFrom_embedded env _ 0)

/-- C5, at a run resumed from checkpoint 1 over two valid documents. -/
theorem resume_skips_committed_witness :
    (loadData quietEnv 25 twoVerses resumedWorld).atLoop = some resumedWorld ∧
    createCalls (loadData quietEnv 25 twoVerses resumedWorld).logs =
      [sanitizeDoc (verseDoc 2)] ∧
    embedCalls (loadData quietEnv 25 twoVerses resumedWorld).logs =
      [js "In the name of Allah, verse " ++ [50]] ∧
    createCalls (loadData quietEnv 25 twoVerses resumedWorld).logs <+:
      ((twoVerses.filter hasValidText).drop (loadProgress resumedWorld).toNat).map sanitizeDoc :=
  ⟨(resume_skips_committed quietEnv 25 twoVerses resumedWorld (by decide)).1, by decide,
    by decide, (resume_skips_committed quietEnv 25 twoVerses resumedWorld (by decide)).2.2.1⟩

theorem upsertedPoints_append (a b : List BatchLog) :
    upsertedPoints (a ++ b) = upsertedPoints a ++ upsertedPoints b := by
  simp [upsertedPoints, List.flatMap_append]

theorem toPoints_ids_nodup (es : List Entry) (q : Int) :
    ((toPoints es q).map (fun p => p.id)).Nodup := by
  rw [toPoints_ids]
  apply List.Nodup.map _ (List.nodup_range _)
  intro a c h
  simp only at h
  omega

/-- The ids a run upserts are pairwise distinct and above its checkpoint. -/
theorem loadData_ids (env : Env) (b : Nat) (allDocuments : List Doc) (w : World) :
    ((upsertedPoints (loadData env b allDocuments w).logs).map (fun p => p.id)).Nodup ∧
    ∀ p ∈ upsertedPoints (loadData env b allDocuments w).logs, loadProgress w + 1 ≤ p.id := by
  have hpre := loadData_upserted_prefix env b allDocuments w
  rw [(loadData_fields env b allDocuments w).2.2.1] at hpre
  refine ⟨(toPoints_ids_nodup _ _).sublist (hpre.map _).sublist, ?_⟩
  intro p hp
  exact (toPoints_id_bounds _ _ p (hpre.subset hp)).1

/-- C6: when a run has written checkpoint k > 0 after one of its batches and
is stopped there, a rerun on the same corpus that finds this checkpoint resumes
at valid position k (the (k+1)-th valid document) and every id it upserts is
strictly greater than every id upserted up to the stop; the ids of the two runs
together are pairwise distinct. Failures of documents in either run do not
matter, nor does the checkpoint the first run started from. -/
theorem rerun_ids_above (env1 env2 : Env) (batchSize : Nat) (allDocuments : List Doc)
    (w1 w2 : World) (k : Int) (pre post : List BatchLog) (l : BatchLog) (hk : 0 < k)
    (hlogs : (loadData env1 batchSize allDocuments w1).logs = pre ++ l :: post)
    (hsaved : l.saved = some k)
    (hfile : w2.progressFile = some (ProgressContent.object (some k))) :
    (loadData env2 batchSize allDocuments w2).resumeFrom = k ∧
    (loadData env2 batchSize allDocuments w2).docs =
      (allDocuments.filter hasValidText).drop k.toNat ∧
    attemptedDocs (loadData env2 batchSize allDocuments w2).logs <+:
      (allDocuments.filter hasValidText).drop k.toNat ∧
    (∀ p ∈ upsertedPoints (pre ++ [l]),
      ∀ p2 ∈ upsertedPoints (loadData env2 batchSize allDocuments w2).logs, p.id < p2.id) ∧
    ((upsertedPoints (pre ++ [l]) ++
      upsertedPoints (loadData env2 batchSize allDocuments w2).logs).map (fun p => p.id)).Nodup := by
  have hload : loadProgress w2 = k := by
    unfold loadProgress
    rw [hfile]
    simp only
    rw [if_neg (by omega)]
  obtain ⟨_, _, f3, f4, _⟩ := loadData_fields env2 batchSize allDocuments w2
  have hle : ∀ p ∈ upsertedPoints (pre ++ [l]), p.id ≤ k := by
    cases hs : setupStores env1 (loadProgress w1) w1 with
    | none =>
      rw [(loadData_of_setup_none env1 batchSize allDocuments w1 hs).1] at hlogs
      simp at hlogs
    | some w0 =>
      rw [(loadData_of_setup_some env1 batchSize allDocuments w1 w0 hs).1] at hlogs
      have := ids_le_checkpoint env1 batchSize (loadProgress w1)
        (jsSlice (allDocuments.filter hasValidText) (loadProgress w1))
        ((jsSlice (allDocuments.filter hasValidText) (loadProgress w1)).length + 1) 0
        { world := w0, loaded := loadProgress w1, qdrantId := loadProgress w1 + 1,
          errorCount := 0 } pre post l k (by simp) hlogs hsaved
      intro p hp
      exact (this.2 p hp).2
  obtain ⟨hnd2, hge⟩ := loadData_ids env2 batchSize allDocuments w2
  rw [hload] at hge
  have hlt : ∀ p ∈ upsertedPoints (pre ++ [l]),
      ∀ p2 ∈ upsertedPoints (loadData env2 batchSize allDocuments w2).logs, p.id < p2.id := by
    intro p hp p2 hp2
    have := hle p hp
    have := hge p2 hp2
    omega
  have hnd1 : ((upsertedPoints (pre ++ [l])).map (fun p => p.id)).Nodup := by
    have h1 := (loadData_ids env1 batchSize allDocuments w1).1
    rw [hlogs, show pre ++ l :: post = (pre ++ [l]) ++ post by simp, upsertedPoints_append,
      List.map_append] at h1
    exact (List.nodup_append.1 h1).1
  refine ⟨by rw [f3, hload], by rw [f4, hload, jsSlice_pos _ _ (by omega)], ?_, hlt, ?_⟩
  · have hpre := loadData_calls_prefix env2 batchSize allDocuments w2
    rw [hload, jsSlice_pos _ _ (by omega)] at hpre
    have := hpre.map (fun c => c.rawDoc)
    rwa [callsFrom_rawDoc, List.map_flatMap] at this
  · rw [List.map_append, List.nodup_append]
    refine ⟨hnd1, hnd2, ?_⟩
    intro a ha1 ha2
    obtain ⟨p, hp, rfl⟩ := List.mem_map.1 ha1
    obtain ⟨p2, hp2, he⟩ := List.mem_map.1 ha2
    have := hlt p hp p2 hp2
    omega

/-- C6, at a run with batch size 1 over two valid documents, stopped after
its first batch (checkpoint 1) and rerun from that checkpoint. -/
theorem rerun_ids_above_witness :
    (upsertedPoints ([] ++ [batchLogAt quietEnv 1 0 twoVerses 0 1 true])).map (fun p => p.id) =
      [1] ∧
    (upsertedPoints (loadData quietEnv 1 twoVerses resumedWorld).logs).map (fun p => p.id) =
      [2] ∧
    (loadData quietEnv 1 twoVerses resumedWorld).resumeFrom = 1 ∧
    ((upsertedPoints ([] ++ [batchLogAt quietEnv 1 0 twoVerses 0 1 true]) ++
      upsertedPoints (loadData quietEnv 1 twoVerses resumedWorld).logs).map
        (fun p => p.id)).Nodup :=
  ⟨by decide, by decide,
    (rerun_ids_above quietEnv quietEnv 1 twoVerses blankWorld resumedWorld 1 []
      [batchLogAt quietEnv 1 0 twoVerses 1 2 true] (batchLogAt quietEnv 1 0 twoVerses 0 1 true)
      (by decide) (by decide) (by decide) rfl).1,
    (rerun_ids_above quietEnv quietEnv 1 twoVerses blankWorld resumedWorld 1 []
      [batchLogAt quietEnv 1 0 twoVerses 1 2 true] (batchLogAt quietEnv 1 0 twoVerses 0 1 true)
      (by decide) (by decide) (by decide) rfl).2.2.2.2⟩

theorem hasValidText_eq (d : Doc) :
    hasValidText d = decide (5 < (jsTrim (filterText d)).length) := by
  unfold hasValidText filterText jsOrLit jsOr truthy
  rcases d with ⟨st, rf, ar, en, cx, tg⟩
  rcases en with _ | _ | ⟨c, cs⟩ <;> rcases ar with _ | _ | ⟨a, as⟩ <;> simp

/-- C7 (amended): `hasValidText` returns true if and only if the text made of
`english_text` if non-empty, else `arabic_text`, else the empty string has more
than 5 characters after trimming; the reference is not consulted. -/
theorem hasValidText_iff_filterText (d : Doc) :
    hasValidText d = true ↔ 5 < (jsTrim (filterText d)).length := by
  rcases d with ⟨st, rf, ar, en, cx, tg⟩
  rcases en with _ | _ | ⟨c, cs⟩
  · rcases ar with _ | _ | ⟨a, as⟩ <;>
      simp [hasValidText, filterText, jsOrLit, jsOr, truthy]
  · rcases ar with _ | _ | ⟨a, as⟩ <;>
      simp [hasValidText, filterText, jsOrLit, jsOr, truthy]
  · simp [hasValidText, filterText, jsOrLit, jsOr, truthy]

/-- C7 as stated fails: a record with a reference of 15 characters and no
text is rejected by `hasValidText`, although its chosen embedding text (the
reference, which is also the text the loader would embed) has more than 5
characters after trimming. -/
theorem hasValidText_counterexample :
    hasValidText referenceOnlyDoc = false ∧
    5 < (jsTrim (chosenEmbeddingText referenceOnlyDoc)).length ∧
    5 < (jsTrim (textToEmbed (sanitizeDoc referenceOnlyDoc))).length ∧
    ¬ (hasValidText referenceOnlyDoc = true ↔
        5 < (jsTrim (chosenEmbeddingText referenceOnlyDoc)).length) := by
  decide

theorem mem_callsFrom (env : Env) (ds : List Doc) (k : Nat) (c : DocLog)
    (h : c ∈ callsFrom env k ds) : ∃ j d, d ∈ ds ∧ c = callOf env j d := by
  induction ds generalizing k with
  | nil => simp [callsFrom] at h
  | cons d0 ds ih =>
    simp only [callsFrom, List.mem_cons] at h
    rcases h with h | h
    · exact ⟨k, d0, by simp, h⟩
    · obtain ⟨j, d, hd, hc⟩ := ih (k + 1) h
      exact ⟨j, d, by simp [hd], hc⟩

/-- Every record of a run is the record of an iteration over its documents. -/
theorem loadData_log_shape (env : Env) (b : Nat) (allDocuments : List Doc) (w : World)
    (l : BatchLog) (hl : l ∈ (loadData env b allDocuments w).logs) :
    ∃ (i : Nat) (q : Int) (ok : Bool),
      i < (jsSlice (allDocuments.filter hasValidText) (loadProgress w)).length ∧
      l = batchLogAt env b (loadProgress w)
        (jsSlice (allDocuments.filter hasValidText) (loadProgress w)) i q ok := by
  cases hs : setupStores env (loadProgress w) w with
  | none =>
    rw [(loadData_of_setup_none env b allDocuments w hs).1] at hl
    simp at hl
  | some w0 =>
    rw [(loadData_of_setup_some env b allDocuments w w0 hs).1] at hl
    obtain ⟨i, q, ok, _, h2, h3⟩ := log_shape env b (loadProgress w)
      (jsSlice (allDocuments.filter hasValidText) (loadProgress w)) _ 0 _ l hl
    exact ⟨i, q, ok, h2, h3⟩

theorem jsSlice_subset {α : Type} (xs : List α) (k : Int) (a : α) (h : a ∈ jsSlice xs k) :
    a ∈ xs := by
  obtain ⟨m, hm, _⟩ := jsSlice_eq_drop xs k
  rw [hm] at h
  exact List.mem_of_mem_drop h

/-- The counter `loaded` of a run. -/
theorem loadData_loaded (env : Env) (b : Nat) (allDocuments : List Doc) (w : World) :
    (loadData env b allDocuments w).loaded =
      loadProgress w + (((((loadData env b allDocuments w).logs.filter
        (fun l => l.saved.isSome)).flatMap (fun l => l.batch)).length : Nat) : Int) := by
  cases hs : setupStores env (loadProgress w) w with
  | none =>
    obtain ⟨h1, _, _, _, h5⟩ := loadData_of_setup_none env b allDocuments w hs
    rw [h1, h5]
    simp
  | some w0 =>
    obtain ⟨h1, h2, _⟩ := loadData_of_setup_some env b allDocuments w w0 hs
    rw [h1, h2]
    exact loaded_loop env b (loadProgress w)
      (jsSlice (allDocuments.filter hasValidText) (loadProgress w)) _ 0 _

/-- C8: `hasValidText` depends only on `english_text` and `arabic_text`; a
document whose text (`english_text` if non-empty, else `arabic_text`, else the
empty string) has trimmed length at most 5 is not among the valid documents, is
in no batch and in no call of the run; every call to the document store and to
the embedding generator is made for a valid batch document; `loaded` is the
checkpoint plus the number of documents of the completed batches; and the
number of skipped documents plus the number of valid ones is the corpus size. -/
theorem invalid_documents_excluded (env : Env) (batchSize : Nat) (allDocuments : List Doc)
    (w : World) :
    (∀ d1 d2 : Doc, d1.english_text = d2.english_text → d1.arabic_text = d2.arabic_text →
      hasValidText d1 = hasValidText d2) ∧
    (loadData env batchSize allDocuments w).validDocs = allDocuments.filter hasValidText ∧
    (∀ d : Doc, (jsTrim (filterText d)).length ≤ 5 →
      d ∉ (loadData env batchSize allDocuments w).validDocs ∧
      d ∉ (loadData env batchSize allDocuments w).docs ∧
      (∀ l ∈ (loadData env batchSize allDocuments w).logs, d ∉ l.batch) ∧
      d ∉ attemptedDocs (loadData env batchSize allDocuments w).logs) ∧
    (∀ l ∈ (loadData env batchSize allDocuments w).logs, ∀ c ∈ l.calls,
      c.rawDoc ∈ l.batch ∧ hasValidText c.rawDoc = true ∧ c.created = sanitizeDoc c.rawDoc ∧
      ∀ t, c.embedded = some t → t = textToEmbed (sanitizeDoc c.rawDoc)) ∧
    (loadData env batchSize allDocuments w).loaded =
      (loadData env batchSize allDocuments w).resumeFrom +
        (((((loadData env batchSize allDocuments w).logs.filter
          (fun l => l.saved.isSome)).flatMap (fun l => l.batch)).length : Nat) : Int) ∧
    (loadData env batchSize allDocuments w).skipped +
      (loadData env batchSize allDocuments w).validDocs.length = allDocuments.length := by
  obtain ⟨f1, f2, f3, f4, _⟩ := loadData_fields env batchSize allDocuments w
  have hbatch : ∀ l ∈ (loadData env batchSize allDocuments w).logs, ∀ d ∈ l.batch,
      hasValidText d = true := by
    intro l hl d hd
    obtain ⟨i, q, ok, _, hshape⟩ := loadData_log_shape env batchSize allDocuments w l hl
    rw [hshape] at hd
    simp only [batchLogAt] at hd
    have := jsSlice_subset _ _ d (List.mem_of_mem_drop (List.mem_of_mem_take hd))
    exact (List.mem_filter.1 this).2
  have hcalls : ∀ l ∈ (loadData env batchSize allDocuments w).logs, ∀ c ∈ l.calls,
      c.rawDoc ∈ l.batch ∧ c.created = sanitizeDoc c.rawDoc ∧
      ∀ t, c.embedded = some t → t = textToEmbed (sanitizeDoc c.rawDoc) := by
    intro l hl c hc
    obtain ⟨i, q, ok, _, hshape⟩ := loadData_log_shape env batchSize allDocuments w l hl
    rw [hshape] at hc ⊢
    simp only [batchLogAt] at hc ⊢
    obtain ⟨j, d, hd, hcd⟩ := mem_callsFrom env _ _ c hc
    rw [hcd]
    refine ⟨hd, rfl, ?_⟩
    intro t ht
    simp only [callOf] at ht
    split at ht
    · simp only [Option.some.injEq] at ht
      exact ht.symm
    · cases ht
  refine ⟨?_, f1, ?_, ?_, ?_, ?_⟩
  · intro d1 d2 he ha
    simp only [hasValidText, he, ha]
  · intro d hd
    have hinv : hasValidText d = false := by
      rw [hasValidText_eq]
      simp only [decide_eq_false_iff_not]
      omega
    have hnv : d ∉ allDocuments.filter hasValidText := by
      intro hmem
      rw [(List.mem_filter.1 hmem).2] at hinv
      cases hinv
    refine ⟨by rw [f1]; exact hnv, ?_, ?_, ?_⟩
    · rw [f4]
      exact fun hmem => hnv (jsSlice_subset _ _ d hmem)
    · intro l hl hmem
      rw [hbatch l hl d hmem] at hinv
      cases hinv
    · intro hmem
      simp only [attemptedDocs, List.mem_flatMap, List.mem_map] at hmem
      obtain ⟨l, hl, c, hc, hcd⟩ := hmem
      have h1 := (hcalls l hl c hc).1
      rw [hcd] at h1
      rw [hbatch l hl d h1] at hinv
      cases hinv
  · intro l hl c hc
    obtain ⟨h1, h2, h3⟩ := hcalls l hl c hc
    exact ⟨h1, hbatch l hl _ h1, h2, h3⟩
  · rw [f3]
    exact loadData_loaded env batchSize allDocuments w
  · rw [f1, f2]
    have := List.length_filter_le hasValidText allDocuments
    omega

/-- C8, at a corpus with a document whose trimmed text has 4 characters. -/
theorem invalid_documents_excluded_witness :
    (jsTrim (filterText shortDoc)).length ≤ 5 ∧
    shortDoc ∉ (loadData quietEnv 25 [verseDoc 1, shortDoc, verseDoc 2] blankWorld).validDocs ∧
    shortDoc ∉ attemptedDocs (loadData quietEnv 25 [verseDoc 1, shortDoc, verseDoc 2]
      blankWorld).logs ∧
    (loadData quietEnv 25 [verseDoc 1, shortDoc, verseDoc 2] blankWorld).skipped = 1 ∧
    (loadData quietEnv 25 [verseDoc 1, shortDoc, verseDoc 2] blankWorld).loaded = 2 :=
  ⟨by decide,
    ((invalid_documents_excluded quietEnv 25 [verseDoc 1, shortDoc, verseDoc 2]
      blankWorld).2.2.1 shortDoc (by decide)).1,
    ((invalid_documents_excluded quietEnv 25 [verseDoc 1, shortDoc, verseDoc 2]
      blankWorld).2.2.1 shortDoc (by decide)).2.2.2,
    by decide, by decide⟩

/-- The checkpoint values of a run form a chain that starts at the loaded
checkpoint. -/
theorem loadData_checkpoint_chain (env : Env) (b : Nat) (allDocuments : List Doc) (w : World)
    (j : Nat) (l : BatchLog) (v : Int)
    (hl : (loadData env b allDocuments w).logs[j]? = some l) (hv : l.saved = some v) :
    ∃ prev : Int,
      ((j = 0 ∧ prev = loadProgress w) ∨
        (∃ l', 0 < j ∧ (loadData env b allDocuments w).logs[j - 1]? = some l' ∧
          l'.saved = some prev)) ∧
      v = prev + (l.calls.length : Int) := by
  cases hs : setupStores env (loadProgress w) w with
  | none =>
    rw [(loadData_of_setup_none env b allDocuments w hs).1] at hl
    simp at hl
  | some w0 =>
    rw [(loadData_of_setup_some env b allDocuments w w0 hs).1] at hl ⊢
    exact checkpoint_chain env b (loadProgress w)
      (jsSlice (allDocuments.filter hasValidText) (loadProgress w)) _ 0 _ (loadProgress w)
      (fun _ => by simp) j l v hl hv

theorem failuresFrom_eq_failed_calls (env : Env) (ds : List Doc) (k : Nat) :
    failuresFrom env k ds = ((callsFrom env k ds).filter (fun c => !c.embedOk)).length := by
  induction ds generalizing k with
  | nil => rfl
  | cons d ds ih =>
    simp only [failuresFrom, callsFrom]
    by_cases hs : docSucceeds env k d = true
    · rw [if_pos hs, List.filter_cons_of_neg (by simp [callOf, hs])]
      exact ih (k + 1)
    · rw [if_neg hs, List.filter_cons_of_pos (by simpa [callOf] using hs), List.length_cons,
        ih (k + 1)]

theorem pushedFrom_eq_passed_calls (env : Env) (ds : List Doc) (k : Nat) :
    pushedFrom env k ds =
      ((callsFrom env k ds).filter (fun c => c.embedOk)).map (fun c => entryOf env c.rawDoc) := by
  unfold pushedFrom
  induction ds generalizing k with
  | nil => rfl
  | cons d ds ih =>
    simp only [succeeding, callsFrom]
    by_cases hs : docSucceeds env k d = true
    · rw [if_pos hs, List.filter_cons_of_pos (by simpa [callOf] using hs), List.map_cons,
        List.map_cons, ih (k + 1)]
      rfl
    · rw [if_neg hs, List.filter_cons_of_neg (by simpa [callOf] using hs)]
      exact ih (k + 1)

/-- The error counter of a run. -/
theorem loadData_errorCount (env : Env) (b : Nat) (allDocuments : List Doc) (w : World) :
    (loadData env b allDocuments w).errorCount =
      ((loadData env b allDocuments w).logs.map (fun l => l.batchErrors)).sum := by
  cases hs : setupStores env (loadProgress w) w with
  | none =>
    obtain ⟨h1, _, _, h4, _⟩ := loadData_of_setup_none env b allDocuments w hs
    rw [h1, h4]
    rfl
  | some w0 =>
    obtain ⟨h1, _, h3, _⟩ := loadData_of_setup_some env b allDocuments w w0 hs
    rw [h1, h3]
    have := errorCount_loop env b (loadProgress w)
      (jsSlice (allDocuments.filter hasValidText) (loadProgress w))
      ((jsSlice (allDocuments.filter hasValidText) (loadProgress w)).length + 1) 0
      { world := w0, loaded := loadProgress w, qdrantId := loadProgress w + 1, errorCount := 0 }
    simpa [loopOf] using this

/-- A run whose points requests cannot fail attempts all its documents. -/
theorem loadData_attempts_all (env : Env) (b : Nat) (allDocuments : List Doc) (w w0 : World)
    (store : List Point) (hb : 0 < b) (hup : ∀ n, env.upsertThrows n = false)
    (hloop : setupStores env (loadProgress w) w = some w0) (hq : w0.qdrant = some store) :
    (loadData env b allDocuments w).logs.flatMap (fun l => l.calls) =
      callsFrom env 0 (jsSlice (allDocuments.filter hasValidText) (loadProgress w)) ∧
    (loopOf env b allDocuments w w0).status = Status.completed := by
  obtain ⟨h1, _⟩ := loadData_of_setup_some env b allDocuments w w0 hloop
  obtain ⟨c1, _, _, _, c5, _⟩ := batchLoop_complete env b (loadProgress w)
    (jsSlice (allDocuments.filter hasValidText) (loadProgress w)) hb hup
    ((jsSlice (allDocuments.filter hasValidText) (loadProgress w)).length + 1) 0
    { world := w0, loaded := loadProgress w, qdrantId := loadProgress w + 1, errorCount := 0 }
    store (by omega) hq
  rw [h1]
  exact ⟨by simpa [loopOf] using c5, c1⟩

/-- The call `insertDocuments` leaves the checkpoint file as it is. -/
theorem insertDocuments_progressFile (env : Env) (n : Nat) (es : List Entry) (q : Int)
    (w w2 : World) (h : insertDocuments env n es q w = some w2) :
    w2.progressFile = w.progressFile := by
  unfold insertDocuments at h
  split at h
  · simp only [Option.some.injEq] at h; rw [← h]
  · split at h
    · cases h
    · split at h
      · cases h
      · simp only [Option.some.injEq] at h; rw [← h]

/-- Step 4 leaves the checkpoint file as it is. -/
theorem setupStores_progressFile (env : Env) (r : Int) (w w0 : World)
    (h : setupStores env r w = some w0) : w0.progressFile = w.progressFile := by
  unfold setupStores at h
  split at h
  · simp only [Option.some.injEq] at h; rw [← h]
  · have hp : (deleteCollection env w).progressFile = w.progressFile := by
      unfold deleteCollection
      split <;> rfl
    cases hc : createCollection env (deleteCollection env w) with
    | none => simp [hc] at h
    | some w1 =>
      have hp1 : w1.progressFile = w.progressFile := by
        unfold createCollection at hc
        split at hc
        · simp only [Option.some.injEq] at hc; rw [← hc, hp]
        · split at hc
          · cases hc
          · split at hc
            · cases hc
            · simp only [Option.some.injEq] at hc; rw [← hc]; exact hp
      simp only [hc, KnowledgeSource.deleteMany] at h
      split at h
      · cases h
      · simp only [Option.some.injEq] at h; rw [← h]; exact hp1

/-- The checkpoint file after the loop holds the last value written, or is as
the loop found it when no value was written. -/
theorem progressFile_loop (env : Env) (b : Nat) (r : Int) (docs : List Doc) :
    ∀ (fuel i : Nat) (s : LoopState),
      (batchLoop env b r docs fuel i s).state.world.progressFile =
        match (checkpointsWritten (batchLoop env b r docs fuel i s).logs).getLast? with
        | some v => some (ProgressContent.object (some v))
        | none => s.world.progressFile := by
  intro fuel
  induction fuel with
  | zero => intro i s; simp [batchLoop, checkpointsWritten]
  | succ fuel ih =>
    intro i s
    by_cases h : i < docs.length
    · cases hins : insertDocuments env (i / b + 1) (pushedFrom env i ((docs.drop i).take b))
        s.qdrantId (worldAfterDocs env b docs i s.world) with
      | none =>
        rw [batchLoop_fatal env b r docs fuel i s h hins]
        simp [checkpointsWritten, batchLogAt, worldAfterDocs]
      | some w2 =>
        rw [batchLoop_cons env b r docs fuel i s w2 h hins]
        simp only [checkpointsWritten, List.filterMap_cons, batchLogAt, if_true]
        rw [ih (i + b) (stateAfterBatch env b r docs i s w2), List.getLast?_cons]
        simp only [checkpointsWritten]
        cases (List.filterMap (fun l => l.saved)
          (batchLoop env b r docs fuel (i + b) (stateAfterBatch env b r docs i s w2)).logs).getLast?
          <;> simp [stateAfterBatch, saveProgress]
    · rw [batchLoop_done env b r docs fuel i s h]
      simp [checkpointsWritten]

/-- The loop stops at the first record whose points request raised, and a
loop that completes has none. -/
theorem upsert_failure_stops (env : Env) (b : Nat) (r : Int) (docs : List Doc) :
    ∀ (fuel i : Nat) (s : LoopState),
      (∀ pre l post, (batchLoop env b r docs fuel i s).logs = pre ++ l :: post →
        l.upsertOk = false →
          post = [] ∧ (batchLoop env b r docs fuel i s).status = Status.fatal ∧
            l.saved = none) ∧
      ((batchLoop env b r docs fuel i s).status = Status.completed →
        ∀ l ∈ (batchLoop env b r docs fuel i s).logs,
          l.upsertOk = true ∧ l.saved.isSome = true) := by
  intro fuel
  induction fuel with
  | zero => intro i s; simp [batchLoop]
  | succ fuel ih =>
    intro i s
    by_cases h : i < docs.length
    · cases hins : insertDocuments env (i / b + 1) (pushedFrom env i ((docs.drop i).take b))
        s.qdrantId (worldAfterDocs env b docs i s.world) with
      | none =>
        rw [batchLoop_fatal env b r docs fuel i s h hins]
        refine ⟨?_, by simp⟩
        intro pre l post hl hok
        cases pre with
        | nil =>
          simp only [List.nil_append, List.cons.injEq] at hl
          refine ⟨hl.2.symm, rfl, ?_⟩
          rw [← hl.1]
          rfl
        | cons x pre =>
          simp only [List.cons_append, List.cons.injEq] at hl
          have := hl.2
          simp at this
      | some w2 =>
        rw [batchLoop_cons env b r docs fuel i s w2 h hins]
        obtain ⟨ih1, ih2⟩ := ih (i + b) (stateAfterBatch env b r docs i s w2)
        refine ⟨?_, ?_⟩
        · intro pre l post hl hok
          cases pre with
          | nil =>
            simp only [List.nil_append, List.cons.injEq] at hl
            rw [← hl.1] at hok
            simp [batchLogAt] at hok
          | cons x pre =>
            simp only [List.cons_append, List.cons.injEq] at hl
            exact ih1 pre l post hl.2 hok
        · intro hst l hl
          simp only [List.mem_cons] at hl
          rcases hl with hl | hl
          · rw [hl]; exact ⟨rfl, rfl⟩
          · exact ih2 hst l hl
    · rw [batchLoop_done env b r docs fuel i s h]
      refine ⟨?_, by simp⟩
      intro pre l post hl
      simp at hl

/-- The checkpoint values the loop writes are strictly increasing and above
the position the loop is entered at. -/
theorem checkpoints_increasing (env : Env) (b : Nat) (r : Int) (docs : List Doc) (hb : 0 < b) :
    ∀ (fuel i : Nat) (s : LoopState),
      (checkpointsWritten (batchLoop env b r docs fuel i s).logs).Pairwise (fun x y => x < y) ∧
      ∀ v ∈ checkpointsWritten (batchLoop env b r docs fuel i s).logs, r + (i : Int) < v := by
  intro fuel
  induction fuel with
  | zero => intro i s; simp [batchLoop, checkpointsWritten]
  | succ fuel ih =>
    intro i s
    by_cases h : i < docs.length
    · cases hins : insertDocuments env (i / b + 1) (pushedFrom env i ((docs.drop i).take b))
        s.qdrantId (worldAfterDocs env b docs i s.world) with
      | none =>
        rw [batchLoop_fatal env b r docs fuel i s h hins]
        simp [checkpointsWritten, batchLogAt]
      | some w2 =>
        rw [batchLoop_cons env b r docs fuel i s w2 h hins]
        obtain ⟨ih1, ih2⟩ := ih (i + b) (stateAfterBatch env b r docs i s w2)
        have hlen : 0 < ((docs.drop i).take b).length ∧ ((docs.drop i).take b).length ≤ b := by
          simp only [List.length_take, List.length_drop]
          omega
        simp only [checkpointsWritten, List.filterMap_cons, batchLogAt, if_true,
          List.pairwise_cons, List.mem_cons]
        simp only [checkpointsWritten] at ih1 ih2
        refine ⟨⟨?_, ih1⟩, ?_⟩
        · intro v hv
          have := ih2 v hv
          push_cast at this
          omega
        · intro v hv
          rcases hv with hv | hv
          · rw [hv]; omega
          · have := ih2 v hv
            push_cast at this
            omega
    · rw [batchLoop_done env b r docs fuel i s h]
      simp [checkpointsWritten]

/-- The three ways a run whose step 4 returns can end. -/
theorem loadData_cases (env : Env) (b : Nat) (allDocuments : List Doc) (w w0 : World)
    (h : setupStores env (loadProgress w) w = some w0) :
    ((loopOf env b allDocuments w w0).status = Status.completed ∧ env.countThrows = false ∧
      (loadData env b allDocuments w).status = Status.completed ∧
      (loadData env b allDocuments w).world =
        clearProgress env (loopOf env b allDocuments w w0).state.world ∧
      (loadData env b allDocuments w).mongoCount =
        some (loopOf env b allDocuments w w0).state.world.mongo.length) ∨
    ((loopOf env b allDocuments w w0).status = Status.completed ∧ env.countThrows = true ∧
      (loadData env b allDocuments w).status = Status.fatal ∧
      (loadData env b allDocuments w).world = (loopOf env b allDocuments w w0).state.world) ∨
    ((loopOf env b allDocuments w w0).status ≠ Status.completed ∧
      (loadData env b allDocuments w).status = (loopOf env b allDocuments w w0).status ∧
      (loadData env b allDocuments w).world = (loopOf env b allDocuments w w0).state.world) := by
  unfold loadData
  simp only [h]
  rw [show batchLoop env b (loadProgress w)
      (jsSlice (allDocuments.filter hasValidText) (loadProgress w))
      ((jsSlice (allDocuments.filter hasValidText) (loadProgress w)).length + 1) 0
      { world := w0, loaded := loadProgress w, qdrantId := loadProgress w + 1, errorCount := 0 } =
    loopOf env b allDocuments w w0 from rfl]
  cases hst : (loopOf env b allDocuments w w0).status <;>
    simp [KnowledgeSource.countDocuments]
  cases env.countThrows <;> simp

/-- What a loop that completes has done, whatever the points requests that
were not sent would have answered. -/
theorem completed_state (env : Env) (b : Nat) (r : Int) (docs : List Doc) :
    ∀ (fuel i : Nat) (s : LoopState),
      (batchLoop env b r docs fuel i s).status = Status.completed →
        (batchLoop env b r docs fuel i s).state.world.mongo =
          s.world.mongo ++ persistedFrom env i (docs.drop i) ∧
        (batchLoop env b r docs fuel i s).state.world.qdrant =
          s.world.qdrant.map (fun store =>
            upsertPoints store (toPoints (pushedFrom env i (docs.drop i)) s.qdrantId)) ∧
        upsertedPoints (batchLoop env b r docs fuel i s).logs =
          toPoints (pushedFrom env i (docs.drop i)) s.qdrantId ∧
        (batchLoop env b r docs fuel i s).logs.flatMap (fun l => l.calls) =
          callsFrom env i (docs.drop i) := by
  intro fuel
  induction fuel with
  | zero => intro i s hst; simp [batchLoop] at hst
  | succ fuel ih =>
    intro i s hst
    by_cases h : i < docs.length
    · cases hins : insertDocuments env (i / b + 1) (pushedFrom env i ((docs.drop i).take b))
        s.qdrantId (worldAfterDocs env b docs i s.world) with
      | none =>
        rw [batchLoop_fatal env b r docs fuel i s h hins] at hst
        simp at hst
      | some w2 =>
        rw [batchLoop_cons env b r docs fuel i s w2 h hins] at hst ⊢
        obtain ⟨h2, h3, h4, h5⟩ := ih (i + b) (stateAfterBatch env b r docs i s w2) hst
        have hw2 : w2.mongo = s.world.mongo ++ persistedFrom env i ((docs.drop i).take b) ∧
            w2.qdrant = s.world.qdrant.map (fun store => upsertPoints store
              (toPoints (pushedFrom env i ((docs.drop i).take b)) s.qdrantId)) := by
          unfold insertDocuments at hins
          split at hins
          · rename_i h0
            simp only [Option.some.injEq] at hins
            rw [← hins, List.eq_nil_of_length_eq_zero h0]
            refine ⟨rfl, ?_⟩
            simp only [worldAfterDocs, toPoints, List.mapIdx_nil, upsertPoints, List.foldl_nil]
            cases s.world.qdrant <;> rfl
          · split at hins
            · cases hins
            · split at hins
              · cases hins
              · rename_i store hq
                simp only [Option.some.injEq] at hins
                rw [← hins]
                simp only [worldAfterDocs] at hq
                refine ⟨rfl, ?_⟩
                simp only [hq, Option.map_some']
        refine ⟨?_, ?_, ?_, ?_⟩
        · rw [h2, persistedFrom_split env docs i b]
          simp [stateAfterBatch, saveProgress, hw2.1]
        · rw [h3, pushedFrom_split env docs i b, toPoints_append]
          simp only [stateAfterBatch, saveProgress, hw2.2, Option.map_map]
          congr 1
          funext store
          simp [upsertPoints_append]
        · have hlog : (batchLogAt env b r docs i s.qdrantId true).upsertOk = true := rfl
          simp only [upsertedPoints, List.flatMap_cons, hlog, if_true, batchLogAt_points]
          simp only [upsertedPoints] at h4
          rw [h4, pushedFrom_split env docs i b, toPoints_append]
          simp [stateAfterBatch]
        · simp only [List.flatMap_cons]
          rw [h5, callsFrom_split env docs i b]
          simp [batchLogAt]
    · rw [batchLoop_done env b r docs fuel i s h]
      have hd : docs.drop i = [] := by simp; omega
      simp only [hd, pushedFrom, succeeding, persistedFrom, callsFrom, toPoints, upsertedPoints,
        upsertPoints, List.map_nil, List.mapIdx_nil, List.foldl_nil, List.append_nil,
        List.flatMap_nil, true_and, and_true]
      cases s.world.qdrant <;> rfl

theorem checkpointsWritten_append (a b : List BatchLog) :
    checkpointsWritten (a ++ b) = checkpointsWritten a ++ checkpointsWritten b := by
  simp [checkpointsWritten]

/-- C11: when the points request of a batch raises, that batch is the last
one, the run ends fatally, nothing is written for the batch, and the checkpoint
file holds the value written after the previous batch, or is as the run found
it (absent, if it was absent) when no batch had completed. The checkpoint
values a run writes are strictly increasing. A run that does not complete never
deletes the file; one that completes has attempted every document, passed
every points request and the count of the verification step, and only then
removed the file: the file is gone, unless the removal failed, in which case it
still holds the last value written or is as the run found it. -/
theorem upsert_failure_keeps_checkpoint (env : Env) (batchSize : Nat) (allDocuments : List Doc)
    (w : World) (hb : 0 < batchSize) :
    (∀ pre l post, (loadData env batchSize allDocuments w).logs = pre ++ l :: post →
      l.upsertOk = false →
        post = [] ∧ (loadData env batchSize allDocuments w).status = Status.fatal ∧
        l.saved = none ∧
        (loadData env batchSize allDocuments w).world.progressFile =
          match (checkpointsWritten pre).getLast? with
          | some v => some (ProgressContent.object (some v))
          | none => w.progressFile) ∧
    (checkpointsWritten (loadData env batchSize allDocuments w).logs).Pairwise
      (fun x y => x < y) ∧
    ((loadData env batchSize allDocuments w).status ≠ Status.completed →
      (loadData env batchSize allDocuments w).world.progressFile =
        match (checkpointsWritten (loadData env batchSize allDocuments w).logs).getLast? with
        | some v => some (ProgressContent.object (some v))
        | none => w.progressFile) ∧
    ((loadData env batchSize allDocuments w).status = Status.completed →
      (loadData env batchSize allDocuments w).world.progressFile =
        (if env.unlinkThrows then
          match (checkpointsWritten (loadData env batchSize allDocuments w).logs).getLast? with
          | some v => some (ProgressContent.object (some v))
          | none => w.progressFile
        else none) ∧
      (loadData env batchSize allDocuments w).mongoCount.isSome = true ∧
      (∀ l ∈ (loadData env batchSize allDocuments w).logs,
        l.upsertOk = true ∧ l.saved.isSome = true) ∧
      attemptedDocs (loadData env batchSize allDocuments w).logs =
        (loadData env batchSize allDocuments w).docs) := by
  have hkeep : (loadData env batchSize allDocuments w).status ≠ Status.completed →
      (loadData env batchSize allDocuments w).world.progressFile =
        match (checkpointsWritten (loadData env batchSize allDocuments w).logs).getLast? with
        | some v => some (ProgressContent.object (some v))
        | none => w.progressFile := by
    intro hst
    cases hs : setupStores env (loadProgress w) w with
    | none =>
      obtain ⟨h1, _, h3, _⟩ := loadData_of_setup_none env batchSize allDocuments w hs
      rw [h1, h3, setupFailure_progressFile]
      rfl
    | some w0 =>
      have hl := (loadData_of_setup_some env batchSize allDocuments w w0 hs).1
      have hp := progressFile_loop env batchSize (loadProgress w)
        (jsSlice (allDocuments.filter hasValidText) (loadProgress w))
        ((jsSlice (allDocuments.filter hasValidText) (loadProgress w)).length + 1) 0
        { world := w0, loaded := loadProgress w, qdrantId := loadProgress w + 1,
          errorCount := 0 }
      rw [setupStores_progressFile env _ w w0 hs] at hp
      rcases loadData_cases env batchSize allDocuments w w0 hs with
        ⟨_, _, c3, _⟩ | ⟨_, _, _, c4⟩ | ⟨_, _, c3⟩
      · exact absurd c3 hst
      · rw [c4, hl]; exact hp
      · rw [c3, hl]; exact hp
  refine ⟨?_, ?_, hkeep, ?_⟩
  · intro pre l post hl hok
    cases hs : setupStores env (loadProgress w) w with
    | none =>
      rw [(loadData_of_setup_none env batchSize allDocuments w hs).1] at hl
      simp at hl
    | some w0 =>
      have hlogs := (loadData_of_setup_some env batchSize allDocuments w w0 hs).1
      have hstop := (upsert_failure_stops env batchSize (loadProgress w)
        (jsSlice (allDocuments.filter hasValidText) (loadProgress w))
        ((jsSlice (allDocuments.filter hasValidText) (loadProgress w)).length + 1) 0
        { world := w0, loaded := loadProgress w, qdrantId := loadProgress w + 1,
          errorCount := 0 }).1 pre l post (by rw [← hl, hlogs]; rfl) hok
      obtain ⟨hpost, hfatal0, hsaved⟩ := hstop
      have hfatal : (loopOf env batchSize allDocuments w w0).status = Status.fatal := hfatal0
      have hstatus : (loadData env batchSize allDocuments w).status = Status.fatal := by
        rcases loadData_cases env batchSize allDocuments w w0 hs with
          ⟨c1, _⟩ | ⟨c1, _⟩ | ⟨_, c2, _⟩
        · rw [hfatal] at c1
          cases c1
        · rw [hfatal] at c1
          cases c1
        · rw [c2]; exact hfatal
      refine ⟨hpost, hstatus, hsaved, ?_⟩
      rw [hkeep (by rw [hstatus]; simp), hl, hpost,
        show pre ++ [l] = pre ++ [l] from rfl, checkpointsWritten_append]
      simp [checkpointsWritten, hsaved]
  · cases hs : setupStores env (loadProgress w) w with
    | none =>
      rw [(loadData_of_setup_none env batchSize allDocuments w hs).1]
      simp [checkpointsWritten]
    | some w0 =>
      rw [(loadData_of_setup_some env batchSize allDocuments w w0 hs).1]
      exact (checkpoints_increasing env batchSize (loadProgress w) _ hb _ 0 _).1
  · intro hst
    cases hs : setupStores env (loadProgress w) w with
    | none =>
      rw [(loadData_of_setup_none env batchSize allDocuments w hs).2.1] at hst
      cases hst
    | some w0 =>
      have hlogs := (loadData_of_setup_some env batchSize allDocuments w w0 hs).1
      obtain ⟨_, _, _, f4, _⟩ := loadData_fields env batchSize allDocuments w
      rcases loadData_cases env batchSize allDocuments w w0 hs with
        ⟨c1, _, _, c4, c5⟩ | ⟨_, _, c3, _⟩ | ⟨c1, c2, _⟩
      · have hall := (upsert_failure_stops env batchSize (loadProgress w)
          (jsSlice (allDocuments.filter hasValidText) (loadProgress w))
          ((jsSlice (allDocuments.filter hasValidText) (loadProgress w)).length + 1) 0
          { world := w0, loaded := loadProgress w, qdrantId := loadProgress w + 1,
            errorCount := 0 }).2 c1
        obtain ⟨_, _, _, hcalls0⟩ := completed_state env batchSize (loadProgress w)
          (jsSlice (allDocuments.filter hasValidText) (loadProgress w))
          ((jsSlice (allDocuments.filter hasValidText) (loadProgress w)).length + 1) 0
          { world := w0, loaded := loadProgress w, qdrantId := loadProgress w + 1,
            errorCount := 0 } c1
        have hcalls : (loopOf env batchSize allDocuments w w0).logs.flatMap (fun l => l.calls) =
            callsFrom env 0 (jsSlice (allDocuments.filter hasValidText) (loadProgress w)) := by
          simpa using hcalls0
        have hp := progressFile_loop env batchSize (loadProgress w)
          (jsSlice (allDocuments.filter hasValidText) (loadProgress w))
          ((jsSlice (allDocuments.filter hasValidText) (loadProgress w)).length + 1) 0
          { world := w0, loaded := loadProgress w, qdrantId := loadProgress w + 1,
            errorCount := 0 }
        rw [setupStores_progressFile env _ w w0 hs] at hp
        refine ⟨?_, by rw [c5]; rfl, ?_, ?_⟩
        · rw [c4, (clearProgress_fields env _).2.2, hlogs]
          cases env.unlinkThrows
          · rfl
          · simp only [if_true]
            exact hp
        · rw [hlogs]; exact hall
        · rw [hlogs, f4, attemptedDocs, ← List.map_flatMap, hcalls, callsFrom_rawDoc]
      · rw [c3] at hst; cases hst
      · rw [c2] at hst; exact absurd hst c1

/-- C11, at a run with batch size 1 over two valid documents whose second
points request raises: the run ends fatally after one checkpoint, 1, which
stays in the file. -/
theorem upsert_failure_keeps_checkpoint_witness :
    (loadData secondUpsertThrowsEnv 1 twoVerses blankWorld).logs =
      [batchLogAt secondUpsertThrowsEnv 1 0 twoVerses 0 1 true] ++
        batchLogAt secondUpsertThrowsEnv 1 0 twoVerses 1 2 false :: [] ∧
    (loadData secondUpsertThrowsEnv 1 twoVerses blankWorld).status = Status.fatal ∧
    (loadData secondUpsertThrowsEnv 1 twoVerses blankWorld).world.progressFile =
      some (ProgressContent.object (some 1)) ∧
    (checkpointsWritten (loadData secondUpsertThrowsEnv 1 twoVerses blankWorld).logs).Pairwise
      (fun x y => x < y) :=
  ⟨by decide,
    ((upsert_failure_keeps_checkpoint secondUpsertThrowsEnv 1 twoVerses blankWorld
      (by decide)).1 [batchLogAt secondUpsertThrowsEnv 1 0 twoVerses 0 1 true]
      (batchLogAt secondUpsertThrowsEnv 1 0 twoVerses 1 2 false) [] (by decide) rfl).2.1,
    by decide,
    (upsert_failure_keeps_checkpoint secondUpsertThrowsEnv 1 twoVerses blankWorld
      (by decide)).2.1⟩

/-- Every call of a run is made for a valid document, with the sanitized
document and its text as arguments. -/
theorem loadData_call_facts (env : Env) (b : Nat) (allDocuments : List Doc) (w : World)
    (l : BatchLog) (hl : l ∈ (loadData env b allDocuments w).logs) (c : DocLog)
    (hc : c ∈ l.calls) :
    hasValidText c.rawDoc = true ∧ c.created = sanitizeDoc c.rawDoc ∧
      ∀ t, c.embedded = some t → t = textToEmbed (sanitizeDoc c.rawDoc) := by
  obtain ⟨i, q, ok, _, hshape⟩ := loadData_log_shape env b allDocuments w l hl
  rw [hshape] at hc
  simp only [batchLogAt] at hc
  obtain ⟨j, d, hd, hcd⟩ := mem_callsFrom env _ _ c hc
  have hv := jsSlice_subset _ _ d (List.mem_of_mem_drop (List.mem_of_mem_take hd))
  rw [hcd]
  refine ⟨(List.mem_filter.1 hv).2, rfl, ?_⟩
  intro t ht
  simp only [callOf] at ht
  split at ht
  · simp only [Option.some.injEq] at ht
    exact ht.symm
  · cases ht

theorem valid_text_facts (d : Doc) (h : hasValidText d = true) :
    (sanitizeDoc d).english_text = filterText d ∧ filterText d ≠ [] ∧
      5 < (jsTrim (filterText d)).length := by
  have h5 : 5 < (jsTrim (filterText d)).length := by
    rw [hasValidText_eq] at h
    simpa using h
  have hne : filterText d ≠ [] := by
    intro h0
    rw [h0] at h5
    simp [jsTrim] at h5
  refine ⟨?_, hne, h5⟩
  rcases d with ⟨st, rf, ar, en, cx, tg⟩
  rcases en with _ | _ | ⟨c, cs⟩
  · rcases ar with _ | _ | ⟨a, as⟩
    · simp [filterText] at hne
    · simp [filterText] at hne
    · simp [sanitizeDoc, filterText, jsOrLit, jsOr, truthy]
  · rcases ar with _ | _ | ⟨a, as⟩
    · simp [filterText] at hne
    · simp [filterText] at hne
    · simp [sanitizeDoc, filterText, jsOrLit, jsOr, truthy]
  · simp [sanitizeDoc, filterText, jsOrLit, jsOr, truthy]

theorem textToEmbed_of_english (doc : SanDoc) (h : doc.english_text ≠ []) :
    textToEmbed doc = doc.english_text := by
  unfold textToEmbed strOr
  cases he : doc.english_text with
  | nil => exact absurd he h
  | cons c cs => rfl

/-- C20: for a document that passes `hasValidText`, the sanitized
`english_text` is not empty; the text given to the embedding generator is not
empty, has more than 5 characters after trimming, is the sanitized
`english_text` (which is the payload text), and is the raw `english_text` if
non-empty, else the raw `arabic_text`. Every text a run gives to the embedding
generator is of this kind. -/
theorem valid_text_is_embedded :
    (∀ (env : Env) (d : Doc), hasValidText d = true →
      (sanitizeDoc d).english_text ≠ [] ∧
      textToEmbed (sanitizeDoc d) ≠ [] ∧
      5 < (jsTrim (textToEmbed (sanitizeDoc d))).length ∧
      textToEmbed (sanitizeDoc d) = (sanitizeDoc d).english_text ∧
      (entryOf env d).text = textToEmbed (sanitizeDoc d) ∧
      textToEmbed (sanitizeDoc d) = filterText d) ∧
    (∀ (env : Env) (batchSize : Nat) (allDocuments : List Doc) (w : World),
      ∀ t ∈ embedCalls (loadData env batchSize allDocuments w).logs,
        t ≠ [] ∧ 5 < (jsTrim t).length) := by
  have hdoc : ∀ (d : Doc), hasValidText d = true →
      (sanitizeDoc d).english_text ≠ [] ∧
      5 < (jsTrim (textToEmbed (sanitizeDoc d))).length ∧
      textToEmbed (sanitizeDoc d) = (sanitizeDoc d).english_text ∧
      textToEmbed (sanitizeDoc d) = filterText d := by
    intro d h
    obtain ⟨h1, h2, h3⟩ := valid_text_facts d h
    have hne : (sanitizeDoc d).english_text ≠ [] := by rw [h1]; exact h2
    have ht := textToEmbed_of_english (sanitizeDoc d) hne
    exact ⟨hne, by rw [ht, h1]; exact h3, ht, by rw [ht, h1]⟩
  refine ⟨?_, ?_⟩
  · intro env d h
    obtain ⟨h1, h2, h3, h4⟩ := hdoc d h
    exact ⟨h1, by rw [h3]; exact h1, h2, h3, h3.symm, h4⟩
  · intro env batchSize allDocuments w t ht
    simp only [embedCalls, List.mem_flatMap, List.mem_filterMap] at ht
    obtain ⟨l, hl, c, hc, hct⟩ := ht
    obtain ⟨hv, _, hemb⟩ := loadData_call_facts env batchSize allDocuments w l hl c hc
    obtain ⟨h1, h2, h3, _⟩ := hdoc c.rawDoc hv
    rw [hemb t hct]
    exact ⟨by rw [h3]; exact h1, h2⟩

/-- C20, at a record whose `english_text` is missing and whose `arabic_text`
has 9 characters. -/
theorem valid_text_is_embedded_witness :
    hasValidText { verseDoc 1 with english_text := none, arabic_text := some (js "bismillah") } =
      true ∧
    textToEmbed (sanitizeDoc
      { verseDoc 1 with english_text := none, arabic_text := some (js "bismillah") }) =
      js "bismillah" ∧
    textToEmbed (sanitizeDoc
      { verseDoc 1 with english_text := none, arabic_text := some (js "bismillah") }) =
      filterText { verseDoc 1 with english_text := none, arabic_text := some (js "bismillah") } :=
  ⟨by decide, by decide,
    (valid_text_is_embedded.1 quietEnv
      { verseDoc 1 with english_text := none, arabic_text := some (js "bismillah") }
      (by decide)).2.2.2.2.2⟩

/-- Without a collection no points request succeeds, so nothing is upserted. -/
theorem no_collection_no_upserts (env : Env) (b : Nat) (r : Int) (docs : List Doc) :
    ∀ (fuel i : Nat) (s : LoopState), s.world.qdrant = none →
      upsertedPoints (batchLoop env b r docs fuel i s).logs = [] := by
  intro fuel
  induction fuel with
  | zero => intro i s _; simp [batchLoop, upsertedPoints]
  | succ fuel ih =>
    intro i s hq
    by_cases h : i < docs.length
    · cases hins : insertDocuments env (i / b + 1) (pushedFrom env i ((docs.drop i).take b))
        s.qdrantId (worldAfterDocs env b docs i s.world) with
      | none =>
        rw [batchLoop_fatal env b r docs fuel i s h hins]
        simp [upsertedPoints, batchLogAt]
      | some w2 =>
        rw [batchLoop_cons env b r docs fuel i s w2 h hins]
        have hE : pushedFrom env i ((docs.drop i).take b) = [] ∧ w2.qdrant = none := by
          unfold insertDocuments at hins
          split at hins
          · rename_i h0
            simp only [Option.some.injEq] at hins
            rw [← hins]
            exact ⟨List.eq_nil_of_length_eq_zero h0, by simpa [worldAfterDocs] using hq⟩
          · split at hins
            · cases hins
            · split at hins
              · cases hins
              · rename_i store hst
                simp [worldAfterDocs, hq] at hst
        have hlog : (batchLogAt env b r docs i s.qdrantId true).upsertOk = true := rfl
        simp only [upsertedPoints, List.flatMap_cons, hlog, if_true, batchLogAt_points]
        have := ih (i + b) (stateAfterBatch env b r docs i s w2)
          (by simpa [stateAfterBatch, saveProgress] using hE.2)
        simp only [upsertedPoints] at this
        rw [this, hE.1]
        simp [toPoints]
    · rw [batchLoop_done env b r docs fuel i s h]
      simp [upsertedPoints]

/-- The points a run upserts when no points request is made to fail. -/
theorem loadData_upserted (env : Env) (b : Nat) (allDocuments : List Doc) (w : World)
    (hb : 0 < b) (hup : ∀ n, env.upsertThrows n = false) :
    upsertedPoints (loadData env b allDocuments w).logs =
      match setupStores env (loadProgress w) w with
      | none => []
      | some w0 =>
        match w0.qdrant with
        | none => []
        | some _ =>
          toPoints (pushedFrom env 0 (jsSlice (allDocuments.filter hasValidText) (loadProgress w)))
            (loadProgress w + 1) := by
  cases hs : setupStores env (loadProgress w) w with
  | none =>
    rw [(loadData_of_setup_none env b allDocuments w hs).1]
    rfl
  | some w0 =>
    rw [(loadData_of_setup_some env b allDocuments w w0 hs).1]
    cases hq : w0.qdrant with
    | none =>
      simp only [hq]
      exact no_collection_no_upserts env b (loadProgress w)
        (jsSlice (allDocuments.filter hasValidText) (loadProgress w))
        ((jsSlice (allDocuments.filter hasValidText) (loadProgress w)).length + 1) 0
        { world := w0, loaded := loadProgress w, qdrantId := loadProgress w + 1, errorCount := 0 }
        hq
    | some store =>
      obtain ⟨_, _, _, c4, _⟩ := batchLoop_complete env b (loadProgress w)
        (jsSlice (allDocuments.filter hasValidText) (loadProgress w)) hb hup
        ((jsSlice (allDocuments.filter hasValidText) (loadProgress w)).length + 1) 0
        { world := w0, loaded := loadProgress w, qdrantId := loadProgress w + 1, errorCount := 0 }
        store (by omega) hq
      simp only [hq]
      simpa [loopOf] using c4

/-- C19: for every corpus, checkpoint and pattern of per-document failures,
with points requests that are not made to fail, the list of points (id, vector
and payload of the document) a run upserts is the same for any two positive
batch sizes; when the collection exists at the start of the loop it is the list
built from all documents of the run that do not fail, numbered from the
checkpoint plus one. -/
theorem upserts_independent_of_batch_size (env : Env) (b1 b2 : Nat) (allDocuments : List Doc)
    (w : World) (hb1 : 0 < b1) (hb2 : 0 < b2) (hup : ∀ n, env.upsertThrows n = false) :
    upsertedPoints (loadData env b1 allDocuments w).logs =
      upsertedPoints (loadData env b2 allDocuments w).logs ∧
    (∀ (w0 : World) (store : List Point),
      (loadData env b1 allDocuments w).atLoop = some w0 → w0.qdrant = some store →
        upsertedPoints (loadData env b1 allDocuments w).logs =
          toPoints (pushedFrom env 0 (loadData env b1 allDocuments w).docs)
            ((loadData env b1 allDocuments w).resumeFrom + 1)) := by
  refine ⟨?_, ?_⟩
  · rw [loadData_upserted env b1 allDocuments w hb1 hup,
      loadData_upserted env b2 allDocuments w hb2 hup]
  · intro w0 store hloop hq
    obtain ⟨_, _, f3, f4, f5⟩ := loadData_fields env b1 allDocuments w
    rw [f5] at hloop
    rw [loadData_upserted env b1 allDocuments w hb1 hup, hloop, f3, f4]
    simp only [hq]

/-- C19, at a run over three valid documents whose second embedding call
throws, with batch sizes 1 and 25. -/
theorem upserts_independent_of_batch_size_witness :
    upsertedPoints (loadData secondEmbedThrowsEnv 1 threeVerses blankWorld).logs =
      upsertedPoints (loadData secondEmbedThrowsEnv 25 threeVerses blankWorld).logs ∧
    (upsertedPoints (loadData secondEmbedThrowsEnv 1 threeVerses blankWorld).logs).map
      (fun p => p.id) = [1, 2] ∧
    (loadData secondEmbedThrowsEnv 1 threeVerses blankWorld).logs.length = 3 ∧
    (loadData secondEmbedThrowsEnv 25 threeVerses blankWorld).logs.length = 1 :=
  ⟨(upserts_independent_of_batch_size secondEmbedThrowsEnv 1 25 threeVerses blankWorld
      (by decide) (by decide) (fun _ => rfl)).1,
    by decide, by decide, by decide⟩

theorem upsertPoint_ids (store : List Point) (p : Point) :
    (upsertPoint store p).map (fun x => x.id) =
      if store.any (fun q => q.id == p.id) then store.map (fun x => x.id)
      else store.map (fun x => x.id) ++ [p.id] := by
  unfold upsertPoint
  split
  · rw [List.map_map]
    apply List.map_congr_left
    intro x _
    simp only [Function.comp]
    split
    · rename_i h
      have h' : x.id = p.id := by simpa using h
      exact h'.symm
    · rfl
  · simp

theorem upsertPoints_ids_of_present (ps store : List Point)
    (h : ∀ p ∈ ps, p.id ∈ store.map (fun x => x.id)) :
    (upsertPoints store ps).map (fun x => x.id) = store.map (fun x => x.id) := by
  induction ps generalizing store with
  | nil => rfl
  | cons p ps ih =>
    have hp : store.any (fun q => q.id == p.id) = true := by
      have := h p (List.mem_cons_self _ _)
      simp only [List.mem_map] at this
      obtain ⟨x, hx, hxp⟩ := this
      rw [List.any_eq_true]
      exact ⟨x, hx, by simpa using hxp⟩
    have hstep : (upsertPoint store p).map (fun x => x.id) = store.map (fun x => x.id) := by
      rw [upsertPoint_ids, if_pos hp]
    simp only [upsertPoints, List.foldl_cons]
    have := ih (upsertPoint store p) (by
      intro q hq
      rw [hstep]
      exact h q (List.mem_cons_of_mem _ hq))
    simp only [upsertPoints] at this
    rw [this, hstep]

theorem upsertPoints_ids_mono (ps store : List Point) (a : Int)
    (h : a ∈ store.map (fun x => x.id)) : a ∈ (upsertPoints store ps).map (fun x => x.id) := by
  induction ps generalizing store with
  | nil => exact h
  | cons p ps ih =>
    simp only [upsertPoints, List.foldl_cons]
    apply ih
    rw [upsertPoint_ids]
    split
    · exact h
    · exact List.mem_append_left _ h

theorem upsertPoints_ids_present (ps store : List Point) :
    ∀ p ∈ ps, p.id ∈ (upsertPoints store ps).map (fun x => x.id) := by
  induction ps generalizing store with
  | nil => intro p hp; cases hp
  | cons p0 ps ih =>
    intro p hp
    simp only [upsertPoints, List.foldl_cons]
    rcases List.mem_cons.1 hp with hp | hp
    · subst hp
      apply upsertPoints_ids_mono
      rw [upsertPoint_ids]
      split
      · rename_i h
        rw [List.any_eq_true] at h
        obtain ⟨x, hx, hxp⟩ := h
        exact List.mem_map.2 ⟨x, hx, by simpa using hxp⟩
      · simp
    · exact ih (upsertPoint store p0) p hp

/-- Upserting the same points a second time leaves the number of points as
it is. -/
theorem upsertPoints_twice_length (ps store : List Point) :
    (upsertPoints (upsertPoints store ps) ps).length = (upsertPoints store ps).length := by
  have := upsertPoints_ids_of_present ps (upsertPoints store ps)
    (upsertPoints_ids_present ps store)
  have h2 := congrArg List.length this
  simpa using h2

/-- The vector index after step 4 of a fresh start. -/
theorem setupStores_qdrant (env : Env) (r : Int) (w w0 : World) (hr : ¬ r > 0)
    (h : setupStores env r w = some w0) :
    w0.mongo = [] ∧
    ((env.deleteFault = false ∧ w0.qdrant = some []) ∨
      (env.deleteFault = true ∧
        ((w.qdrant = none ∧ w0.qdrant = some []) ∨
          (∃ store, w.qdrant = some store ∧ w0.qdrant = some store)))) := by
  unfold setupStores at h
  rw [if_neg hr] at h
  unfold deleteCollection createCollection collectionExists KnowledgeSource.deleteMany at h
  cases hd : env.deleteFault <;> cases he : env.existsFault <;> cases hc : env.createFault <;>
    cases hm : env.deleteManyThrows <;> cases hq : w.qdrant <;>
    simp [hd, he, hc, hm, hq] at h <;> rw [← h] <;> simp [hq]

/-- A run that completes: its step 4 returned, its loop completed and its
final stores are those the loop left. -/
theorem loadData_completed (env : Env) (b : Nat) (allDocuments : List Doc) (w : World)
    (h : (loadData env b allDocuments w).status = Status.completed) :
    ∃ w0, setupStores env (loadProgress w) w = some w0 ∧
      (loopOf env b allDocuments w w0).status = Status.completed ∧
      (loadData env b allDocuments w).world =
        clearProgress env (loopOf env b allDocuments w w0).state.world := by
  cases hs : setupStores env (loadProgress w) w with
  | none =>
    rw [(loadData_of_setup_none env b allDocuments w hs).2.1] at h
    cases h
  | some w0 =>
    rcases loadData_cases env b allDocuments w w0 hs with
      ⟨c1, _, _, c4, _⟩ | ⟨_, _, c3, _⟩ | ⟨c1, c2, _⟩
    · exact ⟨w0, rfl, c1, c4⟩
    · rw [c3] at h; cases h
    · rw [c2] at h; exact absurd h c1

/-- A loop that completes after at least one iteration leaves the checkpoint
file holding the position of the end of the corpus. -/
theorem completed_file (env : Env) (b : Nat) (r : Int) (docs : List Doc) :
    ∀ (fuel i : Nat) (s : LoopState), i < docs.length →
      (batchLoop env b r docs fuel i s).status = Status.completed →
        (batchLoop env b r docs fuel i s).state.world.progressFile =
          some (ProgressContent.object (some (r + (docs.length : Int)))) := by
  intro fuel
  induction fuel with
  | zero => intro i s _ hst; simp [batchLoop] at hst
  | succ fuel ih =>
    intro i s h hst
    cases hins : insertDocuments env (i / b + 1) (pushedFrom env i ((docs.drop i).take b))
      s.qdrantId (worldAfterDocs env b docs i s.world) with
    | none =>
      rw [batchLoop_fatal env b r docs fuel i s h hins] at hst
      simp at hst
    | some w2 =>
      rw [batchLoop_cons env b r docs fuel i s w2 h hins] at hst ⊢
      simp only at hst ⊢
      by_cases h2 : i + b < docs.length
      · exact ih (i + b) _ h2 hst
      · cases fuel with
        | zero => simp [batchLoop] at hst
        | succ fuel =>
          rw [batchLoop_done env b r docs fuel (i + b) _ h2]
          simp only [stateAfterBatch, saveProgress, List.length_take, List.length_drop]
          have : min b (docs.length - i) = docs.length - i := by omega
          rw [this]
          congr 3
          omega

/-- The stores a completed fresh run leaves: the checkpoint file is gone, or,
when its removal failed, holds the number of valid documents. -/
theorem fresh_completed_stores (env : Env) (b : Nat) (allDocuments : List Doc) (w : World)
    (hfresh : loadProgress w = 0)
    (h : (loadData env b allDocuments w).status = Status.completed) :
    loadProgress (loadData env b allDocuments w).world =
      (if env.unlinkThrows then ((allDocuments.filter hasValidText).length : Int) else 0) ∧
    (loadData env b allDocuments w).world.mongo =
      persistedFrom env 0 (allDocuments.filter hasValidText) ∧
    ∃ w0, setupStores env 0 w = some w0 ∧
      (loadData env b allDocuments w).world.qdrant =
        w0.qdrant.map (fun store => upsertPoints store
          (toPoints (pushedFrom env 0 (allDocuments.filter hasValidText)) 1)) := by
  obtain ⟨w0, hs, hloop, hworld⟩ := loadData_completed env b allDocuments w h
  have hm := (setupStores_qdrant env (loadProgress w) w w0 (by omega) hs).1
  have hst := completed_state env b (loadProgress w)
    (jsSlice (allDocuments.filter hasValidText) (loadProgress w))
    ((jsSlice (allDocuments.filter hasValidText) (loadProgress w)).length + 1) 0
    { world := w0, loaded := loadProgress w, qdrantId := loadProgress w + 1, errorCount := 0 }
    hloop
  have hp0 := setupStores_progressFile env _ w w0 hs
  rw [hfresh] at hs
  simp only [hfresh, jsSlice_zero, List.drop_zero, hm, List.nil_append] at hst
  obtain ⟨h2, h3, _, _⟩ := hst
  have e : (loopOf env b allDocuments w w0) =
      (batchLoop env b 0 (allDocuments.filter hasValidText)
        ((allDocuments.filter hasValidText).length + 1) 0
        { world := w0, loaded := 0, qdrantId := 0 + 1, errorCount := 0 }) := by
    simp only [loopOf, hfresh, jsSlice_zero]
  obtain ⟨c1, c2, c3⟩ := clearProgress_fields env (loopOf env b allDocuments w w0).state.world
  refine ⟨?_, ?_, w0, hs, ?_⟩
  · rw [hworld]
    cases hu : env.unlinkThrows with
    | false =>
      rw [hu] at c3
      simp only [loadProgress, c3]
      rfl
    | true =>
      rw [hu] at c3
      simp only [if_true] at c3 ⊢
      by_cases hn : 0 < (allDocuments.filter hasValidText).length
      · have hf := completed_file env b 0 (allDocuments.filter hasValidText)
          ((allDocuments.filter hasValidText).length + 1) 0
          { world := w0, loaded := 0, qdrantId := 0 + 1, errorCount := 0 } hn
          (by rw [← e]; exact hloop)
        rw [← e] at hf
        simp only [loadProgress, c3, hf]
        split <;> omega
      · have hnil : allDocuments.filter hasValidText = [] :=
          List.eq_nil_of_length_eq_zero (by omega)
        have hstate : (loopOf env b allDocuments w w0).state.world = w0 := by
          rw [e, hnil]
          rfl
        have : (clearProgress env (loopOf env b allDocuments w w0).state.world).progressFile =
            w.progressFile := by rw [c3, hstate, hp0]
        have hl : loadProgress (clearProgress env (loopOf env b allDocuments w w0).state.world) =
            loadProgress w := by
          simp only [loadProgress, this]
        rw [hl, hfresh, hnil]
        rfl
  · rw [hworld, c1, e]
    exact h2
  · rw [hworld, c2, e]
    simpa using h3

/-- C18: when a fresh-start run completes and the loader is run again, with
the same collaborators and corpus, on the stores the first run left, then, if
the second run completes too, the document store and the vector index hold as
many documents and points after it as after the first run, whatever both stores
held before the first run. The second run is a fresh start too when the first
one removed its checkpoint file; when that removal failed, the file holds the
number of valid documents and the second run resumes behind the last of
them. -/
theorem second_run_same_counts (env : Env) (batchSize : Nat) (allDocuments : List Doc)
    (w : World) (hfresh : loadProgress w = 0)
    (h1 : (loadData env batchSize allDocuments w).status = Status.completed)
    (h2 : (loadData env batchSize allDocuments
      (loadData env batchSize allDocuments w).world).status = Status.completed) :
    loadProgress (loadData env batchSize allDocuments w).world =
      (if env.unlinkThrows then ((allDocuments.filter hasValidText).length : Int) else 0) ∧
    (loadData env batchSize allDocuments (loadData env batchSize allDocuments w).world).world.mongo.length =
      (loadData env batchSize allDocuments w).world.mongo.length ∧
    (loadData env batchSize allDocuments
      (loadData env batchSize allDocuments w).world).world.qdrant.map List.length =
      (loadData env batchSize allDocuments w).world.qdrant.map List.length := by
  obtain ⟨p1, m1, w0, s1, q1⟩ := fresh_completed_stores env batchSize allDocuments w hfresh h1
  refine ⟨p1, ?_⟩
  by_cases hfresh2 : loadProgress (loadData env batchSize allDocuments w).world = 0
  · obtain ⟨_, m2, w0', s2, q2⟩ := fresh_completed_stores env batchSize allDocuments
      (loadData env batchSize allDocuments w).world hfresh2 h2
    refine ⟨by rw [m1, m2], ?_⟩
    obtain ⟨_, hq0⟩ := setupStores_qdrant env 0 w w0 (by omega) s1
    obtain ⟨_, hq0'⟩ := setupStores_qdrant env 0 _ w0' (by omega) s2
    rcases hq0 with ⟨hd, hw0⟩ | ⟨hd, hw0⟩
    · rcases hq0' with ⟨_, hw0'⟩ | ⟨hd', _⟩
      · rw [q1, q2, hw0, hw0']
      · rw [hd] at hd'; cases hd'
    · have hsome : ∃ st0, w0.qdrant = some st0 := by
        rcases hw0 with ⟨_, h⟩ | ⟨st, _, h⟩
        · exact ⟨[], h⟩
        · exact ⟨st, h⟩
      obtain ⟨st0, hst0⟩ := hsome
      rw [hst0] at q1
      simp only [Option.map_some'] at q1
      rcases hq0' with ⟨hd', _⟩ | ⟨_, hw0'⟩
      · rw [hd] at hd'; cases hd'
      · rcases hw0' with ⟨hnone, _⟩ | ⟨st, hst, hw0'⟩
        · rw [q1] at hnone; cases hnone
        · rw [q1] at hst
          simp only [Option.some.injEq] at hst
          rw [q2, hw0', q1, ← hst]
          simp only [Option.map_some', Option.some.injEq]
          exact upsertPoints_twice_length _ _
  · have hn : loadProgress (loadData env batchSize allDocuments w).world =
        ((allDocuments.filter hasValidText).length : Int) := by
      rw [p1] at hfresh2 ⊢
      split at hfresh2
      · rw [if_pos (by assumption)]
      · exact absurd rfl hfresh2
    have hpos : loadProgress (loadData env batchSize allDocuments w).world > 0 := by
      rw [hn] at hfresh2 ⊢
      omega
    obtain ⟨w0', s2, _, hworld2⟩ := loadData_completed env batchSize allDocuments
      (loadData env batchSize allDocuments w).world h2
    have hw0' : w0' = (loadData env batchSize allDocuments w).world := by
      unfold setupStores at s2
      rw [if_pos hpos] at s2
      exact (Option.some.inj s2).symm
    have hdocs : jsSlice (allDocuments.filter hasValidText)
        (loadProgress (loadData env batchSize allDocuments w).world) = [] := by
      rw [hn]
      simp [jsSlice]
    have hstate : (loopOf env batchSize allDocuments (loadData env batchSize allDocuments w).world
        w0').state.world = w0' := by
      simp only [loopOf, hdocs]
      rfl
    obtain ⟨c1, c2, _⟩ := clearProgress_fields env w0'
    rw [hworld2, hstate, c1, c2, hw0']
    exact ⟨rfl, rfl⟩

/-- C18, at two runs over stores that held a point with id 7, with a request
deleting the collection that fails both times: 2 documents and 3 points after
each run. -/
theorem second_run_same_counts_witness :
    (loadData deleteFaultEnv 25 twoVerses staleWorld).world.mongo.length = 2 ∧
    (loadData deleteFaultEnv 25 twoVerses staleWorld).world.qdrant.map List.length = some 3 ∧
    (loadData deleteFaultEnv 25 twoVerses
      (loadData deleteFaultEnv 25 twoVerses staleWorld).world).world.mongo.length =
      (loadData deleteFaultEnv 25 twoVerses staleWorld).world.mongo.length ∧
    (loadData deleteFaultEnv 25 twoVerses
      (loadData deleteFaultEnv 25 twoVerses staleWorld).world).world.qdrant.map List.length =
      (loadData deleteFaultEnv 25 twoVerses staleWorld).world.qdrant.map List.length :=
  ⟨by decide, by decide,
    (second_run_same_counts deleteFaultEnv 25 twoVerses staleWorld (by decide) (by decide)
      (by decide)).2.1,
    (second_run_same_counts deleteFaultEnv 25 twoVerses staleWorld (by decide) (by decide)
      (by decide)).2.2⟩

theorem attemptFetch_of_fails {β : Type} (o : FetchOutcome β) (h : attemptFails o = true) :
    attemptFetch o = Except.error (attemptError o) := by
  unfold attemptFails at h
  unfold attemptError
  cases ha : attemptFetch o with
  | ok json => simp [ha] at h
  | error e => rfl

/-- The loop when every attempt from `a` to `retries` fails. -/
theorem safeFetchLoop_all_fail {β : Type} (fetch : Nat → FetchOutcome β) (r : Nat) :
    ∀ (fuel a : Nat), a ≤ r → r - a < fuel →
      (∀ n, a ≤ n → n ≤ r → attemptFails (fetch n) = true) →
        (safeFetchLoop fetch r fuel a).requests = r - a + 1 ∧
        (safeFetchLoop fetch r fuel a).delays =
          (List.range' a (r - a)).map (fun n => 1000 * n) ∧
        (safeFetchLoop fetch r fuel a).result = FetchResult.threw (attemptError (fetch r)) := by
  intro fuel
  induction fuel with
  | zero => intro a _ hf; omega
  | succ fuel ih =>
    intro a har hf hall
    rw [safeFetchLoop, if_pos har, attemptFetch_of_fails _ (hall a (Nat.le_refl a) har)]
    simp only
    by_cases hlast : a = r
    · rw [if_pos hlast]
      subst hlast
      simp
    · rw [if_neg hlast]
      obtain ⟨h1, h2, h3⟩ := ih (a + 1) (by omega) (by omega)
        (fun n hn hnr => hall n (by omega) hnr)
      refine ⟨by simp only [h1]; omega, ?_, h3⟩
      simp only [h2]
      have e : r - a = (r - (a + 1)) + 1 := by omega
      rw [e, List.range'_succ]
      simp

/-- The loop when attempt `k` is the first from `a` on that succeeds. -/
theorem safeFetchLoop_first_success {β : Type} (fetch : Nat → FetchOutcome β) (r k : Nat)
    (json : β) (hk : attemptFetch (fetch k) = Except.ok json) :
    ∀ (fuel a : Nat), a ≤ k → k ≤ r → k - a < fuel →
      (∀ n, a ≤ n → n < k → attemptFails (fetch n) = true) →
        (safeFetchLoop fetch r fuel a).requests = k - a + 1 ∧
        (safeFetchLoop fetch r fuel a).delays =
          (List.range' a (k - a)).map (fun n => 1000 * n) ∧
        (safeFetchLoop fetch r fuel a).result = FetchResult.returned json := by
  intro fuel
  induction fuel with
  | zero => intro a _ _ hf; omega
  | succ fuel ih =>
    intro a hak hkr hf hall
    rw [safeFetchLoop, if_pos (by omega)]
    by_cases hlast : a = k
    · subst hlast
      rw [hk]
      simp
    · rw [attemptFetch_of_fails _ (hall a (Nat.le_refl a) (by omega))]
      simp only
      rw [if_neg (by omega)]
      obtain ⟨h1, h2, h3⟩ := ih (a + 1) (by omega) hkr (by omega)
        (fun n hn hnk => hall n (by omega) hnk)
      refine ⟨by simp only [h1]; omega, ?_, h3⟩
      simp only [h2]
      have e : k - a = (k - (a + 1)) + 1 := by omega
      rw [e, List.range'_succ]
      simp

/-- C12: for every retry budget r >= 1, when every attempt fails `safeFetch`
makes exactly r requests and throws the error of attempt r; when attempt
k <= r is the first to succeed it makes exactly k requests and returns the
body parsed by that attempt. A call without the argument has the budget 3. -/
theorem safeFetch_requests {β : Type} (fetch : Nat → FetchOutcome β) (r : Nat) (hr : 1 ≤ r) :
    ((∀ n, 1 ≤ n → n ≤ r → attemptFails (fetch n) = true) →
      (safeFetch fetch (some r)).requests = r ∧
      (safeFetch fetch (some r)).result = FetchResult.threw (attemptError (fetch r))) ∧
    (∀ (k : Nat) (json : β), 1 ≤ k → k ≤ r →
      (∀ n, 1 ≤ n → n < k → attemptFails (fetch n) = true) →
      attemptFetch (fetch k) = Except.ok json →
        (safeFetch fetch (some r)).requests = k ∧
        (safeFetch fetch (some r)).result = FetchResult.returned json) ∧
    safeFetch fetch none = safeFetch fetch (some 3) := by
  refine ⟨?_, ?_, rfl⟩
  · intro hall
    obtain ⟨h1, _, h3⟩ := safeFetchLoop_all_fail fetch r (r + 1) 1 hr (by omega) hall
    exact ⟨by simp only [safeFetch, Option.getD_some, h1]; omega, h3⟩
  · intro k json hk1 hkr hall hok
    obtain ⟨h1, _, h3⟩ := safeFetchLoop_first_success fetch r k json hok (r + 1) 1 hk1 hkr
      (by omega) hall
    exact ⟨by simp only [safeFetch, Option.getD_some, h1]; omega, h3⟩

/-- C12, at the default budget: three failing attempts make 3 requests and
throw the last error; a success at the third attempt makes 3 requests and
returns its body. -/
theorem safeFetch_requests_witness :
    (safeFetch (alwaysStatus 404) none).requests = 3 ∧
    (safeFetch (alwaysStatus 404) (some 3)).result =
      FetchResult.threw (attemptError (alwaysStatus 404 3)) ∧
    (safeFetch thirdTimeLucky (some 3)).requests = 3 ∧
    (safeFetch thirdTimeLucky (some 3)).result = FetchResult.returned (js "payload") :=
  ⟨by decide,
    ((safeFetch_requests (alwaysStatus 404) 3 (by decide)).1 (fun _ _ _ => rfl)).2,
    ((safeFetch_requests thirdTimeLucky 3 (by decide)).2.1 3 (js "payload") (by decide)
      (by decide)
      (by
        intro n h1 h3
        have h : n = 1 ∨ n = 2 := by omega
        rcases h with h | h <;> subst h <;> rfl)
      rfl).1,
    ((safeFetch_requests thirdTimeLucky 3 (by decide)).2.1 3 (js "payload") (by decide)
      (by decide)
      (by
        intro n h1 h3
        have h : n = 1 ∨ n = 2 := by omega
        rcases h with h | h <;> subst h <;> rfl)
      rfl).2⟩

/-- The delays of a call are 1000 times the numbers of the attempts they
follow. -/
theorem safeFetchLoop_delays {β : Type} (fetch : Nat → FetchOutcome β) (r : Nat) :
    ∀ (fuel a : Nat),
      (safeFetchLoop fetch r fuel a).delays =
        (List.range' a (safeFetchLoop fetch r fuel a).delays.length).map (fun n => 1000 * n) := by
  intro fuel
  induction fuel with
  | zero => intro a; simp [safeFetchLoop]
  | succ fuel ih =>
    intro a
    rw [safeFetchLoop]
    split
    · split
      · simp
      · split
        · simp
        · simp only [List.length_cons, List.range'_succ, List.map_cons, List.cons.injEq,
            true_and]
          exact ih (a + 1)
    · simp

theorem linear_delays_sum (m : Nat) :
    2 * ((List.range' 1 m).map (fun n => 1000 * n)).sum = 1000 * (m + 1) * m := by
  induction m with
  | zero => simp
  | succ m ih =>
    rw [List.range'_1_concat, List.map_append, List.sum_append, Nat.mul_add, ih]
    simp only [List.map_cons, List.map_nil, List.sum_cons, List.sum_nil]
    ring

/-- C13: the delay after the n-th failed attempt of a call of `safeFetch` is
1000 n milliseconds, and a call whose r >= 1 attempts all fail has waited
after each attempt but the last, 1000 r (r - 1) / 2 milliseconds in total. -/
theorem safeFetch_linear_backoff {β : Type} (fetch : Nat → FetchOutcome β) :
    (∀ (retries : Option Nat) (j d : Nat),
      (safeFetch fetch retries).delays[j]? = some d → d = 1000 * (j + 1)) ∧
    (∀ r : Nat, 1 ≤ r → (∀ n, 1 ≤ n → n ≤ r → attemptFails (fetch n) = true) →
      (safeFetch fetch (some r)).delays = (List.range' 1 (r - 1)).map (fun n => 1000 * n) ∧
      (safeFetch fetch (some r)).delays.length = r - 1 ∧
      (safeFetch fetch (some r)).delays.sum = 1000 * r * (r - 1) / 2) := by
  refine ⟨?_, ?_⟩
  · intro retries j d hj
    have hshape := safeFetchLoop_delays fetch (retries.getD DEFAULT_RETRIES)
      (retries.getD DEFAULT_RETRIES + 1) 1
    unfold safeFetch at hj
    rw [hshape, List.getElem?_map] at hj
    have hlt : j < (safeFetchLoop fetch (retries.getD DEFAULT_RETRIES)
        (retries.getD DEFAULT_RETRIES + 1) 1).delays.length := by
      by_contra hc
      rw [List.getElem?_eq_none (by simpa using hc)] at hj
      cases hj
    rw [List.getElem?_range' 1 1 hlt] at hj
    simp only [Option.map_some', Option.some.injEq] at hj
    rw [← hj]
    ring
  · intro r hr hall
    obtain ⟨_, h2, _⟩ := safeFetchLoop_all_fail fetch r (r + 1) 1 hr (by omega) hall
    have hd : (safeFetch fetch (some r)).delays =
        (List.range' 1 (r - 1)).map (fun n => 1000 * n) := by
      simpa [safeFetch] using h2
    refine ⟨hd, by rw [hd]; simp, ?_⟩
    rw [hd]
    have hs := linear_delays_sum (r - 1)
    have e : r - 1 + 1 = r := by omega
    rw [e] at hs
    rw [← hs]
    simp

/-- C13, at the default budget with every attempt failing: delays of 1000
and 2000 milliseconds, 3000 in total. -/
theorem safeFetch_linear_backoff_witness :
    (safeFetch (alwaysStatus 500) (some 3)).delays = [1000, 2000] ∧
    (safeFetch (alwaysStatus 500) (some 3)).delays.sum = 1000 * 3 * (3 - 1) / 2 :=
  ⟨by decide,
    ((safeFetch_linear_backoff (alwaysStatus 500)).2 3 (by decide) (fun _ _ _ => rfl)).2.2⟩

/-- The loops over two networks that differ only in the statuses of their
responses that are not ok. -/
theorem safeFetchLoop_status_blind {β : Type} (f1 f2 : Nat → FetchOutcome β) (r : Nat)
    (h : ∀ n, f1 n = f2 n ∨
      ∃ s1 s2 b1 b2, f1 n = FetchOutcome.responded s1 b1 ∧ f2 n = FetchOutcome.responded s2 b2 ∧
        responseOk s1 = false ∧ responseOk s2 = false) :
    ∀ (fuel a : Nat),
      (safeFetchLoop f1 r fuel a).requests = (safeFetchLoop f2 r fuel a).requests ∧
      (safeFetchLoop f1 r fuel a).delays = (safeFetchLoop f2 r fuel a).delays ∧
      endsAlike (safeFetchLoop f1 r fuel a).result (safeFetchLoop f2 r fuel a).result := by
  intro fuel
  induction fuel with
  | zero => intro a; simp [safeFetchLoop, endsAlike]
  | succ fuel ih =>
    intro a
    rw [safeFetchLoop, safeFetchLoop]
    by_cases ha : a ≤ r
    · rw [if_pos ha, if_pos ha]
      obtain ⟨ih1, ih2, ih3⟩ := ih (a + 1)
      rcases h a with heq | ⟨s1, s2, b1, b2, h1, h2, hs1, hs2⟩
      · rw [heq]
        cases hf : attemptFetch (f2 a) with
        | ok json => simp [endsAlike]
        | error e =>
          simp only
          by_cases hlast : a = r
          · simp [hlast, endsAlike]
          · simp only [if_neg hlast]
            exact ⟨by rw [ih1], by rw [ih2], ih3⟩
      · rw [h1, h2]
        simp only [attemptFetch, hs1, hs2, Bool.not_false, if_true]
        by_cases hlast : a = r
        · simp [hlast, endsAlike]
        · simp only [if_neg hlast]
          exact ⟨by rw [ih1], by rw [ih2], ih3⟩
    · rw [if_neg ha, if_neg ha]
      simp [endsAlike]

/-- C14: two networks whose answers differ only in the status codes of
responses that are not ok make `safeFetch` send the same number of requests,
wait the same delays and end in the same way: both calls throw, or both return
the same body. -/
theorem safeFetch_status_blind {β : Type} (f1 f2 : Nat → FetchOutcome β) (retries : Option Nat)
    (h : ∀ n, f1 n = f2 n ∨
      ∃ s1 s2 b1 b2, f1 n = FetchOutcome.responded s1 b1 ∧ f2 n = FetchOutcome.responded s2 b2 ∧
        responseOk s1 = false ∧ responseOk s2 = false) :
    (safeFetch f1 retries).requests = (safeFetch f2 retries).requests ∧
    (safeFetch f1 retries).delays = (safeFetch f2 retries).delays ∧
    endsAlike (safeFetch f1 retries).result (safeFetch f2 retries).result ∧
    (∀ json, (safeFetch f1 retries).result = FetchResult.returned json ↔
      (safeFetch f2 retries).result = FetchResult.returned json) ∧
    ((∃ e, (safeFetch f1 retries).result = FetchResult.threw e) ↔
      (∃ e, (safeFetch f2 retries).result = FetchResult.threw e)) := by
  obtain ⟨h1, h2, h3⟩ := safeFetchLoop_status_blind f1 f2 (retries.getD DEFAULT_RETRIES) h
    (retries.getD DEFAULT_RETRIES + 1) 1
  have h3' : endsAlike (safeFetch f1 retries).result (safeFetch f2 retries).result := h3
  refine ⟨h1, h2, h3', ?_, ?_⟩
  · intro json
    cases hr1 : (safeFetch f1 retries).result <;> cases hr2 : (safeFetch f2 retries).result <;>
      simp [hr1, hr2, endsAlike] at h3' ⊢
    rw [h3']
  · cases hr1 : (safeFetch f1 retries).result <;> cases hr2 : (safeFetch f2 retries).result <;>
      simp [hr1, hr2, endsAlike] at h3' ⊢

/-- C14, at a network that always answers 404 and one that always answers
500: three requests, delays of 1000 and 2000, and a thrown error for both. -/
theorem safeFetch_status_blind_witness :
    (safeFetch (alwaysStatus 404) none).requests = (safeFetch (alwaysStatus 500) none).requests ∧
    (safeFetch (alwaysStatus 404) none).delays = (safeFetch (alwaysStatus 500) none).delays ∧
    (safeFetch (alwaysStatus 404) none).result = FetchResult.threw (FetchError.http 404) ∧
    (safeFetch (alwaysStatus 500) none).result = FetchResult.threw (FetchError.http 500) :=
  ⟨(safeFetch_status_blind (alwaysStatus 404) (alwaysStatus 500) none
      (fun _ => Or.inr ⟨404, 500, none, none, rfl, rfl, by decide, by decide⟩)).1,
    (safeFetch_status_blind (alwaysStatus 404) (alwaysStatus 500) none
      (fun _ => Or.inr ⟨404, 500, none, none, rfl, rfl, by decide, by decide⟩)).2.1,
    by decide, by decide⟩

/-- The method `includes` decides occurrence as a run of consecutive items. -/
theorem jsIncludes_iff_infix (s keyword : JsString) :
    jsIncludes s keyword = true ↔ keyword <:+: s := by
  induction s with
  | nil =>
    simp only [jsIncludes, List.isEmpty_iff, List.infix_nil]
  | cons c cs ih =>
    simp only [jsIncludes, Bool.or_eq_true, ih, List.infix_cons_iff,
      List.isPrefixOf_iff_prefix]

/-- The loop of `extractKeywords` collects the categories that have a keyword
in the text, in the order of the entries. -/
theorem tags_foldl (lowerText : JsString) (entries : List (JsString × List JsString))
    (acc : List JsString) :
    entries.foldl
      (fun tags entry =>
        if entry.2.any (fun keyword => jsIncludes lowerText keyword) then tags ++ [entry.1]
        else tags) acc =
    acc ++ (entries.filter
      (fun entry => entry.2.any (fun keyword => jsIncludes lowerText keyword))).map
        (fun entry => entry.1) := by
  induction entries generalizing acc with
  | nil => simp
  | cons e es ih =>
    simp only [List.foldl_cons, List.filter_cons]
    split
    · rw [ih]; simp
    · rw [ih]

theorem extractKeywords_eq (toLowerCase : JsString → JsString) (t : JsString) :
    extractKeywords toLowerCase (some t) =
      some (if (keywordMap.filter
          (fun entry => entry.2.any (fun keyword => jsIncludes (toLowerCase t) keyword))).map
            (fun entry => entry.1) = [] then [js "general"]
        else (keywordMap.filter
          (fun entry => entry.2.any (fun keyword => jsIncludes (toLowerCase t) keyword))).map
            (fun entry => entry.1)) := by
  simp only [extractKeywords, tags_foldl, List.nil_append]
  congr 1
  cases h : (keywordMap.filter
      (fun entry => entry.2.any (fun keyword => jsIncludes (toLowerCase t) keyword))).map
        (fun entry => entry.1) with
  | nil => simp
  | cons a as => simp

theorem keywordMap_categories_nodup : (keywordMap.map (fun entry => entry.1)).Nodup := by
  decide

theorem general_not_category : js "general" ∉ keywordMap.map (fun entry => entry.1) := by
  decide

theorem matched_mem (lowerText topic : JsString) :
    topic ∈ (keywordMap.filter
      (fun entry => entry.2.any (fun keyword => jsIncludes lowerText keyword))).map
        (fun entry => entry.1) ↔
    ∃ keywords, (topic, keywords) ∈ keywordMap ∧ ∃ keyword ∈ keywords, keyword <:+: lowerText := by
  simp only [List.mem_map, List.mem_filter, List.any_eq_true, jsIncludes_iff_infix]
  constructor
  · rintro ⟨entry, ⟨hmem, hkw⟩, rfl⟩
    exact ⟨entry.2, hmem, hkw⟩
  · rintro ⟨keywords, hmem, hkw⟩
    exact ⟨(topic, keywords), ⟨hmem, hkw⟩, rfl⟩

/-- C15: for every text, `extractKeywords` returns a list without duplicates
that is either exactly `["general"]` or a selection of the categories of the
keyword map in their order; a category is in the list if and only if one of
its trigger keywords occurs in the lower-cased text; the list is `["general"]`
if and only if no keyword of any category occurs; and "general" is never
returned together with a category. -/
theorem extractKeywords_topics (toLowerCase : JsString → JsString) (t : JsString) :
    ∃ tags, extractKeywords toLowerCase (some t) = some tags ∧
      tags.Nodup ∧
      (tags = [js "general"] ∨ tags.Sublist (keywordMap.map (fun entry => entry.1))) ∧
      (∀ topic ∈ keywordMap.map (fun entry => entry.1),
        topic ∈ tags ↔
          ∃ keywords, (topic, keywords) ∈ keywordMap ∧
            ∃ keyword ∈ keywords, keyword <:+: toLowerCase t) ∧
      (tags = [js "general"] ↔
        ∀ entry ∈ keywordMap, ∀ keyword ∈ entry.2, ¬ keyword <:+: toLowerCase t) ∧
      (js "general" ∈ tags → tags = [js "general"]) := by
  have hsub : ((keywordMap.filter
      (fun entry => entry.2.any (fun keyword => jsIncludes (toLowerCase t) keyword))).map
        (fun entry => entry.1)).Sublist (keywordMap.map (fun entry => entry.1)) :=
    (List.filter_sublist _).map _
  rw [extractKeywords_eq]
  by_cases hM : (keywordMap.filter
      (fun entry => entry.2.any (fun keyword => jsIncludes (toLowerCase t) keyword))).map
        (fun entry => entry.1) = []
  · rw [if_pos hM]
    have hnone : ∀ entry ∈ keywordMap, ∀ keyword ∈ entry.2, ¬ keyword <:+: toLowerCase t := by
      intro entry he keyword hk hin
      have : entry.1 ∈ (keywordMap.filter
          (fun entry => entry.2.any (fun keyword => jsIncludes (toLowerCase t) keyword))).map
            (fun entry => entry.1) :=
        (matched_mem (toLowerCase t) entry.1).2 ⟨entry.2, he, keyword, hk, hin⟩
      rw [hM] at this
      cases this
    refine ⟨_, rfl, by simp, Or.inl rfl, ?_, ?_, fun _ => rfl⟩
    · intro topic htopic
      constructor
      · intro hmem
        simp only [List.mem_singleton] at hmem
        rw [hmem] at htopic
        exact absurd htopic general_not_category
      · rintro ⟨keywords, hk, keyword, hkw, hin⟩
        exact absurd hin (hnone (topic, keywords) hk keyword hkw)
    · exact ⟨fun _ => hnone, fun _ => rfl⟩
  · rw [if_neg hM]
    have hgen : js "general" ∉ (keywordMap.filter
        (fun entry => entry.2.any (fun keyword => jsIncludes (toLowerCase t) keyword))).map
          (fun entry => entry.1) :=
      fun h => general_not_category (hsub.subset h)
    refine ⟨_, rfl, keywordMap_categories_nodup.sublist hsub, Or.inr hsub, ?_, ?_, ?_⟩
    · intro topic _
      exact matched_mem (toLowerCase t) topic
    · constructor
      · intro h
        rw [h] at hgen
        exact absurd (List.mem_singleton_self _) hgen
      · intro hnone
        exfalso
        obtain ⟨topic, htopic⟩ := List.exists_mem_of_ne_nil _ hM
        obtain ⟨keywords, hk, keyword, hkw, hin⟩ := (matched_mem (toLowerCase t) topic).1 htopic
        exact hnone (topic, keywords) hk keyword hkw hin
    · intro h
      exact absurd h hgen

theorem mapThrowing_spec {α β : Type} (f : α → Option β) (l : List α)
    (h : ∀ a ∈ l, (f a).isSome = true) :
    ∃ bs : List β, mapThrowing f l = some bs ∧ bs.length = l.length ∧
      ∀ (i : Nat) (a : α), l[i]? = some a → bs[i]? = f a := by
  induction l with
  | nil => exact ⟨[], rfl, rfl, fun i a hi => by simp at hi⟩
  | cons a0 as ih =>
    obtain ⟨bs, hbs, hlen, hget⟩ := ih (fun a ha => h a (List.mem_cons_of_mem _ ha))
    have h0 := h a0 (List.mem_cons_self _ _)
    cases hf : f a0 with
    | none => simp [hf] at h0
    | some b =>
      refine ⟨b :: bs, by simp [mapThrowing, hf, hbs], by simp [hlen], ?_⟩
      intro i a hi
      cases i with
      | zero =>
        simp only [List.getElem?_cons_zero, Option.some.injEq] at hi
        rw [← hi, hf]
        simp
      | succ i =>
        simp only [List.getElem?_cons_succ] at hi ⊢
        exact hget i a hi

theorem mapThrowing_mem {α β : Type} (f : α → Option β) (l : List α) (bs : List β)
    (h : mapThrowing f l = some bs) : ∀ b ∈ bs, ∃ a ∈ l, f a = some b := by
  induction l generalizing bs with
  | nil =>
    simp only [mapThrowing, Option.some.injEq] at h
    rw [← h]
    intro b hb
    cases hb
  | cons a0 as ih =>
    simp only [mapThrowing] at h
    cases hf : f a0 with
    | none => simp [hf] at h
    | some b0 =>
      cases hm : mapThrowing f as with
      | none => simp [hf, hm] at h
      | some bs0 =>
        simp only [hf, hm, Option.some.injEq] at h
        rw [← h]
        intro b hb
        rcases List.mem_cons.1 hb with hb | hb
        · exact ⟨a0, List.mem_cons_self _ _, by rw [hb, hf]⟩
        · obtain ⟨a, ha, hfa⟩ := ih bs0 hm b hb
          exact ⟨a, List.mem_cons_of_mem _ ha, hfa⟩

theorem foldl_append_eq_flatMap {α β : Type} (g : α → List β) (l : List α) (init : List β) :
    l.foldl (fun acc c => acc ++ g c) init = init ++ l.flatMap g := by
  induction l generalizing init with
  | nil => simp
  | cons a as ih => simp [ih]

/-- The hadith documents are those of the collections, in their order. -/
theorem processHadithData_eq (toLowerCase : JsString → JsString)
    (readFile : JsString → Option (List Hadith)) :
    processHadithData toLowerCase readFile =
      hadithCollections.flatMap (collectionDocs toLowerCase readFile) := by
  unfold processHadithData
  rw [foldl_append_eq_flatMap]
  rfl

theorem extractKeywords_ne_nil (toLowerCase : JsString → JsString) (text : Option JsString)
    (tags : List JsString) (h : extractKeywords toLowerCase text = some tags) : tags ≠ [] := by
  cases text with
  | none => simp [extractKeywords] at h
  | some t =>
    rw [extractKeywords_eq] at h
    simp only [Option.some.injEq] at h
    rw [← h]
    split
    · simp
    · assumption

/-- The documents of the normalizer carry at least one tag. -/
theorem processAllData_tags (toLowerCase : JsString → JsString)
    (quranFile : Option (List Verse)) (readFile : JsString → Option (List Hadith))
    (p : CanonicalDoc) (hp : p ∈ processAllData toLowerCase quranFile readFile) :
    p.tags ≠ [] := by
  unfold processAllData at hp
  rw [List.mem_append, processHadithData_eq] at hp
  rcases hp with hp | hp
  · unfold processQuranData at hp
    cases quranFile with
    | none => cases hp
    | some verses =>
      simp only at hp
      cases hm : mapThrowing (quranDoc toLowerCase) verses with
      | none => simp [hm] at hp
      | some processed =>
        simp only [hm] at hp
        obtain ⟨v, _, hv⟩ := mapThrowing_mem _ _ _ hm p hp
        unfold quranDoc at hv
        cases hk : extractKeywords toLowerCase v.english_text with
        | none => simp [hk] at hv
        | some keywords =>
          simp only [hk, Option.some.injEq] at hv
          rw [← hv]
          simp
  · rw [List.mem_flatMap] at hp
    obtain ⟨c, _, hpc⟩ := hp
    unfold collectionDocs at hpc
    cases hr : readFile c.1 with
    | none => simp [hr] at hpc
    | some hadiths =>
      simp only [hr] at hpc
      cases hm : mapThrowing (hadithDoc toLowerCase c.2) hadiths with
      | none => simp [hm] at hpc
      | some processed =>
        simp only [hm] at hpc
        obtain ⟨hd, _, hv⟩ := mapThrowing_mem _ _ _ hm p hpc
        unfold hadithDoc at hv
        cases hk : extractKeywords toLowerCase hd.text with
        | none => simp [hk] at hv
        | some keywords =>
          simp only [hk, Option.some.injEq] at hv
          rw [← hv]
          simp

/-- C16 (amended): `sanitizeDoc` keeps a list of tags as it is and gives a
document whose tags are missing or not a list the empty list, so the sanitized
tags are empty exactly when the tags are missing, not a list or the empty list.
The fallback `["general"]` is that of `extractKeywords`, whose result is never
empty, and every document the normalizer writes has sanitized tags that are not
empty. -/
theorem sanitizeDoc_tags :
    (∀ (d : Doc) (ts : List JsString), d.tags = some ts → (sanitizeDoc d).tags = ts) ∧
    (∀ d : Doc, (sanitizeDoc d).tags = [] ↔ d.tags = none ∨ d.tags = some []) ∧
    (∀ (toLowerCase : JsString → JsString) (text : Option JsString) (tags : List JsString),
      extractKeywords toLowerCase text = some tags → tags ≠ []) ∧
    (∀ (toLowerCase : JsString → JsString) (quranFile : Option (List Verse))
      (readFile : JsString → Option (List Hadith)),
      ∀ p ∈ processAllData toLowerCase quranFile readFile, (sanitizeDoc p.toDoc).tags ≠ []) := by
  refine ⟨?_, ?_, extractKeywords_ne_nil, ?_⟩
  · intro d ts h
    simp [sanitizeDoc, h]
  · intro d
    cases h : d.tags with
    | none => simp [sanitizeDoc, h]
    | some ts => simp [sanitizeDoc, h]
  · intro toLowerCase quranFile readFile p hp
    simp only [sanitizeDoc, CanonicalDoc.toDoc]
    exact processAllData_tags toLowerCase quranFile readFile p hp

/-- C16 as stated fails: a valid record without tags is sanitized to a
document with the empty list of tags, not `["general"]`, and is persisted with
it. -/
theorem sanitizeDoc_tags_counterexample :
    hasValidText untaggedDoc = true ∧
    (sanitizeDoc untaggedDoc).tags = [] ∧
    (sanitizeDoc untaggedDoc).tags ≠ [js "general"] ∧
    (loadData quietEnv 25 [untaggedDoc] blankWorld).world.mongo.map (fun d => d.tags) = [[]] := by
  decide

/-- C16 (amended), at a record without tags and at the documents the
normalizer makes of the sample files. -/
theorem sanitizeDoc_tags_witness :
    (sanitizeDoc { untaggedDoc with tags := some [js "Quran"] }).tags = [js "Quran"] ∧
    ((sanitizeDoc untaggedDoc).tags = [] ↔ untaggedDoc.tags = none ∨ untaggedDoc.tags = some []) ∧
    (∀ p ∈ processAllData asciiLower (some sampleVerses) sampleHadithFiles,
      (sanitizeDoc p.toDoc).tags ≠ []) :=
  ⟨sanitizeDoc_tags.1 { untaggedDoc with tags := some [js "Quran"] } [js "Quran"] rfl,
    sanitizeDoc_tags.2.1 untaggedDoc,
    sanitizeDoc_tags.2.2.2 asciiLower (some sampleVerses) sampleHadithFiles⟩

theorem quranDoc_isSome (toLowerCase : JsString → JsString) (v : Verse)
    (h : v.english_text ≠ none) : (quranDoc toLowerCase v).isSome = true := by
  unfold quranDoc
  cases ht : v.english_text with
  | none => exact absurd ht h
  | some t => rw [extractKeywords_eq]; rfl

theorem hadithDoc_isSome (toLowerCase : JsString → JsString) (name : JsString) (hd : Hadith)
    (h : hd.text ≠ none) : (hadithDoc toLowerCase name hd).isSome = true := by
  unfold hadithDoc
  cases ht : hd.text with
  | none => exact absurd ht h
  | some t => rw [extractKeywords_eq]; rfl

/-- C17: for raw verses that all have an English text, `processQuranData`
returns one document per verse, the i-th being the document made of the i-th
verse alone; likewise each hadith collection whose records all have a text
gives one document per record in the same order; and the combined corpus is the
Quran documents followed by the documents of the collections in the order
Sahih Bukhari, Sahih Muslim, Abu Dawud, Tirmidhi, Nasai, Ibn Majah. -/
theorem normalizer_keeps_order (toLowerCase : JsString → JsString) :
    (∀ verses : List Verse, (∀ v ∈ verses, v.english_text ≠ none) →
      (processQuranData toLowerCase (some verses)).length = verses.length ∧
      ∀ (i : Nat) (v : Verse), verses[i]? = some v →
        (processQuranData toLowerCase (some verses))[i]? = quranDoc toLowerCase v ∧
        (quranDoc toLowerCase v).isSome = true) ∧
    (∀ (readFile : JsString → Option (List Hadith)) (collection : JsString × JsString)
      (hadiths : List Hadith), readFile collection.1 = some hadiths →
      (∀ hd ∈ hadiths, hd.text ≠ none) →
        (collectionDocs toLowerCase readFile collection).length = hadiths.length ∧
        ∀ (i : Nat) (hd : Hadith), hadiths[i]? = some hd →
          (collectionDocs toLowerCase readFile collection)[i]? =
            hadithDoc toLowerCase collection.2 hd ∧
          (hadithDoc toLowerCase collection.2 hd).isSome = true) ∧
    (∀ (quranFile : Option (List Verse)) (readFile : JsString → Option (List Hadith)),
      processAllData toLowerCase quranFile readFile =
        processQuranData toLowerCase quranFile ++
          hadithCollections.flatMap (collectionDocs toLowerCase readFile)) ∧
    hadithCollections.map (fun collection => collection.2) =
      [js "Sahih Bukhari", js "Sahih Muslim", js "Abu Dawud", js "Tirmidhi",
        js "Nasa" ++ [39] ++ js "i", js "Ibn Majah"] := by
  refine ⟨?_, ?_, ?_, by decide⟩
  · intro verses hwf
    obtain ⟨bs, hbs, hlen, hget⟩ := mapThrowing_spec (quranDoc toLowerCase) verses
      (fun v hv => quranDoc_isSome toLowerCase v (hwf v hv))
    have he : processQuranData toLowerCase (some verses) = bs := by
      simp [processQuranData, hbs]
    rw [he]
    refine ⟨hlen, ?_⟩
    intro i v hi
    exact ⟨hget i v hi, quranDoc_isSome toLowerCase v (hwf v (List.getElem?_mem hi))⟩
  · intro readFile collection hadiths hfile hwf
    obtain ⟨bs, hbs, hlen, hget⟩ := mapThrowing_spec (hadithDoc toLowerCase collection.2) hadiths
      (fun hd hh => hadithDoc_isSome toLowerCase collection.2 hd (hwf hd hh))
    have he : collectionDocs toLowerCase readFile collection = bs := by
      simp [collectionDocs, hfile, hbs]
    rw [he]
    refine ⟨hlen, ?_⟩
    intro i hd hi
    exact ⟨hget i hd hi,
      hadithDoc_isSome toLowerCase collection.2 hd (hwf hd (List.getElem?_mem hi))⟩
  · intro quranFile readFile
    rw [processAllData, processHadithData_eq]

/-- C17, at the sample files: two verses and one hadith of Sahih Muslim give
three documents, in this order. -/
theorem normalizer_keeps_order_witness :
    (processQuranData asciiLower (some sampleVerses)).length = sampleVerses.length ∧
    (processAllData asciiLower (some sampleVerses) sampleHadithFiles).map
      (fun p => p.reference) =
      [js "Surah Al-Fatihah 1:1", js "Surah Al-Fatihah 1:2", js "Sahih Muslim 12"] ∧
    processAllData asciiLower (some sampleVerses) sampleHadithFiles =
      processQuranData asciiLower (some sampleVerses) ++
        hadithCollections.flatMap (collectionDocs asciiLower sampleHadithFiles) :=
  ⟨((normalizer_keeps_order asciiLower).1 sampleVerses (by decide)).1, by decide,
    (normalizer_keeps_order asciiLower).2.2.1 (some sampleVerses) sampleHadithFiles⟩

theorem toPoints_getElem?_some (es : List Entry) (q : Int) (i : Nat) (e : Entry)
    (h : es[i]? = some e) :
    (toPoints es q)[i]? =
      some (Point.mk (q + (i : Int)) e.embedding (Payload.mk e.text e.source_type e.reference)) := by
  simp [toPoints, List.getElem?_mapIdx, h]

/-- The world effect of `insertDocuments` in terms of the request it sends. -/
theorem insertDocuments_eq_request (env : Env) (n : Nat) (ds : List Entry) (s : Int)
    (w : World) :
    insertDocuments env n ds s w =
      match pointsRequest (some ds) (some s) with
      | none => some w
      | some points =>
        if env.upsertThrows n then none
        else
          match w.qdrant with
          | none => none
          | some store => some { w with qdrant := some (upsertPoints store points) } := by
  cases ds with
  | nil => simp [insertDocuments, pointsRequest]
  | cons d ds => simp [insertDocuments, pointsRequest]

/-- C21: for a non-empty list of n documents and a start id s (1 when left
out), `insertDocuments` sends one request whose points list has length n and
whose i-th point has id s + i, the embedding of the i-th document as vector
and its text, source_type and reference as payload; the ids are the n distinct
integers s, ..., s + n - 1 in this order. For an empty or a missing list no
request is sent and the vector index stays as it is. -/
theorem insertDocuments_points :
    (∀ (ds : List Entry) (startId : Option Int), ds ≠ [] →
      ∃ points, pointsRequest (some ds) startId = some points ∧
        points.length = ds.length ∧
        (∀ (i : Nat) (e : Entry), ds[i]? = some e →
          points[i]? = some (Point.mk (startId.getD 1 + (i : Int)) e.embedding
            (Payload.mk e.text e.source_type e.reference))) ∧
        points.map (fun p => p.id) =
          (List.range ds.length).map (fun (i : Nat) => startId.getD 1 + (i : Int)) ∧
        (points.map (fun p => p.id)).Nodup) ∧
    (∀ startId : Option Int, pointsRequest none startId = none ∧
      pointsRequest (some []) startId = none) ∧
    (∀ startId : Option Int, startId.getD 1 = match startId with
      | some s => s
      | none => 1) ∧
    (∀ (env : Env) (n : Nat) (s : Int) (w : World), insertDocuments env n [] s w = some w) ∧
    (∀ (env : Env) (n : Nat) (ds : List Entry) (s : Int) (w : World) (store : List Point),
      ds ≠ [] → env.upsertThrows n = false → w.qdrant = some store →
        ∃ points, pointsRequest (some ds) (some s) = some points ∧
          insertDocuments env n ds s w =
            some { w with qdrant := some (upsertPoints store points) }) := by
  refine ⟨?_, fun _ => ⟨rfl, rfl⟩, ?_, fun _ _ _ _ => rfl, ?_⟩
  · intro ds startId hne
    cases ds with
    | nil => exact absurd rfl hne
    | cons d ds =>
      refine ⟨toPoints (d :: ds) (startId.getD 1), rfl, toPoints_length _ _, ?_,
        toPoints_ids _ _, toPoints_ids_nodup _ _⟩
      intro i e hi
      exact toPoints_getElem?_some _ _ i e hi
  · intro startId
    cases startId <;> rfl
  · intro env n ds s w store hne hthrow hq
    cases ds with
    | nil => exact absurd rfl hne
    | cons d ds =>
      refine ⟨toPoints (d :: ds) s, rfl, ?_⟩
      rw [insertDocuments_some env n (d :: ds) s w store hthrow hq]

/-- C21, at two documents and the default start id: points with ids 1 and 2. -/
theorem insertDocuments_points_witness :
    pointsRequest (some sampleEntries) none =
      some [Point.mk 1 [1, 2] (Payload.mk (js "first text") (js "Quran") (js "Quran 1:1")),
        Point.mk 2 [3, 4] (Payload.mk (js "second text") (js "Hadith") (js "Muslim 7"))] ∧
    (∃ points, pointsRequest (some sampleEntries) (some 5) = some points ∧
      points.length = sampleEntries.length ∧
      (∀ (i : Nat) (e : Entry), sampleEntries[i]? = some e →
        points[i]? = some (Point.mk ((some (5 : Int)).getD 1 + (i : Int)) e.embedding
          (Payload.mk e.text e.source_type e.reference))) ∧
      points.map (fun p => p.id) =
        (List.range sampleEntries.length).map
          (fun (i : Nat) => (some (5 : Int)).getD 1 + (i : Int)) ∧
      (points.map (fun p => p.id)).Nodup) :=
  ⟨by decide, insertDocuments_points.1 sampleEntries (some 5) (by decide)⟩

theorem createSucceeds_of_docSucceeds (env : Env) (k : Nat) (d : Doc)
    (h : docSucceeds env k d = true) : createSucceeds env k d = true := by
  unfold docSucceeds at h
  simp only [Bool.and_eq_true] at h
  exact h.1

theorem jsOrLit_idem (a : Option JsString) (lit : JsString) :
    jsOrLit (some (jsOrLit a lit)) lit = jsOrLit a lit := by
  unfold jsOrLit
  rcases a with _ | _ | ⟨c, cs⟩
  · cases lit <;> rfl
  · cases lit <;> rfl
  · rfl

/-- C29: on a document that passes `hasValidText`, sanitizing the sanitized
document gives the sanitized document again, the sanitized document passes
`hasValidText`, and its english_text is the text `hasValidText` measured on the
document: english_text if non-empty, else arabic_text. -/
theorem sanitizeDoc_idempotent (d : Doc) (h : hasValidText d = true) :
    sanitizeDoc (sanitizeDoc d).toDoc = sanitizeDoc d ∧
    hasValidText (sanitizeDoc d).toDoc = true ∧
    (sanitizeDoc d).english_text = jsOrLit (jsOr d.english_text d.arabic_text) [] ∧
    (sanitizeDoc d).english_text = filterText d := by
  obtain ⟨h1, h2, h3⟩ := valid_text_facts d h
  obtain ⟨c, cs, hcs⟩ : ∃ c cs, (sanitizeDoc d).english_text = c :: cs := by
    cases he : (sanitizeDoc d).english_text with
    | nil => rw [h1] at he; exact absurd he h2
    | cons c cs => exact ⟨c, cs, rfl⟩
  have htext : jsOrLit (jsOr d.english_text d.arabic_text) [] = filterText d := by
    rcases d with ⟨st, rf, ar, en, cx, tg⟩
    rcases en with _ | _ | ⟨c, cs⟩ <;> rcases ar with _ | _ | ⟨a, as⟩ <;>
      simp [filterText, jsOrLit, jsOr, truthy]
  refine ⟨?_, ?_, by rw [htext, h1], h1⟩
  · have e1 : (sanitizeDoc (sanitizeDoc d).toDoc).english_text = (sanitizeDoc d).english_text := by
      simp only [sanitizeDoc, SanDoc.toDoc] at hcs ⊢
      rw [hcs]
      simp [jsOrLit, jsOr, truthy]
    have e2 : (sanitizeDoc (sanitizeDoc d).toDoc).source_type = (sanitizeDoc d).source_type := by
      simp only [sanitizeDoc, SanDoc.toDoc, jsOrLit_idem]
    have e3 : (sanitizeDoc (sanitizeDoc d).toDoc).reference = (sanitizeDoc d).reference := by
      simp only [sanitizeDoc, SanDoc.toDoc, jsOrLit_idem]
    have e4 : (sanitizeDoc (sanitizeDoc d).toDoc).arabic_text = (sanitizeDoc d).arabic_text := by
      simp only [sanitizeDoc, SanDoc.toDoc, jsOrLit_idem]
    have e5 : (sanitizeDoc (sanitizeDoc d).toDoc).context = (sanitizeDoc d).context := by
      simp only [sanitizeDoc, SanDoc.toDoc, jsOrLit_idem]
    have e6 : (sanitizeDoc (sanitizeDoc d).toDoc).tags = (sanitizeDoc d).tags := by
      simp only [sanitizeDoc, SanDoc.toDoc]
    cases hs : sanitizeDoc (sanitizeDoc d).toDoc
    cases hd : sanitizeDoc d
    rw [hs, hd] at e1 e2 e3 e4 e5 e6
    simp only at e1 e2 e3 e4 e5 e6
    rw [e1, e2, e3, e4, e5, e6]
  · rw [hasValidText_eq]
    have : filterText (sanitizeDoc d).toDoc = (sanitizeDoc d).english_text := by
      simp only [filterText, SanDoc.toDoc]
      rw [hcs]
    rw [this, h1]
    simpa using h3

/-- C29, at a record whose english_text is missing and whose arabic_text has 9
characters. -/
theorem sanitizeDoc_idempotent_witness :
    sanitizeDoc (sanitizeDoc
      { verseDoc 1 with english_text := none, arabic_text := some (js "bismillah") }).toDoc =
      sanitizeDoc { verseDoc 1 with english_text := none, arabic_text := some (js "bismillah") } ∧
    (sanitizeDoc
      { verseDoc 1 with english_text := none, arabic_text := some (js "bismillah") }).english_text =
      js "bismillah" :=
  ⟨(sanitizeDoc_idempotent
      { verseDoc 1 with english_text := none, arabic_text := some (js "bismillah") }
      (by decide)).1,
    by decide⟩

theorem loadProgress_pos_iff (w : World) :
    0 < loadProgress w ↔
      ∃ k : Int, 0 < k ∧ w.progressFile = some (ProgressContent.object (some k)) := by
  unfold loadProgress
  cases h : w.progressFile with
  | none => simp
  | some content =>
    cases content with
    | unparsable => simp
    | object lastIndex =>
      cases lastIndex with
      | none => simp
      | some k =>
        simp only [Option.some.injEq, ProgressContent.object.injEq]
        by_cases hk : k = 0
        · rw [if_pos hk]
          constructor
          · intro h0; omega
          · rintro ⟨k', hk', rfl⟩; omega
        · rw [if_neg hk]
          constructor
          · intro h0; exact ⟨k, h0, rfl⟩
          · rintro ⟨k', hk', rfl⟩; exact hk'

/-- C22 (amended): the loader resumes, entering the batch loop with the
stores as it found them, exactly when the checkpoint file is present, parses
and holds a lastIndex greater than 0. In every other case (file absent, not
parsable, lastIndex missing, 0 or negative) it takes the fresh-start branch:
the collection is deleted and created, the document store is cleared, and the
batch loop, if reached, finds an empty document store. -/
theorem resume_iff_positive_checkpoint (env : Env) (batchSize : Nat) (allDocuments : List Doc)
    (w : World) :
    (0 < (loadData env batchSize allDocuments w).resumeFrom ↔
      ∃ k : Int, 0 < k ∧ w.progressFile = some (ProgressContent.object (some k))) ∧
    (0 < (loadData env batchSize allDocuments w).resumeFrom →
      (loadData env batchSize allDocuments w).atLoop = some w) ∧
    (¬ 0 < (loadData env batchSize allDocuments w).resumeFrom →
      (loadData env batchSize allDocuments w).atLoop =
        (createCollection env (deleteCollection env w)).bind (KnowledgeSource.deleteMany env) ∧
      ∀ w0, (loadData env batchSize allDocuments w).atLoop = some w0 →
        w0.mongo = [] ∧ w0.qdrant.isSome = true) ∧
    (w.progressFile = none → ¬ 0 < (loadData env batchSize allDocuments w).resumeFrom) := by
  obtain ⟨_, _, f3, _, f5⟩ := loadData_fields env batchSize allDocuments w
  rw [f3, f5]
  refine ⟨loadProgress_pos_iff w, ?_, ?_, ?_⟩
  · intro h
    unfold setupStores
    rw [if_pos h]
  · intro h
    have hset : setupStores env (loadProgress w) w =
        (createCollection env (deleteCollection env w)).bind (KnowledgeSource.deleteMany env) := by
      unfold setupStores
      rw [if_neg h]
      cases createCollection env (deleteCollection env w) <;> rfl
    refine ⟨hset, ?_⟩
    intro w0 hw0
    obtain ⟨hm, hq⟩ := setupStores_qdrant env (loadProgress w) w w0 h hw0
    refine ⟨hm, ?_⟩
    rcases hq with ⟨_, hq⟩ | ⟨_, ⟨_, hq⟩ | ⟨store, _, hq⟩⟩ <;> rw [hq] <;> rfl
  · intro h
    simp [loadProgress, h]

/-- C22 as stated fails: with a checkpoint file present that holds lastIndex
0, or that cannot be parsed, the loader takes the fresh-start branch and
resets both stores. -/
theorem resume_when_present_counterexample :
    zeroCheckpointWorld.progressFile ≠ none ∧
    (loadData quietEnv 25 twoVerses zeroCheckpointWorld).atLoop =
      some { mongo := [], qdrant := some [],
             progressFile := some (ProgressContent.object (some 0)) } ∧
    (loadData quietEnv 25 twoVerses zeroCheckpointWorld).atLoop ≠ some zeroCheckpointWorld ∧
    brokenCheckpointWorld.progressFile ≠ none ∧
    (loadData quietEnv 25 twoVerses brokenCheckpointWorld).atLoop ≠ some brokenCheckpointWorld := by
  decide

/-- C22 (amended), at a checkpoint file that holds lastIndex 1. -/
theorem resume_iff_positive_checkpoint_witness :
    0 < (loadData quietEnv 25 twoVerses resumedWorld).resumeFrom ∧
    (loadData quietEnv 25 twoVerses resumedWorld).atLoop = some resumedWorld ∧
    ¬ 0 < (loadData quietEnv 25 twoVerses zeroCheckpointWorld).resumeFrom ∧
    (∀ w0, (loadData quietEnv 25 twoVerses zeroCheckpointWorld).atLoop = some w0 →
      w0.mongo = [] ∧ w0.qdrant.isSome = true) :=
  ⟨by decide,
    (resume_iff_positive_checkpoint quietEnv 25 twoVerses resumedWorld).2.1 (by decide),
    by decide,
    ((resume_iff_positive_checkpoint quietEnv 25 twoVerses zeroCheckpointWorld).2.2.1
      (by decide)).2⟩

/-- C28 at a checkpoint file that holds lastIndex -2, over three valid
documents: the loader takes the fresh-start branch and resets the stores, but
its documents are the last two valid documents only, the first id it assigns is
-1, and the checkpoint it writes is 0. With a loaded checkpoint of 0 the
documents of the run are all valid documents and the first id is 1. -/
theorem negative_checkpoint_run :
    (loadData quietEnv 25 threeVerses negativeCheckpointWorld).resumeFrom = -2 ∧
    (loadData quietEnv 25 threeVerses negativeCheckpointWorld).atLoop =
      some { mongo := [], qdrant := some [],
             progressFile := some (ProgressContent.object (some (-2))) } ∧
    (loadData quietEnv 25 threeVerses negativeCheckpointWorld).validDocs = threeVerses ∧
    (loadData quietEnv 25 threeVerses negativeCheckpointWorld).docs =
      [verseDoc 2, verseDoc 3] ∧
    attemptedDocs (loadData quietEnv 25 threeVerses negativeCheckpointWorld).logs =
      [verseDoc 2, verseDoc 3] ∧
    (loadData quietEnv 25 threeVerses negativeCheckpointWorld).logs.map (fun l => l.startId) =
      [-1] ∧
    (upsertedPoints (loadData quietEnv 25 threeVerses negativeCheckpointWorld).logs).map
      (fun p => p.id) = [-1, 0] ∧
    checkpointsWritten (loadData quietEnv 25 threeVerses negativeCheckpointWorld).logs = [0] ∧
    (∀ (env : Env) (batchSize : Nat) (allDocuments : List Doc) (w : World),
      loadProgress w = 0 →
        (loadData env batchSize allDocuments w).docs =
          (loadData env batchSize allDocuments w).validDocs ∧
        ∀ p, (upsertedPoints (loadData env batchSize allDocuments w).logs)[0]? = some p →
          p.id = 1) := by
  refine ⟨by decide, by decide, by decide, by decide, by decide, by decide, by decide,
    by decide, ?_⟩
  intro env batchSize allDocuments w h0
  obtain ⟨f1, _, f3, f4, _⟩ := loadData_fields env batchSize allDocuments w
  refine ⟨by rw [f4, f1, h0, jsSlice_zero], ?_⟩
  intro p hp
  have hpre := loadData_upserted_prefix env batchSize allDocuments w
  obtain ⟨e, _, hpe⟩ := toPoints_getElem? _ _ 0 p (prefix_getElem? hpre 0 p hp)
  rw [hpe, f3, h0]
  rfl

/-- C27 at a record whose text has exactly 5 characters: `hasValidText`
rejects it; it accepts a text only from 6 characters on. -/
theorem five_characters_rejected :
    (jsTrim (filterText fiveCharDoc)).length = 5 ∧
    hasValidText fiveCharDoc = false ∧
    (∀ d : Doc, hasValidText d = true → 6 ≤ (jsTrim (filterText d)).length) := by
  refine ⟨by decide, by decide, ?_⟩
  intro d h
  rw [hasValidText_eq] at h
  have : 5 < (jsTrim (filterText d)).length := by simpa using h
  omega

/-- C26 at the default budget with every attempt failing: `safeFetch` makes
three requests and waits twice, 1000 and 2000 milliseconds; it throws right
after the third failure, without a third delay. -/
theorem default_budget_two_delays :
    (safeFetch (alwaysStatus 503) none).requests = 3 ∧
    (safeFetch (alwaysStatus 503) none).delays = [1000, 2000] ∧
    (safeFetch (alwaysStatus 503) none).delays ≠ [1000, 2000, 3000] ∧
    (safeFetch (alwaysStatus 503) none).result = FetchResult.threw (FetchError.http 503) := by
  decide

theorem mapThrowing_none {α β : Type} (f : α → Option β) (l : List α)
    (h : ∃ a ∈ l, f a = none) : mapThrowing f l = none := by
  induction l with
  | nil =>
    obtain ⟨a, ha, _⟩ := h
    cases ha
  | cons a0 as ih =>
    obtain ⟨a, ha, hfa⟩ := h
    simp only [mapThrowing]
    cases hf : f a0 with
    | none => rfl
    | some b =>
      rcases List.mem_cons.1 ha with ha | ha
      · rw [ha, hf] at hfa; cases hfa
      · rw [ih ⟨a, ha, hfa⟩]

/-- C24: the normalizer of a collection is total, every error of reading,
parsing or the callback being caught. For records that all have a text it
returns one document per record; when the file cannot be read or parsed, or a
record has no text, it returns no document for that collection, and the other
collections are not affected. The Quran result is empty only in these cases or
when there is no verse. -/
theorem normalizing_never_raises (toLowerCase : JsString → JsString) :
    processQuranData toLowerCase none = [] ∧
    (∀ verses : List Verse, (∃ v ∈ verses, v.english_text = none) →
      processQuranData toLowerCase (some verses) = []) ∧
    (∀ verses : List Verse, (∀ v ∈ verses, v.english_text ≠ none) →
      (processQuranData toLowerCase (some verses)).length = verses.length) ∧
    (∀ (readFile : JsString → Option (List Hadith)) (collection : JsString × JsString),
      readFile collection.1 = none → collectionDocs toLowerCase readFile collection = []) ∧
    (∀ (readFile : JsString → Option (List Hadith)) (collection : JsString × JsString)
      (hadiths : List Hadith), readFile collection.1 = some hadiths →
      (∃ hd ∈ hadiths, hd.text = none) →
        collectionDocs toLowerCase readFile collection = []) ∧
    (∀ (readFile : JsString → Option (List Hadith)) (collection : JsString × JsString)
      (hadiths : List Hadith), readFile collection.1 = some hadiths →
      (∀ hd ∈ hadiths, hd.text ≠ none) →
        (collectionDocs toLowerCase readFile collection).length = hadiths.length) ∧
    (∀ (quranFile : Option (List Verse)) (readFile : JsString → Option (List Hadith)),
      processAllData toLowerCase quranFile readFile =
        processQuranData toLowerCase quranFile ++
          hadithCollections.flatMap (collectionDocs toLowerCase readFile)) ∧
    (∀ verses : List Verse, processQuranData toLowerCase (some verses) = [] ↔
      verses = [] ∨ ∃ v ∈ verses, v.english_text = none) := by
  have hwell : ∀ verses : List Verse, (∀ v ∈ verses, v.english_text ≠ none) →
      (processQuranData toLowerCase (some verses)).length = verses.length := by
    intro verses hwf
    obtain ⟨bs, hbs, hlen, _⟩ := mapThrowing_spec (quranDoc toLowerCase) verses
      (fun v hv => quranDoc_isSome toLowerCase v (hwf v hv))
    simp [processQuranData, hbs, hlen]
  have hbad : ∀ verses : List Verse, (∃ v ∈ verses, v.english_text = none) →
      processQuranData toLowerCase (some verses) = [] := by
    rintro verses ⟨v, hv, hnone⟩
    have : mapThrowing (quranDoc toLowerCase) verses = none :=
      mapThrowing_none _ _ ⟨v, hv, by simp [quranDoc, hnone, extractKeywords]⟩
    simp [processQuranData, this]
  refine ⟨rfl, hbad, hwell, ?_, ?_, ?_, ?_, ?_⟩
  · intro readFile collection hfile
    simp [collectionDocs, hfile]
  · rintro readFile collection hadiths hfile ⟨hd, hh, hnone⟩
    have : mapThrowing (hadithDoc toLowerCase collection.2) hadiths = none :=
      mapThrowing_none _ _ ⟨hd, hh, by simp [hadithDoc, hnone, extractKeywords]⟩
    simp [collectionDocs, hfile, this]
  · intro readFile collection hadiths hfile hwf
    obtain ⟨bs, hbs, hlen, _⟩ := mapThrowing_spec (hadithDoc toLowerCase collection.2) hadiths
      (fun hd hh => hadithDoc_isSome toLowerCase collection.2 hd (hwf hd hh))
    simp [collectionDocs, hfile, hbs, hlen]
  · intro quranFile readFile
    rw [processAllData, processHadithData_eq]
  · intro verses
    constructor
    · intro hempty
      by_cases hwf : ∀ v ∈ verses, v.english_text ≠ none
      · left
        have := hwell verses hwf
        rw [hempty] at this
        exact List.eq_nil_of_length_eq_zero this.symm
      · right
        simp only [not_forall, not_not] at hwf
        obtain ⟨v, hv, hnone⟩ := hwf
        exact ⟨v, hv, hnone⟩
    · rintro (hnil | hex)
      · rw [hnil]; rfl
      · exact hbad verses hex

/-- C24, at a Sahih Muslim file one of whose two records has no text: no
hadith document, and the two Quran documents are still there. -/
theorem normalizing_never_raises_witness :
    collectionDocs asciiLower brokenHadithFiles (js "hadith_muslim.json", js "Sahih Muslim") =
      [] ∧
    (processAllData asciiLower (some sampleVerses) brokenHadithFiles).length = 2 ∧
    (processQuranData asciiLower (some sampleVerses)).length = sampleVerses.length :=
  ⟨(normalizing_never_raises asciiLower).2.2.2.2.1 brokenHadithFiles
      (js "hadith_muslim.json", js "Sahih Muslim") _ rfl
      ⟨{ hadithnumber := JsVal.number 13, text := none, arabictext := none }, by decide, rfl⟩,
    by decide,
    (normalizing_never_raises asciiLower).2.2.1 sampleVerses (by decide)⟩

/-! ## The raw Quran file after a fetch -/

/-- A call of `fetchQuranData` that took its result from the CDN returns a
list and has written exactly that list to the raw file. -/
theorem fetchQuranData_cdn (fetch : QuranUrl → Nat → FetchOutcome QuranBody)
    (writeThrows : Bool) (fuel : Nat) (file : Option (List Verse))
    (h : (fetchQuranData fetch writeThrows fuel file).source = QuranSource.cdn) :
    ∃ allVerses, (fetchQuranData fetch writeThrows fuel file).result = CallEnd.returned allVerses ∧
      (fetchQuranData fetch writeThrows fuel file).file = some allVerses := by
  unfold fetchQuranData at h ⊢
  cases hc : fetchFromCdn fetch with
  | none => simp [hc] at h
  | some allVerses =>
    cases writeThrows with
    | true => simp [hc, saveToFile] at h
    | false => exact ⟨allVerses, by simp [saveToFile], by simp [saveToFile]⟩

/-- A call of `fetchQuranData` that fell back to quran.com leaves the raw file
as it was, whatever it returns. -/
theorem fetchQuranData_quranCom (fetch : QuranUrl → Nat → FetchOutcome QuranBody)
    (writeThrows : Bool) (fuel : Nat) (file : Option (List Verse))
    (h : (fetchQuranData fetch writeThrows fuel file).source = QuranSource.quranCom) :
    (fetchQuranData fetch writeThrows fuel file).file = file ∧
      (fetchQuranData fetch writeThrows fuel file).result = fetchQuranFromQuranCom fetch fuel := by
  unfold fetchQuranData at h ⊢
  cases hc : fetchFromCdn fetch with
  | none => simp
  | some allVerses =>
    cases writeThrows with
    | true => simp [saveToFile]
    | false => simp [hc, saveToFile] at h

/-- Claim C23, evaluated: with the CDN answering status 503 to every request
and quran.com serving one verse, `fetchQuranData` returns that verse from the
fallback source while `quran_verses_complete.json` still does not exist, so the
normalizer reads nothing, although the returned list would give it a document;
with the CDN up the same verse is returned and is in the file. -/
theorem fallback_verses_not_saved :
    (fetchQuranData cdnDownNet false 5 none).result = CallEnd.returned [openingVerse] ∧
    (fetchQuranData cdnDownNet false 5 none).source = QuranSource.quranCom ∧
    (fetchQuranData cdnDownNet false 5 none).file = none ∧
    processQuranData asciiLower (fetchQuranData cdnDownNet false 5 none).file = [] ∧
    (processQuranData asciiLower (some [openingVerse])).length = 1 ∧
    (fetchQuranData cdnUpNet false 5 none).result = CallEnd.returned [openingVerse] ∧
    (fetchQuranData cdnUpNet false 5 none).file = some [openingVerse] := by
  refine ⟨?_, ?_, ?_, ?_, ?_, ?_, ?_⟩ <;> decide

/-! ## The stores after each batch -/

/-- The records of a loop run with less fuel are the first records of the loop
run with more. -/
theorem batchLoop_logs_take (env : Env) (b : Nat) (r : Int) (docs : List Doc) :
    ∀ (fuel extra i : Nat) (s : LoopState),
      (batchLoop env b r docs fuel i s).logs =
        (batchLoop env b r docs (fuel + extra) i s).logs.take fuel := by
  intro fuel
  induction fuel with
  | zero => intro extra i s; simp [batchLoop]
  | succ fuel ih =>
    intro extra i s
    have e : fuel + 1 + extra = (fuel + extra) + 1 := by omega
    rw [e]
    by_cases h : i < docs.length
    · cases hins : insertDocuments env (i / b + 1) (pushedFrom env i ((docs.drop i).take b))
        s.qdrantId (worldAfterDocs env b docs i s.world) with
      | none =>
        rw [batchLoop_fatal env b r docs fuel i s h hins,
          batchLoop_fatal env b r docs (fuel + extra) i s h hins]
        simp
      | some w2 =>
        rw [batchLoop_cons env b r docs fuel i s w2 h hins,
          batchLoop_cons env b r docs (fuel + extra) i s w2 h hins]
        simp only [List.take_succ_cons, List.cons.injEq, true_and]
        exact ih extra (i + b) _
    · rw [batchLoop_done env b r docs fuel i s h, batchLoop_done env b r docs (fuel + extra) i s h]
      simp

/-- A loop makes at most one record per unit of fuel. -/
theorem batchLoop_logs_length (env : Env) (b : Nat) (r : Int) (docs : List Doc) (fuel i : Nat)
    (s : LoopState) : (batchLoop env b r docs fuel i s).logs.length ≤ fuel := by
  have h := batchLoop_logs_take env b r docs fuel 0 i s
  have h2 := congrArg List.length h
  simp only [Nat.add_zero, List.length_take] at h2
  omega

/-- The record with index `j` of a loop is the last record of the loop run
with fuel `j + 1`. -/
theorem batchLoop_logs_prefix (env : Env) (b : Nat) (r : Int) (docs : List Doc) (fuel i j : Nat)
    (s : LoopState) (l : BatchLog) (hl : (batchLoop env b r docs fuel i s).logs[j]? = some l) :
    (batchLoop env b r docs (j + 1) i s).logs =
      (batchLoop env b r docs fuel i s).logs.take j ++ [l] := by
  have hj : j < (batchLoop env b r docs fuel i s).logs.length := by
    by_contra hc
    rw [List.getElem?_eq_none (by omega)] at hl
    cases hl
  have hf := batchLoop_logs_length env b r docs fuel i s
  have h := batchLoop_logs_take env b r docs (j + 1) (fuel - (j + 1)) i s
  have e : j + 1 + (fuel - (j + 1)) = fuel := by omega
  rw [e] at h
  rw [h, List.take_succ, hl]
  rfl

/-- The checkpoint a world holds, read back. -/
theorem loadProgress_of_file (w : World) (v : Int)
    (h : w.progressFile = some (ProgressContent.object (some v))) : loadProgress w = v := by
  unfold loadProgress
  rw [h]
  simp only
  split
  · rename_i h0; exact h0.symm
  · rfl

theorem getElem?_take_concat {α : Type} (L : List α) (j : Nat) (l : α) (hj : j < L.length) :
    (L.take j ++ [l])[j]? = some l := by
  have hlen : (L.take j).length = j := by rw [List.length_take]; omega
  rw [List.getElem?_append_right (by omega), hlen]
  simp

/-- The loop variables after `j` iterations of a run whose step 4 returns. -/
theorem stateAfterBatches_of_setup (env : Env) (b : Nat) (allDocuments : List Doc) (w w0 : World)
    (hs : setupStores env (loadProgress w) w = some w0) (j : Nat) :
    stateAfterBatches env b allDocuments w j =
      some (batchLoop env b (loadProgress w)
        (jsSlice (allDocuments.filter hasValidText) (loadProgress w)) j 0
        { world := w0, loaded := loadProgress w, qdrantId := loadProgress w + 1,
          errorCount := 0 }).state := by
  simp only [stateAfterBatches, hs]

/-- After the iteration that made record `j` of a run and wrote a checkpoint
value, the checkpoint file holds that value. -/
theorem stateAfterBatches_file (env : Env) (b : Nat) (allDocuments : List Doc) (w : World)
    (j : Nat) (l : BatchLog) (v : Int)
    (hl : (loadData env b allDocuments w).logs[j]? = some l) (hv : l.saved = some v) :
    ∃ s1, stateAfterBatches env b allDocuments w (j + 1) = some s1 ∧
      s1.world.progressFile = some (ProgressContent.object (some v)) := by
  cases hs : setupStores env (loadProgress w) w with
  | none =>
    rw [(loadData_of_setup_none env b allDocuments w hs).1] at hl
    simp at hl
  | some w0 =>
    rw [(loadData_of_setup_some env b allDocuments w w0 hs).1] at hl
    refine ⟨_, stateAfterBatches_of_setup env b allDocuments w w0 hs (j + 1), ?_⟩
    rw [progressFile_loop, batchLoop_logs_prefix env b (loadProgress w) _ _ 0 j _ l hl,
      checkpointsWritten_append]
    simp [checkpointsWritten, hv]

/-- Before the first iteration the stores are those step 4 left, and the
checkpoint file is as the run found it. -/
theorem stateAfterBatches_zero (env : Env) (b : Nat) (allDocuments : List Doc) (w w0 : World)
    (hs : setupStores env (loadProgress w) w = some w0) :
    ∃ s0, stateAfterBatches env b allDocuments w 0 = some s0 ∧ s0.world = w0 ∧
      s0.world.progressFile = w.progressFile ∧ s0.qdrantId = loadProgress w + 1 ∧
      s0.errorCount = 0 := by
  refine ⟨_, stateAfterBatches_of_setup env b allDocuments w w0 hs 0, rfl, ?_, rfl, rfl⟩
  exact setupStores_progressFile env _ w w0 hs

/-- What a call of `insertDocuments` that returns has done to the stores. -/
theorem insertDocuments_result (env : Env) (n : Nat) (es : List Entry) (q : Int) (w w2 : World)
    (h : insertDocuments env n es q w = some w2) :
    w2.mongo = w.mongo ∧
    w2.qdrant = w.qdrant.map (fun store => upsertPoints store (toPoints es q)) ∧
    (0 < es.length → w.qdrant.isSome = true) := by
  unfold insertDocuments at h
  split at h
  · rename_i h0
    simp only [Option.some.injEq] at h
    rw [← h, List.eq_nil_of_length_eq_zero h0]
    refine ⟨rfl, ?_, by simp⟩
    simp only [toPoints, List.mapIdx_nil, upsertPoints, List.foldl_nil]
    cases w.qdrant <;> rfl
  · split at h
    · cases h
    · split at h
      · cases h
      · rename_i store hq
        simp only [Option.some.injEq] at h
        rw [← h]
        exact ⟨rfl, by simp [hq], fun _ => by simp [hq]⟩

theorem persistedFrom_eq_created_calls (env : Env) (ds : List Doc) (k : Nat) :
    persistedFrom env k ds =
      ((callsFrom env k ds).filter (fun c => c.createOk)).map (fun c => c.created) := by
  induction ds generalizing k with
  | nil => rfl
  | cons d ds ih =>
    simp only [persistedFrom, callsFrom]
    by_cases hs : createSucceeds env k d = true
    · rw [if_pos hs, List.filter_cons_of_pos (by simpa [callOf] using hs), List.map_cons,
        ih (k + 1)]
      rfl
    · rw [if_neg hs, List.filter_cons_of_neg (by simpa [callOf] using hs)]
      exact ih (k + 1)

/-- One iteration of the loop: the record with index `fuel` starts at the id
the loop variables held after `fuel` iterations, and, when its points request
did not fail, the stores after it are the stores before it with the documents
the store accepted added and the points of the record upserted. -/
theorem batchLoop_step (env : Env) (b : Nat) (r : Int) (docs : List Doc) :
    ∀ (fuel i : Nat) (s : LoopState) (l : BatchLog),
      (batchLoop env b r docs (fuel + 1) i s).logs[fuel]? = some l →
        l.startId = (batchLoop env b r docs fuel i s).state.qdrantId ∧
        (l.upsertOk = true →
          (batchLoop env b r docs (fuel + 1) i s).state.world.qdrant =
            (batchLoop env b r docs fuel i s).state.world.qdrant.map
              (fun store => upsertPoints store (l.points.getD [])) ∧
          (l.points.isSome = true →
            (batchLoop env b r docs fuel i s).state.world.qdrant.isSome = true) ∧
          (batchLoop env b r docs (fuel + 1) i s).state.world.mongo =
            (batchLoop env b r docs fuel i s).state.world.mongo ++
              (l.calls.filter (fun c => c.createOk)).map (fun c => c.created) ∧
          (batchLoop env b r docs (fuel + 1) i s).state.errorCount =
            (batchLoop env b r docs fuel i s).state.errorCount + l.batchErrors ∧
          (batchLoop env b r docs (fuel + 1) i s).state.qdrantId =
            (batchLoop env b r docs fuel i s).state.qdrantId +
              ((l.points.getD []).length : Int)) := by
  intro fuel
  induction fuel with
  | zero =>
    intro i s l hl
    by_cases h : i < docs.length
    · cases hins : insertDocuments env (i / b + 1) (pushedFrom env i ((docs.drop i).take b))
        s.qdrantId (worldAfterDocs env b docs i s.world) with
      | none =>
        rw [batchLoop_fatal env b r docs 0 i s h hins] at hl
        simp only [List.getElem?_cons_zero, Option.some.injEq] at hl
        subst hl
        exact ⟨rfl, fun hok => by simp [batchLogAt] at hok⟩
      | some w2 =>
        rw [batchLoop_cons env b r docs 0 i s w2 h hins] at hl ⊢
        simp only [batchLoop_zero, List.getElem?_cons_zero, Option.some.injEq] at hl ⊢
        subst hl
        refine ⟨rfl, fun _ => ?_⟩
        obtain ⟨hm, hq, hsome⟩ := insertDocuments_result _ _ _ _ _ _ hins
        rw [batchLogAt_points]
        refine ⟨?_, ?_, ?_, ?_, ?_⟩
        · simpa [stateAfterBatch, saveProgress, worldAfterDocs] using hq
        · intro hp
          have hpos : 0 < (pushedFrom env i ((docs.drop i).take b)).length := by
            by_contra hc
            simp only [batchLogAt] at hp
            rw [if_neg (by omega)] at hp
            cases hp
          simpa [worldAfterDocs] using hsome hpos
        · simp only [stateAfterBatch, saveProgress, hm, worldAfterDocs, batchLogAt,
            persistedFrom_eq_created_calls]
        · simp only [stateAfterBatch, batchLogAt]
        · simp only [stateAfterBatch, toPoints_length]
    · rw [batchLoop_done env b r docs 0 i s h] at hl
      simp at hl
  | succ fuel ih =>
    intro i s l hl
    by_cases h : i < docs.length
    · cases hins : insertDocuments env (i / b + 1) (pushedFrom env i ((docs.drop i).take b))
        s.qdrantId (worldAfterDocs env b docs i s.world) with
      | none =>
        rw [batchLoop_fatal env b r docs (fuel + 1) i s h hins] at hl
        simp at hl
      | some w2 =>
        rw [batchLoop_cons env b r docs (fuel + 1) i s w2 h hins] at hl ⊢
        rw [batchLoop_cons env b r docs fuel i s w2 h hins]
        simp only [List.getElem?_cons_succ] at hl
        exact ih (i + b) _ l hl
    · rw [batchLoop_done env b r docs (fuel + 1) i s h] at hl
      simp at hl

/-- One iteration of a run: see `batchLoop_step`. -/
theorem loadData_step (env : Env) (b : Nat) (allDocuments : List Doc) (w : World) (j : Nat)
    (l : BatchLog) (hl : (loadData env b allDocuments w).logs[j]? = some l) :
    ∃ s0, stateAfterBatches env b allDocuments w j = some s0 ∧ l.startId = s0.qdrantId ∧
      (l.upsertOk = true →
        ∃ s1, stateAfterBatches env b allDocuments w (j + 1) = some s1 ∧
          s1.world.qdrant =
            s0.world.qdrant.map (fun store => upsertPoints store (l.points.getD [])) ∧
          (l.points.isSome = true → s0.world.qdrant.isSome = true) ∧
          s1.world.mongo =
            s0.world.mongo ++ (l.calls.filter (fun c => c.createOk)).map (fun c => c.created) ∧
          s1.errorCount = s0.errorCount + l.batchErrors ∧
          s1.qdrantId = s0.qdrantId + ((l.points.getD []).length : Int)) := by
  cases hs : setupStores env (loadProgress w) w with
  | none =>
    rw [(loadData_of_setup_none env b allDocuments w hs).1] at hl
    simp at hl
  | some w0 =>
    rw [(loadData_of_setup_some env b allDocuments w w0 hs).1] at hl
    have hpre := batchLoop_logs_prefix env b (loadProgress w) _ _ 0 j _ l hl
    have hj : j < (loopOf env b allDocuments w w0).logs.length := by
      by_contra hc
      rw [List.getElem?_eq_none (by omega)] at hl
      cases hl
    have hlast : (batchLoop env b (loadProgress w)
        (jsSlice (allDocuments.filter hasValidText) (loadProgress w)) (j + 1) 0
        { world := w0, loaded := loadProgress w, qdrantId := loadProgress w + 1,
          errorCount := 0 }).logs[j]? = some l := by
      rw [hpre]
      exact getElem?_take_concat _ j l hj
    obtain ⟨h1, h2⟩ := batchLoop_step env b (loadProgress w) _ j 0 _ l hlast
    refine ⟨_, stateAfterBatches_of_setup env b allDocuments w w0 hs j, h1, fun hok => ?_⟩
    exact ⟨_, stateAfterBatches_of_setup env b allDocuments w w0 hs (j + 1), h2 hok⟩

/-- A loop that ends on a fatal error has a record whose points request
failed. -/
theorem fatal_has_failed_request (env : Env) (b : Nat) (r : Int) (docs : List Doc) :
    ∀ (fuel i : Nat) (s : LoopState),
      (batchLoop env b r docs fuel i s).status = Status.fatal →
        ∃ l ∈ (batchLoop env b r docs fuel i s).logs, l.upsertOk = false := by
  intro fuel
  induction fuel with
  | zero => intro i s hst; simp [batchLoop] at hst
  | succ fuel ih =>
    intro i s hst
    by_cases h : i < docs.length
    · cases hins : insertDocuments env (i / b + 1) (pushedFrom env i ((docs.drop i).take b))
        s.qdrantId (worldAfterDocs env b docs i s.world) with
      | none =>
        rw [batchLoop_fatal env b r docs fuel i s h hins]
        exact ⟨_, List.mem_singleton.2 rfl, rfl⟩
      | some w2 =>
        rw [batchLoop_cons env b r docs fuel i s w2 h hins] at hst ⊢
        obtain ⟨l, hl, hok⟩ := ih (i + b) _ hst
        exact ⟨l, List.mem_cons_of_mem _ hl, hok⟩
    · rw [batchLoop_done env b r docs fuel i s h] at hst
      simp at hst

/-! ## Claims settled on the stores after each batch -/

/-- C9: for a batch of a run that gets to write its checkpoint, the value
written is the previous checkpoint value (the loaded checkpoint, for the first
batch of the run) plus the number of documents attempted in the batch, which is
the length of the batch whatever the number of documents that failed. The
checkpoint file holds the previous value before the batch and the new value
after it, so the value read back from the file advances by the length of the
batch. -/
theorem checkpoint_advances_by_attempts (env : Env) (batchSize : Nat) (allDocuments : List Doc)
    (w : World) (j : Nat) (l : BatchLog) (v : Int)
    (hl : (loadData env batchSize allDocuments w).logs[j]? = some l) (hv : l.saved = some v) :
    l.calls.map (fun c => c.rawDoc) = l.batch ∧
    l.batchErrors ≤ l.batch.length ∧
    (∃ prev : Int,
      ((j = 0 ∧ prev = (loadData env batchSize allDocuments w).resumeFrom) ∨
        (∃ l', 0 < j ∧ (loadData env batchSize allDocuments w).logs[j - 1]? = some l' ∧
          l'.saved = some prev)) ∧
      v = prev + (l.batch.length : Int)) ∧
    ∃ s0 s1 : LoopState,
      stateAfterBatches env batchSize allDocuments w j = some s0 ∧
      stateAfterBatches env batchSize allDocuments w (j + 1) = some s1 ∧
      (j = 0 → s0.world.progressFile = w.progressFile) ∧
      (0 < j → s0.world.progressFile =
        some (ProgressContent.object (some (v - (l.batch.length : Int))))) ∧
      s1.world.progressFile = some (ProgressContent.object (some v)) ∧
      loadProgress s1.world = loadProgress s0.world + (l.batch.length : Int) := by
  obtain ⟨i, q, ok, _, hshape⟩ :=
    loadData_log_shape env batchSize allDocuments w l (List.getElem?_mem hl)
  have hcalls : l.calls.map (fun c => c.rawDoc) = l.batch := by
    rw [hshape]
    simp only [batchLogAt, callsFrom_rawDoc]
  have hlen : l.calls.length = l.batch.length := by
    rw [← hcalls, List.length_map]
  obtain ⟨prev, hprev, hvp⟩ :=
    loadData_checkpoint_chain env batchSize allDocuments w j l v hl hv
  rw [hlen] at hvp
  obtain ⟨s1, hs1, hf1⟩ := stateAfterBatches_file env batchSize allDocuments w j l v hl hv
  have hbefore : ∃ s0 : LoopState, stateAfterBatches env batchSize allDocuments w j = some s0 ∧
      (j = 0 → s0.world.progressFile = w.progressFile) ∧
      (0 < j → s0.world.progressFile = some (ProgressContent.object (some prev))) ∧
      loadProgress s0.world = prev := by
    rcases hprev with ⟨hj, hp⟩ | ⟨l', hj, hl', hs'⟩
    · subst hj
      cases hs : setupStores env (loadProgress w) w with
      | none =>
        rw [(loadData_of_setup_none env batchSize allDocuments w hs).1] at hl
        simp at hl
      | some w0 =>
        obtain ⟨s0, h0, _, hfile, _⟩ := stateAfterBatches_zero env batchSize allDocuments w w0 hs
        refine ⟨s0, h0, fun _ => hfile, fun h => absurd h (by omega), ?_⟩
        rw [hp]
        simp only [loadProgress, hfile]
    · obtain ⟨s0, h0, hfile⟩ :=
        stateAfterBatches_file env batchSize allDocuments w (j - 1) l' prev hl' hs'
      have e : j - 1 + 1 = j := by omega
      rw [e] at h0
      exact ⟨s0, h0, fun h => absurd h (by omega), fun _ => hfile,
        loadProgress_of_file _ _ hfile⟩
  obtain ⟨s0, hs0, hz, hp, hread⟩ := hbefore
  refine ⟨hcalls, ?_, ⟨prev, ?_, hvp⟩, s0, s1, hs0, hs1, hz, ?_, hf1, ?_⟩
  · rw [hshape]
    simp only [batchLogAt]
    have := failures_add_pushed env
      ((jsSlice (allDocuments.filter hasValidText) (loadProgress w)).drop i |>.take batchSize) i
    omega
  · rw [(loadData_fields env batchSize allDocuments w).2.2.1]
    exact hprev
  · intro hj
    rw [hp hj]
    congr 3
    omega
  · rw [loadProgress_of_file _ _ hf1, hread]
    exact hvp

/-- C9, at a run whose only batch fails on both of its documents: the
checkpoint file still goes from absent, read as 0, to 2. -/
theorem checkpoint_advances_by_attempts_witness :
    (loadData storeDownEnv 25 twoVerses blankWorld).logs[0]? =
      some (batchLogAt storeDownEnv 25 0 twoVerses 0 1 true) ∧
    (batchLogAt storeDownEnv 25 0 twoVerses 0 1 true).batchErrors = 2 ∧
    (batchLogAt storeDownEnv 25 0 twoVerses 0 1 true).saved = some 2 ∧
    ∃ s0 s1 : LoopState,
      stateAfterBatches storeDownEnv 25 twoVerses blankWorld 0 = some s0 ∧
      stateAfterBatches storeDownEnv 25 twoVerses blankWorld (0 + 1) = some s1 ∧
      (0 = 0 → s0.world.progressFile = blankWorld.progressFile) ∧
      (0 < 0 → s0.world.progressFile =
        some (ProgressContent.object (some ((2 : Int) -
          ((batchLogAt storeDownEnv 25 0 twoVerses 0 1 true).batch.length : Int))))) ∧
      s1.world.progressFile = some (ProgressContent.object (some 2)) ∧
      loadProgress s1.world = loadProgress s0.world +
        ((batchLogAt storeDownEnv 25 0 twoVerses 0 1 true).batch.length : Int) :=
  ⟨by decide, by decide, by decide,
    (checkpoint_advances_by_attempts storeDownEnv 25 twoVerses blankWorld 0
      (batchLogAt storeDownEnv 25 0 twoVerses 0 1 true) 2 (by decide) (by decide)).2.2.2⟩

theorem checkpointsWritten_getElem? (logs : List BatchLog)
    (hall : ∀ l ∈ logs, l.saved.isSome = true) :
    ∀ (j : Nat) (l : BatchLog), logs[j]? = some l →
      ∃ v, l.saved = some v ∧ (checkpointsWritten logs)[j]? = some v := by
  induction logs with
  | nil => intro j l hl; simp at hl
  | cons l0 logs ih =>
    intro j l hl
    obtain ⟨v0, hv0⟩ := Option.isSome_iff_exists.1 (hall l0 (List.mem_cons_self _ _))
    have hcw : checkpointsWritten (l0 :: logs) = v0 :: checkpointsWritten logs := by
      simp [checkpointsWritten, hv0]
    rw [hcw]
    cases j with
    | zero =>
      simp only [List.getElem?_cons_zero, Option.some.injEq] at hl
      subst hl
      exact ⟨v0, hv0, by simp⟩
    | succ j =>
      simp only [List.getElem?_cons_succ] at hl ⊢
      exact ih (fun l' hl' => hall l' (List.mem_cons_of_mem _ hl')) j l hl

/-- A fresh run whose step 4 returns and none of whose points requests fails:
the batch loop completes, and the result in terms of the outcomes of the valid
documents and of the vector index step 4 left. -/
theorem fresh_run_of_setup (env : Env) (b : Nat) (allDocuments : List Doc) (w w0 : World)
    (hb : 0 < b) (hfresh : loadProgress w = 0) (hup : ∀ n, env.upsertThrows n = false)
    (hs : setupStores env (loadProgress w) w = some w0) :
    ∃ store, w0.qdrant = some store ∧
      ((env.deleteFault = false ∨ w.qdrant = none) → store = []) ∧
      (loadData env b allDocuments w).status =
        (if env.countThrows then Status.fatal else Status.completed) ∧
      (∀ l ∈ (loadData env b allDocuments w).logs, l.upsertOk = true ∧ l.saved.isSome = true) ∧
      (loadData env b allDocuments w).logs.length =
        ((allDocuments.filter hasValidText).length + b - 1) / b ∧
      checkpointsWritten (loadData env b allDocuments w).logs =
        (List.range (((allDocuments.filter hasValidText).length + b - 1) / b)).map
          (fun j => ((min ((j + 1) * b) (allDocuments.filter hasValidText).length : Nat) : Int)) ∧
      (loadData env b allDocuments w).logs.map (fun l => l.batch.length) =
        (List.range (((allDocuments.filter hasValidText).length + b - 1) / b)).map
          (fun j => min b ((allDocuments.filter hasValidText).length - j * b)) ∧
      upsertedPoints (loadData env b allDocuments w).logs =
        toPoints (pushedFrom env 0 (allDocuments.filter hasValidText)) 1 ∧
      (loadData env b allDocuments w).world.qdrant =
        some (upsertPoints store (toPoints (pushedFrom env 0 (allDocuments.filter hasValidText)) 1)) ∧
      (loadData env b allDocuments w).world.mongo =
        persistedFrom env 0 (allDocuments.filter hasValidText) ∧
      (loadData env b allDocuments w).errorCount =
        failuresFrom env 0 (allDocuments.filter hasValidText) := by
  obtain ⟨hm, hq⟩ := setupStores_qdrant env (loadProgress w) w w0 (by omega) hs
  obtain ⟨store, hstore⟩ : ∃ store, w0.qdrant = some store := by
    rcases hq with ⟨_, h⟩ | ⟨_, ⟨_, h⟩ | ⟨st, _, h⟩⟩
    · exact ⟨[], h⟩
    · exact ⟨[], h⟩
    · exact ⟨st, h⟩
  obtain ⟨g1, _, g3, g4, g5, _, _⟩ := loadData_of_setup_some env b allDocuments w w0 hs
  have hloop : loopOf env b allDocuments w w0 =
      batchLoop env b 0 (allDocuments.filter hasValidText)
        ((allDocuments.filter hasValidText).length + 1) 0
        { world := w0, loaded := 0, qdrantId := 1, errorCount := 0 } := by
    simp only [loopOf, hfresh, jsSlice_zero]
    rfl
  rw [hloop] at g1 g3 g4 g5
  obtain ⟨c1, c2, c3, c4, _, c6⟩ := batchLoop_complete env b 0 (allDocuments.filter hasValidText)
    hb hup ((allDocuments.filter hasValidText).length + 1) 0
    { world := w0, loaded := 0, qdrantId := 1, errorCount := 0 } store (by omega) hstore
  obtain ⟨e1, e2, e3⟩ := completed_shape env b 0 (allDocuments.filter hasValidText) hb
    ((allDocuments.filter hasValidText).length + 1) 0 _ c1
  have hall := (upsert_failure_stops env b 0 (allDocuments.filter hasValidText)
    ((allDocuments.filter hasValidText).length + 1) 0
    { world := w0, loaded := 0, qdrantId := 1, errorCount := 0 }).2 c1
  simp only [List.drop_zero, Nat.zero_add, Nat.sub_zero, hm, List.nil_append] at c2 c3 c4 c6 e1 e2 e3
  refine ⟨store, hstore, ?_, ?_, by rw [g1]; exact hall, by rw [g1, e1], ?_, by rw [g1, e3],
    by rw [g1, c4], by rw [g5, c3], by rw [g4, c2], by rw [g3, c6]⟩
  · intro hdel
    have := setupStores_fresh env w (loadProgress w) (by omega) hdel w0 hs
    rw [this] at hstore
    exact (Option.some.inj hstore).symm
  · have hc1 : (loopOf env b allDocuments w w0).status = Status.completed := by
      rw [hloop]; exact c1
    rcases loadData_cases env b allDocuments w w0 hs with
      ⟨_, k2, k3, _⟩ | ⟨_, k2, k3, _⟩ | ⟨k1, _⟩
    · rw [k3, k2]; rfl
    · rw [k3, k2]; rfl
    · exact absurd hc1 k1
  · rw [g1, e2]
    apply List.map_congr_left
    intro j _
    simp

/-- C4 (amended): a fresh start over n valid documents with batch size b > 0,
whose reset of the stores returns, with no per-document failure and no failing
points request, runs ceil(n / b) batches, the j-th of which (from 1) has
min(b, n - (j - 1) b) documents and leaves the checkpoint file holding
min(j b, n); it upserts exactly n points, with ids 1, ..., n in this order, into
the vector index the reset left, which is empty when the request deleting the
collection succeeded or there was no collection. The run then completes, unless
the count of the verification step throws. -/
theorem fresh_run_batches (env : Env) (batchSize : Nat) (allDocuments : List Doc) (w w0 : World)
    (hb : 0 < batchSize) (hfresh : loadProgress w = 0)
    (hok : ∀ kd ∈ (allDocuments.filter hasValidText).enum, docSucceeds env kd.1 kd.2 = true)
    (hup : ∀ n, env.upsertThrows n = false)
    (hloop : (loadData env batchSize allDocuments w).atLoop = some w0) :
    (loadData env batchSize allDocuments w).status =
      (if env.countThrows then Status.fatal else Status.completed) ∧
    (loadData env batchSize allDocuments w).logs.length =
      ((allDocuments.filter hasValidText).length + batchSize - 1) / batchSize ∧
    (∀ l ∈ (loadData env batchSize allDocuments w).logs, l.upsertOk = true) ∧
    (loadData env batchSize allDocuments w).logs.map (fun l => l.batch.length) =
      (List.range (((allDocuments.filter hasValidText).length + batchSize - 1) / batchSize)).map
        (fun j => min batchSize ((allDocuments.filter hasValidText).length - j * batchSize)) ∧
    checkpointsWritten (loadData env batchSize allDocuments w).logs =
      (List.range (((allDocuments.filter hasValidText).length + batchSize - 1) / batchSize)).map
        (fun j => ((min ((j + 1) * batchSize)
          (allDocuments.filter hasValidText).length : Nat) : Int)) ∧
    (∀ j, j < ((allDocuments.filter hasValidText).length + batchSize - 1) / batchSize →
      ∃ s : LoopState, stateAfterBatches env batchSize allDocuments w (j + 1) = some s ∧
        s.world.progressFile = some (ProgressContent.object (some
          ((min ((j + 1) * batchSize) (allDocuments.filter hasValidText).length : Nat) : Int)))) ∧
    (upsertedPoints (loadData env batchSize allDocuments w).logs).length =
      (allDocuments.filter hasValidText).length ∧
    (upsertedPoints (loadData env batchSize allDocuments w).logs).map (fun p => p.id) =
      (List.range (allDocuments.filter hasValidText).length).map (fun (i : Nat) => (i : Int) + 1) ∧
    (∃ store, w0.qdrant = some store ∧
      (loadData env batchSize allDocuments w).world.qdrant =
        some (upsertPoints store (upsertedPoints (loadData env batchSize allDocuments w).logs))) ∧
    ((env.deleteFault = false ∨ w.qdrant = none) →
      (loadData env batchSize allDocuments w).world.qdrant =
        some (upsertedPoints (loadData env batchSize allDocuments w).logs)) := by
  rw [(loadData_fields env batchSize allDocuments w).2.2.2.2] at hloop
  obtain ⟨store, hstore, hempty, h1, hall, h2, h3, h4, h5, h6, _, _⟩ :=
    fresh_run_of_setup env batchSize allDocuments w w0 hb hfresh hup hloop
  have hp := pushedFrom_all env (allDocuments.filter hasValidText) 0
    (fun j d h => by simpa using hok (j, d) (enum_of_getElem? _ j d h))
  refine ⟨h1, h2, fun l hl => (hall l hl).1, h4, h3, ?_, ?_, ?_, ⟨store, hstore, by rw [h6, h5]⟩,
    ?_⟩
  · intro j hj
    obtain ⟨l, hl⟩ : ∃ l, (loadData env batchSize allDocuments w).logs[j]? = some l := by
      rw [← h2] at hj
      exact ⟨_, List.getElem?_eq_getElem hj⟩
    obtain ⟨v, hv, hcw⟩ := checkpointsWritten_getElem? _ (fun l hl => (hall l hl).2) j l hl
    rw [h3, List.getElem?_map, List.getElem?_range hj] at hcw
    simp only [Option.map_some', Option.some.injEq] at hcw
    obtain ⟨s, hs, hfile⟩ := stateAfterBatches_file env batchSize allDocuments w j l v hl hv
    exact ⟨s, hs, by rw [hfile, ← hcw]⟩
  · rw [h5, toPoints_length, hp, List.length_map]
  · rw [h5, toPoints_ids, hp, List.length_map]
    apply List.map_congr_left
    intro i _
    omega
  · intro hdel
    rw [h6, hempty hdel, h5]
    rw [upsertPoints_new _ [] 1 (by simp)]
    rfl

/-- C4 as stated fails: over 30 valid documents with batch size 25, from a
fresh start with no per-document failure, a points request that fails for the
second batch ends the run after one checkpoint, 25, and 25 upserted points. -/
theorem fresh_run_batches_counterexample :
    loadProgress blankWorld = 0 ∧
    (thirtyVerses.filter hasValidText).length = 30 ∧
    (∀ kd ∈ (thirtyVerses.filter hasValidText).enum,
      docSucceeds secondUpsertThrowsEnv kd.1 kd.2 = true) ∧
    (loadData secondUpsertThrowsEnv BATCH_SIZE thirtyVerses blankWorld).status = Status.fatal ∧
    checkpointsWritten (loadData secondUpsertThrowsEnv BATCH_SIZE thirtyVerses blankWorld).logs =
      [25] ∧
    (loadData secondUpsertThrowsEnv BATCH_SIZE thirtyVerses blankWorld).world.progressFile =
      some (ProgressContent.object (some 25)) ∧
    (upsertedPoints
      (loadData secondUpsertThrowsEnv BATCH_SIZE thirtyVerses blankWorld).logs).length = 25 ∧
    (loadData secondUpsertThrowsEnv BATCH_SIZE thirtyVerses blankWorld).world.qdrant.map
      List.length = some 25 := by
  refine ⟨by decide, by decide, by decide, by decide, by decide, by decide, by decide,
    by decide⟩

/-- C4 (amended), at the corpus of 30 valid documents with batch size 25: two
batches of 25 and 5, the checkpoint file holding 25 and then 30, ids 1 to 30. -/
theorem fresh_run_batches_witness :
    (thirtyVerses.filter hasValidText).length = 30 ∧
    (loadData quietEnv BATCH_SIZE thirtyVerses blankWorld).status = Status.completed ∧
    (loadData quietEnv BATCH_SIZE thirtyVerses blankWorld).logs.length = 2 ∧
    (loadData quietEnv BATCH_SIZE thirtyVerses blankWorld).logs.map (fun l => l.batch.length) =
      [25, 5] ∧
    checkpointsWritten (loadData quietEnv BATCH_SIZE thirtyVerses blankWorld).logs = [25, 30] ∧
    (∃ s : LoopState, stateAfterBatches quietEnv BATCH_SIZE thirtyVerses blankWorld 1 = some s ∧
      s.world.progressFile = some (ProgressContent.object (some 25))) ∧
    (∃ s : LoopState, stateAfterBatches quietEnv BATCH_SIZE thirtyVerses blankWorld 2 = some s ∧
      s.world.progressFile = some (ProgressContent.object (some 30))) ∧
    (upsertedPoints (loadData quietEnv BATCH_SIZE thirtyVerses blankWorld).logs).map
      (fun p => p.id) = (List.range 30).map (fun (i : Nat) => (i : Int) + 1) ∧
    (loadData quietEnv BATCH_SIZE thirtyVerses blankWorld).world.qdrant =
      some (upsertedPoints (loadData quietEnv BATCH_SIZE thirtyVerses blankWorld).logs) := by
  have h := fresh_run_batches quietEnv BATCH_SIZE thirtyVerses blankWorld
    { mongo := [], qdrant := some [], progressFile := none } (by decide) rfl (by decide)
    (fun _ => rfl) (by decide)
  have hn : (thirtyVerses.filter hasValidText).length = 30 := by decide
  rw [hn] at h
  obtain ⟨h1, h2, _, h4, h5, h6, _, h8, _, h10⟩ := h
  exact ⟨hn, h1, h2, h4, h5, h6 0 (by decide), h6 1 (by decide), h8, h10 (Or.inl rfl)⟩

/-- C10 (amended): in every batch of a run, whichever documents fail, every
document of the batch is attempted, in order; the batch counts one error per
failed document; the points built for the batch are built from exactly the
documents that did not fail, in their order in the batch, a request being sent
when there is at least one; and when that request does not fail, the vector
index after the batch is the index before it with exactly these points
upserted, the document store has gained the documents it accepted, and the
error counter has advanced by the errors of the batch. The error counter of the
run is the number of failed documents. A run with a positive batch size that
reaches its batch loop and none of whose points requests fails attempts every
document of every batch and leaves the vector index with the points of all
documents that did not fail upserted; this is the case when no points request
is made to fail and the collection exists at the start of the loop. -/
theorem document_failures_are_skipped (env : Env) (batchSize : Nat) (allDocuments : List Doc)
    (w : World) :
    (∀ (j : Nat) (l : BatchLog), (loadData env batchSize allDocuments w).logs[j]? = some l →
      l.calls.map (fun c => c.rawDoc) = l.batch ∧
      l.batchErrors = (l.calls.filter (fun c => !c.embedOk)).length ∧
      l.points.getD [] =
        toPoints ((l.calls.filter (fun c => c.embedOk)).map (fun c => entryOf env c.rawDoc))
          l.startId ∧
      (l.points.isSome = true ↔ ∃ c ∈ l.calls, c.embedOk = true) ∧
      ∃ s0 : LoopState, stateAfterBatches env batchSize allDocuments w j = some s0 ∧
        l.startId = s0.qdrantId ∧
        (l.upsertOk = true →
          ∃ s1 : LoopState, stateAfterBatches env batchSize allDocuments w (j + 1) = some s1 ∧
            s1.world.qdrant =
              s0.world.qdrant.map (fun store => upsertPoints store (l.points.getD [])) ∧
            (l.points.isSome = true → s0.world.qdrant.isSome = true) ∧
            s1.world.mongo = s0.world.mongo ++
              (l.calls.filter (fun c => c.createOk)).map (fun c => c.created) ∧
            s1.errorCount = s0.errorCount + l.batchErrors ∧
            s1.qdrantId = s0.qdrantId + ((l.points.getD []).length : Int))) ∧
    (loadData env batchSize allDocuments w).errorCount =
      (((loadData env batchSize allDocuments w).logs.flatMap (fun l => l.calls)).filter
        (fun c => !c.embedOk)).length ∧
    (0 < batchSize → (∀ l ∈ (loadData env batchSize allDocuments w).logs, l.upsertOk = true) →
      ∀ w0 : World, (loadData env batchSize allDocuments w).atLoop = some w0 →
        attemptedDocs (loadData env batchSize allDocuments w).logs =
          (loadData env batchSize allDocuments w).docs ∧
        (loadData env batchSize allDocuments w).errorCount =
          failuresFrom env 0 (loadData env batchSize allDocuments w).docs ∧
        upsertedPoints (loadData env batchSize allDocuments w).logs =
          toPoints (pushedFrom env 0 (loadData env batchSize allDocuments w).docs)
            ((loadData env batchSize allDocuments w).resumeFrom + 1) ∧
        (loadData env batchSize allDocuments w).world.qdrant =
          w0.qdrant.map (fun store =>
            upsertPoints store (upsertedPoints (loadData env batchSize allDocuments w).logs)) ∧
        (loadData env batchSize allDocuments w).world.mongo =
          w0.mongo ++ persistedFrom env 0 (loadData env batchSize allDocuments w).docs) ∧
    (0 < batchSize → (∀ n, env.upsertThrows n = false) →
      ∀ (w0 : World) (store : List Point),
        (loadData env batchSize allDocuments w).atLoop = some w0 → w0.qdrant = some store →
          ∀ l ∈ (loadData env batchSize allDocuments w).logs, l.upsertOk = true) := by
  have hbatch : ∀ l ∈ (loadData env batchSize allDocuments w).logs,
      l.calls.map (fun c => c.rawDoc) = l.batch ∧
      l.batchErrors = (l.calls.filter (fun c => !c.embedOk)).length ∧
      l.points.getD [] =
        toPoints ((l.calls.filter (fun c => c.embedOk)).map (fun c => entryOf env c.rawDoc))
          l.startId ∧
      (l.points.isSome = true ↔ ∃ c ∈ l.calls, c.embedOk = true) := by
    intro l hl
    obtain ⟨i, q, ok, _, hshape⟩ := loadData_log_shape env batchSize allDocuments w l hl
    rw [hshape]
    refine ⟨?_, ?_, ?_, ?_⟩
    · simp only [batchLogAt, callsFrom_rawDoc]
    · simp only [batchLogAt, failuresFrom_eq_failed_calls]
    · rw [batchLogAt_points]
      simp only [batchLogAt, pushedFrom_eq_passed_calls]
    · simp only [batchLogAt, pushedFrom_eq_passed_calls, List.length_map]
      split
      · rename_i hpos
        simp only [Option.isSome_some, true_iff]
        obtain ⟨c, hc⟩ := List.exists_mem_of_length_pos hpos
        exact ⟨c, (List.mem_filter.1 hc).1, (List.mem_filter.1 hc).2⟩
      · rename_i hpos
        simp only [Option.isSome_none, Bool.false_eq_true, false_iff]
        rintro ⟨c, hc, hok⟩
        exact hpos (List.length_pos_of_mem (List.mem_filter.2 ⟨hc, hok⟩))
  have herr : (loadData env batchSize allDocuments w).errorCount =
      (((loadData env batchSize allDocuments w).logs.flatMap (fun l => l.calls)).filter
        (fun c => !c.embedOk)).length := by
    rw [loadData_errorCount]
    generalize hL : (loadData env batchSize allDocuments w).logs = L at hbatch
    clear hL
    induction L with
    | nil => rfl
    | cons l L ih =>
      simp only [List.map_cons, List.sum_cons, List.flatMap_cons, List.filter_append,
        List.length_append]
      rw [ih (fun l' hl' => hbatch l' (List.mem_cons_of_mem _ hl')),
        (hbatch l (List.mem_cons_self _ _)).2.1]
  refine ⟨?_, herr, ?_, ?_⟩
  · intro j l hl
    obtain ⟨a1, a2, a3, a4⟩ := hbatch l (List.getElem?_mem hl)
    exact ⟨a1, a2, a3, a4, loadData_step env batchSize allDocuments w j l hl⟩
  · intro hb hall w0 hloop
    obtain ⟨_, _, f3, f4, f5⟩ := loadData_fields env batchSize allDocuments w
    rw [f5] at hloop
    obtain ⟨g1, _, _, g4, g5, _, _⟩ := loadData_of_setup_some env batchSize allDocuments w w0 hloop
    have hnr : (loopOf env batchSize allDocuments w w0).status ≠ Status.running :=
      batchLoop_ends env batchSize (loadProgress w) _ hb _ 0 _ (by omega)
    have hnf : (loopOf env batchSize allDocuments w w0).status ≠ Status.fatal := by
      intro hf
      obtain ⟨l, hl, hbad⟩ := fatal_has_failed_request env batchSize (loadProgress w) _ _ 0 _ hf
      have := hall l (by rw [g1]; exact hl)
      rw [this] at hbad
      cases hbad
    have hdone : (loopOf env batchSize allDocuments w w0).status = Status.completed := by
      cases hst : (loopOf env batchSize allDocuments w w0).status with
      | completed => rfl
      | fatal => exact absurd hst hnf
      | running => exact absurd hst hnr
    obtain ⟨c2, c3, c4, c5⟩ := completed_state env batchSize (loadProgress w)
      (jsSlice (allDocuments.filter hasValidText) (loadProgress w))
      ((jsSlice (allDocuments.filter hasValidText) (loadProgress w)).length + 1) 0
      { world := w0, loaded := loadProgress w, qdrantId := loadProgress w + 1, errorCount := 0 }
      hdone
    simp only [List.drop_zero] at c2 c3 c4 c5
    have hcalls : (loadData env batchSize allDocuments w).logs.flatMap (fun l => l.calls) =
        callsFrom env 0 (jsSlice (allDocuments.filter hasValidText) (loadProgress w)) := by
      rw [g1]; exact c5
    have hups : upsertedPoints (loadData env batchSize allDocuments w).logs =
        toPoints (pushedFrom env 0 (jsSlice (allDocuments.filter hasValidText) (loadProgress w)))
          (loadProgress w + 1) := by
      rw [g1]; exact c4
    refine ⟨?_, ?_, ?_, ?_, ?_⟩
    · rw [f4, attemptedDocs, ← List.map_flatMap, hcalls, callsFrom_rawDoc]
    · rw [herr, hcalls, f4, failuresFrom_eq_failed_calls]
    · rw [hups, f3, f4]
    · rw [g5, hups]
      exact c3
    · rw [g4, f4]
      exact c2
  · intro hb hup w0 store hloop hq l hl
    obtain ⟨_, _, _, _, f5⟩ := loadData_fields env batchSize allDocuments w
    rw [f5] at hloop
    obtain ⟨g1, _⟩ := loadData_of_setup_some env batchSize allDocuments w w0 hloop
    obtain ⟨c1, _⟩ := batchLoop_complete env batchSize (loadProgress w)
      (jsSlice (allDocuments.filter hasValidText) (loadProgress w)) hb hup
      ((jsSlice (allDocuments.filter hasValidText) (loadProgress w)).length + 1) 0
      { world := w0, loaded := loadProgress w, qdrantId := loadProgress w + 1, errorCount := 0 }
      store (by omega) hq
    rw [g1] at hl
    exact ((upsert_failure_stops env batchSize (loadProgress w) _ _ 0 _).2 c1 l hl).1

/-- C10 as stated fails: with batch size 1 over three valid documents, the
embedding call of the first document throws and the points request of the
second batch fails; the run ends there, and the third document, which is in a
later batch, is never attempted. -/
theorem later_batch_counterexample :
    (loadData embedAndUpsertThrowEnv 1 threeVerses blankWorld).docs = threeVerses ∧
    (loadData embedAndUpsertThrowEnv 1 threeVerses blankWorld).errorCount = 1 ∧
    attemptedDocs (loadData embedAndUpsertThrowEnv 1 threeVerses blankWorld).logs =
      [verseDoc 1, verseDoc 2] ∧
    verseDoc 3 ∉ attemptedDocs (loadData embedAndUpsertThrowEnv 1 threeVerses blankWorld).logs ∧
    (loadData embedAndUpsertThrowEnv 1 threeVerses blankWorld).status = Status.fatal ∧
    (loadData embedAndUpsertThrowEnv 1 threeVerses blankWorld).world.qdrant = some [] := by
  refine ⟨by decide, by decide, by decide, by decide, by decide, by decide⟩

/-- C10 (amended), at a run over three valid documents whose second embedding
call throws: all three are attempted, one error is counted, and the vector
index, empty before the batch, holds after it the points of the first and third
documents, in this order, with ids 1 and 2. -/
theorem document_failures_are_skipped_witness :
    (loadData secondEmbedThrowsEnv 25 threeVerses blankWorld).docs = threeVerses ∧
    (loadData secondEmbedThrowsEnv 25 threeVerses blankWorld).errorCount = 1 ∧
    upsertedPoints (loadData secondEmbedThrowsEnv 25 threeVerses blankWorld).logs =
      toPoints [entryOf secondEmbedThrowsEnv (verseDoc 1),
        entryOf secondEmbedThrowsEnv (verseDoc 3)] 1 ∧
    attemptedDocs (loadData secondEmbedThrowsEnv 25 threeVerses blankWorld).logs =
      (loadData secondEmbedThrowsEnv 25 threeVerses blankWorld).docs ∧
    (loadData secondEmbedThrowsEnv 25 threeVerses blankWorld).world.qdrant =
      (some ([] : List Point)).map (fun store => upsertPoints store
        (upsertedPoints (loadData secondEmbedThrowsEnv 25 threeVerses blankWorld).logs)) ∧
    (loadData secondEmbedThrowsEnv 25 threeVerses blankWorld).world.qdrant =
      some (toPoints [entryOf secondEmbedThrowsEnv (verseDoc 1),
        entryOf secondEmbedThrowsEnv (verseDoc 3)] 1) :=
  ⟨by decide, by decide, by decide,
    ((document_failures_are_skipped secondEmbedThrowsEnv 25 threeVerses blankWorld).2.2.1
      (by decide) (by decide) { mongo := [], qdrant := some [], progressFile := none }
      (by decide)).1,
    ((document_failures_are_skipped secondEmbedThrowsEnv 25 threeVerses blankWorld).2.2.1
      (by decide) (by decide) { mongo := [], qdrant := some [], progressFile := none }
      (by decide)).2.2.2.1,
    by decide⟩

/-- Step 4 of a fresh start returns with both stores empty when the request
deleting the collection succeeds or there is no collection, and neither the
request creating it nor the clearing of the document store fails. -/
theorem setupStores_fresh_returns (env : Env) (w : World) (r : Int) (hr : ¬ r > 0)
    (hdel : env.deleteFault = false ∨ w.qdrant = none) (hcr : env.createFault = false)
    (hdm : env.deleteManyThrows = false) :
    setupStores env r w =
      some { mongo := [], qdrant := some [], progressFile := w.progressFile } := by
  unfold setupStores
  rw [if_neg hr]
  unfold deleteCollection createCollection collectionExists KnowledgeSource.deleteMany
  rcases hdel with hd | hq
  · cases h1 : env.existsFault <;> simp [h1, hd, hcr, hdm]
  · cases h1 : env.existsFault <;> cases h2 : env.deleteFault <;> simp [h1, h2, hq, hcr, hdm]

/-- C25 (amended): on a fresh start over n valid documents with no
per-document failure, whose request deleting the collection succeeds or which
finds no collection, a run that completes leaves exactly the n sanitized valid
documents in the document store (and counts n) and exactly n points in the
vector index, the i-th of which has id i + 1 and, as payload, the english_text,
source_type and reference of the i-th document of the document store. The run
does complete when the batch size is positive and no points request, no request
of the reset and not the final count fails. -/
theorem fresh_run_stores_agree (env : Env) (batchSize : Nat) (allDocuments : List Doc)
    (w : World) (hfresh : loadProgress w = 0)
    (hok : ∀ kd ∈ (allDocuments.filter hasValidText).enum, docSucceeds env kd.1 kd.2 = true)
    (hdel : env.deleteFault = false ∨ w.qdrant = none) :
    ((loadData env batchSize allDocuments w).status = Status.completed →
      (loadData env batchSize allDocuments w).mongoCount =
        some (allDocuments.filter hasValidText).length ∧
      (loadData env batchSize allDocuments w).world.mongo =
        (allDocuments.filter hasValidText).map sanitizeDoc ∧
      ∃ points, (loadData env batchSize allDocuments w).world.qdrant = some points ∧
        points.length = (allDocuments.filter hasValidText).length ∧
        ∀ (i : Nat) (d : Doc), (allDocuments.filter hasValidText)[i]? = some d →
          ∃ (stored : SanDoc) (p : Point),
            (loadData env batchSize allDocuments w).world.mongo[i]? = some stored ∧
            stored = sanitizeDoc d ∧
            points[i]? = some p ∧
            p.id = (i : Int) + 1 ∧
            p.payload = Payload.mk stored.english_text stored.source_type stored.reference) ∧
    (0 < batchSize → (∀ n, env.upsertThrows n = false) → env.createFault = false →
      env.deleteManyThrows = false → env.countThrows = false →
        (loadData env batchSize allDocuments w).status = Status.completed) := by
  have hdoc : ∀ j d, (allDocuments.filter hasValidText)[j]? = some d →
      docSucceeds env (0 + j) d = true :=
    fun j d h => by simpa using hok (j, d) (enum_of_getElem? _ j d h)
  have hp := pushedFrom_all env (allDocuments.filter hasValidText) 0 hdoc
  have hm := persistedFrom_all env (allDocuments.filter hasValidText) 0
    (fun j d h => createSucceeds_of_docSucceeds env _ d (hdoc j d h))
  refine ⟨?_, ?_⟩
  · intro hdone
    obtain ⟨_, h2, w0, hs, h3⟩ := fresh_completed_stores env batchSize allDocuments w hfresh hdone
    have hw0 := setupStores_fresh env w 0 (by omega) hdel w0 hs
    rw [hw0] at h3
    simp only [Option.map_some'] at h3
    rw [upsertPoints_new _ [] 1 (by simp)] at h3
    simp only [List.nil_append] at h3
    have hcount : (loadData env batchSize allDocuments w).mongoCount =
        some (loadData env batchSize allDocuments w).world.mongo.length := by
      rw [← hfresh] at hs
      rcases loadData_cases env batchSize allDocuments w w0 hs with
        ⟨_, _, _, c4, c5⟩ | ⟨_, _, c3, _⟩ | ⟨c1, c2, _⟩
      · rw [c5, c4, (clearProgress_fields env _).1]
      · rw [c3] at hdone; cases hdone
      · rw [c2] at hdone; exact absurd hdone c1
    refine ⟨by rw [hcount, h2, hm, List.length_map], by rw [h2, hm], _, h3,
      by rw [toPoints_length, hp, List.length_map], ?_⟩
    intro i d hi
    refine ⟨sanitizeDoc d, _, by rw [h2, hm, List.getElem?_map, hi]; rfl, rfl,
      toPoints_getElem?_some _ 1 i (entryOf env d) (by rw [hp, List.getElem?_map, hi]; rfl),
      by simp only; omega, rfl⟩
  · intro hb hup hcr hdm hcount
    have hs := setupStores_fresh_returns env w (loadProgress w) (by omega) hdel hcr hdm
    obtain ⟨_, _, _, hst, _⟩ := fresh_run_of_setup env batchSize allDocuments w _ hb hfresh hup hs
    rw [hst, hcount]
    rfl

/-- C25 as stated fails: on a fresh start over two valid documents with no
per-document and no upsert failure, a request deleting the collection that
fails is swallowed, the point with id 7 of an earlier load stays, and the run
completes with two documents in the document store and three points in the
vector index. -/
theorem stale_point_counterexample :
    loadProgress staleWorld = 0 ∧
    (twoVerses.filter hasValidText).length = 2 ∧
    (∀ kd ∈ (twoVerses.filter hasValidText).enum, docSucceeds deleteFaultEnv kd.1 kd.2 = true) ∧
    (∀ n, deleteFaultEnv.upsertThrows n = false) ∧
    (loadData deleteFaultEnv 25 twoVerses staleWorld).status = Status.completed ∧
    (loadData deleteFaultEnv 25 twoVerses staleWorld).world.mongo.length = 2 ∧
    (loadData deleteFaultEnv 25 twoVerses staleWorld).world.qdrant.map
      (fun points => points.map (fun p => p.id)) = some [7, 1, 2] ∧
    (loadData deleteFaultEnv 25 twoVerses staleWorld).world.qdrant.map List.length ≠ some 2 := by
  refine ⟨by decide, by decide, by decide, fun _ => rfl, by decide, by decide, by decide,
    by decide⟩

/-- C25 (amended), at a fresh start over three valid documents on stores an
earlier load left. -/
theorem fresh_run_stores_agree_witness :
    (loadData quietEnv 25 threeVerses staleWorld).status = Status.completed ∧
    (loadData quietEnv 25 threeVerses staleWorld).mongoCount =
      some (threeVerses.filter hasValidText).length ∧
    (loadData quietEnv 25 threeVerses staleWorld).world.mongo =
      (threeVerses.filter hasValidText).map sanitizeDoc ∧
    (loadData quietEnv 25 threeVerses staleWorld).world.qdrant.map List.length = some 3 :=
  ⟨(fresh_run_stores_agree quietEnv 25 threeVerses staleWorld (by decide) (by decide)
      (Or.inl rfl)).2 (by decide) (fun _ => rfl) rfl rfl rfl,
    ((fresh_run_stores_agree quietEnv 25 threeVerses staleWorld (by decide) (by decide)
      (Or.inl rfl)).1 (by decide)).1,
    ((fresh_run_stores_agree quietEnv 25 threeVerses staleWorld (by decide) (by decide)
      (Or.inl rfl)).1 (by decide)).2.1,
    by decide⟩

/-- C30 (amended): after `saveProgress(k)` with k > 0, `loadProgress` returns
k; it returns 0 when the checkpoint file is absent, cannot be parsed, or holds
an object whose lastIndex is missing or 0. After `clearProgress` it returns 0
when the removal of the file succeeds or there was no file; when the removal
fails, `clearProgress` ignores the error and returns, the file stays, and
`loadProgress` returns what it returned before. Neither `saveProgress` nor
`clearProgress` touches the stores. -/
theorem checkpoint_round_trip :
    (∀ (k : Int) (w : World), 0 < k → loadProgress (saveProgress k w) = k) ∧
    (∀ w : World, w.progressFile = none → loadProgress w = 0) ∧
    (∀ w : World, w.progressFile = some ProgressContent.unparsable → loadProgress w = 0) ∧
    (∀ w : World, w.progressFile = some (ProgressContent.object none) → loadProgress w = 0) ∧
    (∀ w : World, w.progressFile = some (ProgressContent.object (some 0)) →
      loadProgress w = 0) ∧
    (∀ (env : Env) (w : World), env.unlinkThrows = false →
      (clearProgress env w).progressFile = none ∧ loadProgress (clearProgress env w) = 0) ∧
    (∀ (env : Env) (w : World), w.progressFile = none →
      loadProgress (clearProgress env w) = 0) ∧
    (∀ (env : Env) (k : Int) (w : World), env.unlinkThrows = false →
      loadProgress (clearProgress env (saveProgress k w)) = 0) ∧
    (∀ (env : Env) (w : World), env.unlinkThrows = true →
      clearProgress env w = w ∧ loadProgress (clearProgress env w) = loadProgress w) ∧
    (∀ (env : Env) (k : Int) (w : World), env.unlinkThrows = true → 0 < k →
      loadProgress (clearProgress env (saveProgress k w)) = k) ∧
    (∀ (env : Env) (k : Int) (w : World),
      (saveProgress k w).mongo = w.mongo ∧ (saveProgress k w).qdrant = w.qdrant ∧
      (clearProgress env w).mongo = w.mongo ∧ (clearProgress env w).qdrant = w.qdrant) := by
  have hsave : ∀ (k : Int) (w : World), 0 < k → loadProgress (saveProgress k w) = k := by
    intro k w hk
    simp only [loadProgress, saveProgress]
    rw [if_neg (by omega)]
  have hclear : ∀ (env : Env) (w : World), env.unlinkThrows = false →
      (clearProgress env w).progressFile = none ∧ loadProgress (clearProgress env w) = 0 := by
    intro env w hu
    have h := (clearProgress_fields env w).2.2
    rw [hu] at h
    exact ⟨h, by simp only [loadProgress, h]; rfl⟩
  have hstay : ∀ (env : Env) (w : World), env.unlinkThrows = true → clearProgress env w = w := by
    intro env w hu
    unfold clearProgress
    cases w.progressFile <;> simp [hu]
  refine ⟨hsave, ?_, ?_, ?_, ?_, hclear, ?_, fun env k w hu => (hclear env _ hu).2,
    fun env w hu => ⟨hstay env w hu, by rw [hstay env w hu]⟩,
    fun env k w hu hk => by rw [hstay env _ hu]; exact hsave k w hk,
    fun env k w => ⟨rfl, rfl, (clearProgress_fields env w).1, (clearProgress_fields env w).2.1⟩⟩
  · intro w h
    simp [loadProgress, h]
  · intro w h
    simp [loadProgress, h]
  · intro w h
    simp [loadProgress, h]
  · intro w h
    simp [loadProgress, h]
  · intro env w h
    have : clearProgress env w = w := by
      unfold clearProgress
      rw [h]
    rw [this]
    simp [loadProgress, h]

/-- C30 as stated fails: when the removal of the checkpoint file fails,
`clearProgress` returns all the same, the file still holds 25, and
`loadProgress` returns 25, not 0. -/
theorem clearProgress_counterexample :
    (clearProgress unlinkFaultEnv (saveProgress 25 staleWorld)).progressFile =
      some (ProgressContent.object (some 25)) ∧
    loadProgress (clearProgress unlinkFaultEnv (saveProgress 25 staleWorld)) = 25 ∧
    loadProgress (clearProgress unlinkFaultEnv (saveProgress 25 staleWorld)) ≠ 0 ∧
    (loadData unlinkFaultEnv 25 twoVerses blankWorld).status = Status.completed ∧
    loadProgress (loadData unlinkFaultEnv 25 twoVerses blankWorld).world = 2 := by
  refine ⟨by decide, by decide, by decide, by decide, by decide⟩

/-- C30 (amended), at checkpoint 25 written over stores left by an earlier
load. -/
theorem checkpoint_round_trip_witness :
    loadProgress (saveProgress 25 staleWorld) = 25 ∧
    loadProgress staleWorld = 0 ∧
    loadProgress (clearProgress quietEnv (saveProgress 25 staleWorld)) = 0 ∧
    loadProgress (clearProgress unlinkFaultEnv (saveProgress 25 staleWorld)) = 25 :=
  ⟨checkpoint_round_trip.1 25 staleWorld (by decide),
    checkpoint_round_trip.2.1 staleWorld rfl,
    checkpoint_round_trip.2.2.2.2.2.2.2.1 quietEnv 25 staleWorld rfl,
    checkpoint_round_trip.2.2.2.2.2.2.2.2.2.1 unlinkFaultEnv 25 staleWorld rfl (by decide)⟩

end IslamicKnowledge
